import Mathlib

/-!
# Endpoint resolution, EndpointSlice index, ordered listing and the store of routing resources

A shallow embedding of the backend-resolution and listing code of the
multi-cluster ingress controller:

* `getEndpointsByEps`  (internal/ingress/controller/endpointslices.go)
* `EndpointSliceLister.ByKey`  (internal/ingress/controller/store/endpointslice.go)
* `sortMultiClusterIngressSlice`, `ListMultiClusterIngresses`
  (internal/ingress/controller/store/store_mci.go) and `FilterMultiClusterIngress`
  (internal/ingress/controller/store/multiclusteringress.go)
* `GetIngressClassByMCI`, `syncMultiClusterIngress`, `updateSecretMCIMap`,
  `objectRefAnnotationNsKeyFromMCI`  (internal/ingress/controller/store/store_mci.go)
* `SetDefaultNGINXPathType`  (internal/karmada/main.go)
* `canary.Parse`, `canary.ParseByMCI`  (internal/ingress/annotations/canary/main.go)

Go strings are Lean strings, Go slices are lists, a Go `int32` that is only
copied and compared is an `Int`.  A pointer field that the code dereferences
is an `Option`, and a function whose body can dereference a nil pointer returns
an `Option` whose `none` is the resulting panic.  A Go function that returns a value
and an error returns an `Except`.  Functions of the repository and of libraries that are
not among the sources are parameters of the embedding.
-/

namespace Karmada

/-! ## Standard-library functions used by the code -/

/-- The Go type `net.IP`, a byte slice. -/
abbrev IP := List Nat

/-- The functions of the Go standard library that the resolver calls and whose bodies are
long: `net.ParseIP` (`none` is the nil result), `IP.IsLoopback`, and the value returned by
`strconv.Atoi` (its error is ignored by `IntOrString.IntValue`).  The embedding takes them as
a parameter. -/
structure GoLib where
  parseIP : String → Option IP
  isLoopback : IP → Bool
  atoi : String → Int

/-- The decimal digit `d` as a character: `"0123456789"[d]`. -/
def digitChar (d : Nat) : Char := Char.ofNat (48 + d)

/-- The digit loop of `strconv.formatBits` for base 10: digits are produced from the least
significant one and stored right to left.  The first argument bounds the number of
iterations. -/
def formatBits : Nat → Nat → List Char → List Char
  | 0, _, acc => acc
  | fuel + 1, u, acc =>
    if 10 ≤ u then formatBits fuel (u / 10) (digitChar (u % 10) :: acc)
    else digitChar u :: acc

/-- Decimal text of an integer, `strconv.Itoa`. -/
def itoa (i : Int) : String :=
  if i < 0 then ⟨'-' :: formatBits (i.natAbs + 1) i.natAbs []⟩
  else ⟨formatBits (i.natAbs + 1) i.natAbs []⟩

/-- The text `fmt.Sprintf("%v", i)` of an integer `i`: its decimal text. -/
def sprintfV (i : Int) : String := itoa i

/-- The function `net.JoinHostPort`: a host that contains a colon is put in brackets. -/
def joinHostPort (host port : String) : String :=
  if ':' ∈ host.data then "[" ++ host ++ "]:" ++ port else host ++ ":" ++ port

/-- The function `strings.TrimSuffix`. -/
def trimSuffix (s suffix : String) : String :=
  if suffix.data.isSuffixOf s.data then ⟨s.data.take (s.data.length - suffix.data.length)⟩
  else s

/-- The segments of a character list around every occurrence of `sep`; `strings.Split` with
a separator of one byte. -/
def splitChars (sep : Char) : List Char → List (List Char)
  | [] => [[]]
  | c :: cs =>
    if c = sep then [] :: splitChars sep cs
    else
      match splitChars sep cs with
      | [] => [[c]]
      | seg :: rest => (c :: seg) :: rest

/-- The function `strings.Split(s, sep)` for a separator `sep` of one byte. -/
def stringsSplit (s : String) (sep : Char) : List String :=
  (splitChars sep s.data).map String.mk

/-- The character class `[a-z0-9]`. -/
def isLowerAlnum (c : Char) : Bool :=
  (decide ('a' ≤ c) && decide (c ≤ 'z')) || (decide ('0' ≤ c) && decide (c ≤ '9'))

/-- The character class `[-a-z0-9]`. -/
def isLabelChar (c : Char) : Bool := c == '-' || isLowerAlnum c

/-- A match of the whole list against `dns1123LabelFmt`, `[a-z0-9]([-a-z0-9]*[a-z0-9])?`. -/
def matchesDNS1123Label (l : List Char) : Bool :=
  match l with
  | [] => false
  | c :: cs => isLowerAlnum c && l.all isLabelChar && isLowerAlnum ((c :: cs).getLast (by simp))

/-- A match of the whole string against `dns1123SubdomainFmt`: labels joined by dots. -/
def matchesDNS1123Subdomain (value : String) : Bool :=
  (splitChars '.' value.data).all matchesDNS1123Label

/-- The constant `DNS1123SubdomainMaxLength`. -/
def DNS1123SubdomainMaxLength : Nat := 253

/-- The function `validation.IsDNS1123Subdomain` of apimachinery: the list of violations. -/
def IsDNS1123Subdomain (value : String) : List String :=
  (if DNS1123SubdomainMaxLength < value.utf8ByteSize then
    ["must be no more than 253 characters"] else []) ++
  (if matchesDNS1123Subdomain value then [] else
    ["a lowercase RFC 1123 subdomain must consist of lower case alphanumeric characters"])

/-! ## API objects -/

/-- The type `corev1.Protocol`, a string. -/
abbrev Protocol := String

/-- The type tag of `intstr.IntOrString`. -/
inductive IntstrType where
  | Int
  | String
  deriving DecidableEq, Repr

/-- The type `intstr.IntOrString`. -/
structure IntOrString where
  Type_ : IntstrType
  IntVal : Int
  StrVal : String
  deriving DecidableEq, Repr

/-- The method `IntOrString.IntValue`. -/
def IntOrString.IntValue (lib : GoLib) (intstr : IntOrString) : Int :=
  if intstr.Type_ = IntstrType.String then lib.atoi intstr.StrVal else intstr.IntVal

/-- The fields of `corev1.ServicePort` read by the resolver. -/
structure ServicePort where
  Name : String
  TargetPort : IntOrString
  deriving DecidableEq, Repr

/-- The constant `corev1.ServiceTypeExternalName`. -/
def ServiceTypeExternalName : String := "ExternalName"

/-- The fields of `corev1.ServiceSpec` read by the resolver. -/
structure ServiceSpec where
  Type_ : String
  ExternalName : String
  deriving DecidableEq, Repr

/-- The fields of `corev1.Service` read by the resolver. -/
structure Service where
  Namespace : String
  Name : String
  Spec : ServiceSpec
  deriving DecidableEq, Repr

/-- The fields of `corev1.ObjectReference` that identify an object. -/
structure ObjectReference where
  Kind : String
  Namespace : String
  Name : String
  UID : String
  deriving DecidableEq, Repr

/-- The type `discoveryv1.EndpointPort`; its three fields are pointers. -/
structure EndpointPort where
  Name : Option String
  Protocol : Option Protocol
  Port : Option Int
  deriving DecidableEq, Repr

/-- The fields of `discoveryv1.Endpoint` read by the resolver. -/
structure Endpoint where
  Addresses : List String
  TargetRef : Option ObjectReference
  deriving DecidableEq, Repr

/-- The fields of `discoveryv1.EndpointSlice` read by the resolver and by the index. -/
structure EndpointSlice where
  Namespace : String
  Name : String
  Labels : List (String × String)
  Ports : List EndpointPort
  Endpoints : List Endpoint
  deriving DecidableEq, Repr

/-- Modelled from the spec: the type `ingress.Endpoint` of package internal/ingress is not
among the sources.  One backend endpoint: an address, a port carried as text, and an
optional reference to the object it comes from. -/
structure IngressEndpoint where
  Address : String
  Port : String
  Target : Option ObjectReference
  deriving DecidableEq, Repr

/-- Modelled from the spec: the helper `k8s.MetaNamespaceKey` of package internal/k8s is not
among the sources.  The key of an object is the text "namespace/name"; as in client-go, an
object without a namespace has its bare name as key. -/
def MetaNamespaceKey (ns name : String) : String :=
  if ns.length > 0 then ns ++ "/" ++ name else name

/-! ## The endpoint resolver -/

/-- The two local variables of `getEndpointsByEps` that live for the whole call: the result
slice and the map of the keys already emitted. -/
structure ResolverState where
  upsServers : List IngressEndpoint
  processedUpstreamServers : List String
  deriving DecidableEq, Repr

/-- Lines 109 to 119: one address of one endpoint under the target port. -/
def addAddress (targetPort : Int) (targetRef : Option ObjectReference) (st : ResolverState)
    (address : String) : ResolverState :=
  let epStr := joinHostPort address (itoa targetPort)
  if epStr ∈ st.processedUpstreamServers then st
  else
    ⟨st.upsServers ++ [⟨address, sprintfV targetPort, targetRef⟩],
      epStr :: st.processedUpstreamServers⟩

/-- Lines 107 to 121: all addresses of all endpoints of the fragment. -/
def addEndpoints (targetPort : Int) (endpoints : List Endpoint) (st : ResolverState) :
    ResolverState :=
  endpoints.foldl (fun s endpoint => endpoint.Addresses.foldl
    (addAddress targetPort endpoint.TargetRef) s) st

/-- Lines 84 to 105, the head of the body of the port loop: the protocol filter and the
choice of `targetPort`.  The result is `none` when a nil pointer is dereferenced, and
otherwise the new value of `matchedPortNameFound` with the target port, or with `none` when
the iteration ends in `continue`. -/
def selectTargetPort (svcPort : ServicePort) (proto : Protocol) (numPorts index : Nat)
    (epPort : EndpointPort) (matchedPortNameFound : Bool) : Option (Bool × Option Int) :=
  match epPort.Protocol with
  | none => none
  | some p =>
    if p ≠ proto then some (matchedPortNameFound, none)
    else
      let named : Option (Bool × Int) :=
        if svcPort.Name = "" then
          match epPort.Port with
          | none => none
          | some v => some (true, v)
        else
          match epPort.Name with
          | none => none
          | some n =>
            if svcPort.Name = n then
              match epPort.Port with
              | none => none
              | some v => some (true, v)
            else some (matchedPortNameFound, 0)
      match named with
      | none => none
      | some (found, targetPort) =>
        let targetPort :=
          if (index : Int) = (numPorts : Int) - 1 ∧ found = false ∧
              svcPort.TargetPort.Type_ = IntstrType.Int then
            svcPort.TargetPort.IntVal
          else targetPort
        if targetPort ≤ 0 then some (found, none) else some (found, some targetPort)

/-- Lines 83 to 122: the loop over the ports of one fragment, from position `index` on. -/
def portsLoop (svcPort : ServicePort) (proto : Protocol) (endpointSlice : EndpointSlice) :
    Nat → List EndpointPort → Bool → ResolverState → Option (Bool × ResolverState)
  | _, [], found, st => some (found, st)
  | index, epPort :: rest, found, st =>
    match selectTargetPort svcPort proto endpointSlice.Ports.length index epPort found with
    | none => none
    | some (found, none) => portsLoop svcPort proto endpointSlice (index + 1) rest found st
    | some (found, some targetPort) =>
      portsLoop svcPort proto endpointSlice (index + 1) rest found
        (addEndpoints targetPort endpointSlice.Endpoints st)

/-- Lines 81 to 123: the loop over the fragments. -/
def slicesLoop (svcPort : ServicePort) (proto : Protocol) :
    List EndpointSlice → ResolverState → Option ResolverState
  | [], st => some st
  | endpointSlice :: rest, st =>
    match portsLoop svcPort proto endpointSlice 0 endpointSlice.Ports false st with
    | none => none
    | some (_, st) => slicesLoop svcPort proto rest st

/-- The function `getEndpointsByEps`.  The service and the port are pointers that the code
tests for nil; the lookup returns the fragments or an error. -/
def getEndpointsByEps (lib : GoLib) (svc : Option Service) (svcPort : Option ServicePort)
    (proto : Protocol) (getServiceEndpointSlices : String → Except String (List EndpointSlice)) :
    Option (List IngressEndpoint) :=
  match svc, svcPort with
  | none, _ => some []
  | some _, none => some []
  | some svc, some svcPort =>
    let svcKey := MetaNamespaceKey svc.Namespace svc.Name
    if svc.Spec.Type_ = ServiceTypeExternalName then
      let ip := lib.parseIP svc.Spec.ExternalName
      let loopback : Bool :=
        match ip with
        | some ip => lib.isLoopback ip
        | none => false
      if svc.Spec.ExternalName = "localhost" ∨ loopback = true then
        some []
      else
        let targetPort := svcPort.TargetPort.IntValue lib
        if lib.parseIP svc.Spec.ExternalName = none ∧
            (IsDNS1123Subdomain (trimSuffix svc.Spec.ExternalName ".")).length > 0 then
          some []
        else some [⟨svc.Spec.ExternalName, sprintfV targetPort, none⟩]
    else
      match getServiceEndpointSlices svcKey with
      | Except.error _ => some []
      | Except.ok endpointSlices =>
        match slicesLoop svcPort proto endpointSlices ⟨[], []⟩ with
        | none => none
        | some st => some st.upsServers

/-! ## A reference instance of the standard-library functions -/

/-- The value of a decimal digit character. -/
def digitVal (c : Char) : Nat := c.toNat - 48

/-- The character class `[0-9]`. -/
def isDigit (c : Char) : Bool := decide ('0' ≤ c) && decide (c ≤ '9')

/-- The value of a decimal digit string, most significant digit first. -/
def decimalVal (ds : List Char) : Nat := ds.foldl (fun v c => v * 10 + digitVal c) 0

/-- One octet of a dotted IPv4 literal: decimal digits, at most 255, no leading zero in front
of another digit. -/
def parseOctet (field : List Char) : Option Nat :=
  if field = [] ∨ field.all isDigit = false then none
  else if 1 < field.length ∧ field.head? = some '0' then none
  else if 255 < decimalVal field then none
  else some (decimalVal field)

/-- The four octets of a dotted IPv4 literal, or `none`. -/
def parseIPv4Octets (s : List Char) : Option (List Nat) :=
  match splitChars '.' s with
  | [a, b, c, d] =>
    match parseOctet a, parseOctet b, parseOctet c, parseOctet d with
    | some a, some b, some c, some d => some [a, b, c, d]
    | _, _, _, _ => none
  | _ => none

/-- The 16-byte form of an IPv4 address, `net.IPv4`. -/
def v4InV6 (octets : List Nat) : IP := [0, 0, 0, 0, 0, 0, 0, 0, 0, 0, 255, 255] ++ octets

/-- The value of a hexadecimal digit character. -/
def hexVal (c : Char) : Option Nat :=
  if '0' ≤ c ∧ c ≤ '9' then some (c.toNat - 48)
  else if 'a' ≤ c ∧ c ≤ 'f' then some (c.toNat - 97 + 10)
  else if 'A' ≤ c ∧ c ≤ 'F' then some (c.toNat - 65 + 10)
  else none

/-- The helper `xtoi` of package net: the value of the leading hexadecimal digits and the
rest of the text; `none` when there is no digit, when the value gets too big, and when a
group has more than four digits. -/
def xtoi : List Char → Nat → Nat → Option (Nat × List Char)
  | [], n, count => if count = 0 then none else some (n, [])
  | c :: cs, n, count =>
    match hexVal c with
    | some d =>
      if 4 ≤ count then none
      else if 16777215 ≤ n * 16 + d then none
      else xtoi cs (n * 16 + d) (count + 1)
    | none => if count = 0 then none else some (n, c :: cs)

/-- The group loop of `parseIPv6`: the bytes read so far, the position of the ellipsis and
the text that is left.  The first argument bounds the number of iterations. -/
def parseIPv6Loop : Nat → List Char → List Nat → Option Nat →
    Option (List Nat × Option Nat × List Char)
  | 0, _, _, _ => none
  | fuel + 1, s, ip, ellipsis =>
    if 16 ≤ ip.length then some (ip, ellipsis, s)
    else
      match xtoi s 0 0 with
      | none => none
      | some (n, rest) =>
        if 65535 < n then none
        else if rest.head? = some '.' then
          if (ellipsis = none ∧ ip.length ≠ 12) ∨ 16 < ip.length + 4 then none
          else
            match parseIPv4Octets s with
            | none => none
            | some ip4 => some (ip ++ ip4, ellipsis, [])
        else
          let ip := ip ++ [n / 256, n % 256]
          match rest with
          | [] => some (ip, ellipsis, [])
          | c :: rest =>
            if c ≠ ':' then none
            else
              match rest with
              | [] => none
              | ':' :: rest =>
                if ellipsis ≠ none then none
                else if rest = [] then some (ip, some ip.length, [])
                else parseIPv6Loop fuel rest ip (some ip.length)
              | c :: rest => parseIPv6Loop fuel (c :: rest) ip ellipsis

/-- The 16 bytes of an IPv6 literal, or `none`; `parseIPv6` of package net. -/
def parseIPv6 (s : List Char) : Option IP :=
  let start : Option Nat × List Char :=
    match s with
    | ':' :: ':' :: rest => (some 0, rest)
    | _ => (none, s)
  if start.1 = some 0 ∧ start.2 = [] then some (List.replicate 16 0)
  else
    match parseIPv6Loop 17 start.2 [] start.1 with
    | none => none
    | some (ip, ellipsis, rest) =>
      if rest ≠ [] then none
      else if ip.length < 16 then
        match ellipsis with
        | none => none
        | some e => some (ip.take e ++ List.replicate (16 - ip.length) 0 ++ ip.drop e)
      else if ellipsis ≠ none then none
      else some ip

/-- The function `net.ParseIP`: the first dot or colon of the text selects the IPv4 or the
IPv6 reading; a text with neither is no address. -/
def goParseIP (s : String) : Option IP :=
  match s.data.find? (fun c => c == '.' || c == ':') with
  | some '.' => (parseIPv4Octets s.data).map v4InV6
  | some _ => parseIPv6 s.data
  | none => none

/-- The method `IP.To4`. -/
def ipTo4 (ip : IP) : Option (List Nat) :=
  if ip.length = 4 then some ip
  else if ip.length = 16 ∧ ip.take 12 = [0, 0, 0, 0, 0, 0, 0, 0, 0, 0, 255, 255] then
    some (ip.drop 12)
  else none

/-- The method `IP.IsLoopback`: 127.0.0.0/8 or `::1`. -/
def goIsLoopback (ip : IP) : Bool :=
  match ipTo4 ip with
  | some ip4 => ip4.head? == some 127
  | none => ip == [0, 0, 0, 0, 0, 0, 0, 0, 0, 0, 0, 0, 0, 0, 0, 1]

/-- The digit loop of `strconv.ParseUint` in base 10 with 64 bits, from left to right: the
number that was read; `none` at a character that is no digit (a syntax error), `some none`
when the number passes 2^64 - 1 before such a character is met (a range error). -/
def parseUintLoop : List Char → Nat → Option (Option Nat)
  | [], n => some (some n)
  | c :: cs, n =>
    if isDigit c = false then none
    else if 18446744073709551615 < n * 10 + digitVal c then some none
    else parseUintLoop cs (n * 10 + digitVal c)

/-- The value returned by `strconv.Atoi`: the number of an optionally signed decimal text,
limited to 64 bits; 0 for a syntax error, the limit of its sign for a range error. -/
def goAtoi (s : String) : Int :=
  let signed : Bool × List Char :=
    match s.data with
    | '-' :: r => (true, r)
    | '+' :: r => (false, r)
    | r => (false, r)
  if signed.2 = [] then 0
  else
    match parseUintLoop signed.2 0 with
    | none => 0
    | some none => if signed.1 then -9223372036854775808 else 9223372036854775807
    | some (some n) =>
      if signed.1 then max (-(n : Int)) (-9223372036854775808)
      else min (n : Int) 9223372036854775807

/-- The standard library as the Go distribution implements it. -/
def goLib : GoLib := ⟨goParseIP, goIsLoopback, goAtoi⟩

/-! ## The EndpointSlice index -/

/-- The constant `discoveryv1.LabelServiceName`. -/
def LabelServiceName : String := "kubernetes.io/service-name"

/-- The selector `labels.SelectorFromSet(set)` applied to the labels of an object: every
label of the set is present with the same value. -/
def selectorMatches (set labels : List (String × String)) : Bool :=
  set.all (fun kv => labels.lookup kv.1 == some kv.2)

/-- The method `EndpointSliceLister.ByKey`; `store` is what `s.List()` enumerates. -/
def EndpointSliceLister.ByKey (store : List EndpointSlice) (key : String) :
    Except String (List EndpointSlice) :=
  let values := stringsSplit key '/'
  if values.length ≠ 2 then Except.error ("key " ++ key ++ " is invalid")
  else
    let ns := values.getD 0 ""
    let name := values.getD 1 ""
    let epsSelector := [(LabelServiceName, name)]
    Except.ok (store.foldl (fun machetes eps =>
      if eps.Namespace = ns ∧ selectorMatches epsSelector eps.Labels = true then
        machetes ++ [eps]
      else machetes) [])

/-! ## Ordered listing -/

/-- Modelled from the spec: the type `ingress.MultiClusterIngress` of package
internal/ingress is not among the sources.  Its fields read by the ordered listing are the
namespace, the name and the creation timestamp, an instant on a linear time scale that
`Equal` and `Before` compare. -/
structure MultiClusterIngress where
  Namespace : String
  Name : String
  CreationTimestamp : Int
  deriving DecidableEq, Repr

/-- The text `fmt.Sprintf("%v/%v", namespace, name)`. -/
def MultiClusterIngress.nsName (mci : MultiClusterIngress) : String :=
  mci.Namespace ++ "/" ++ mci.Name

/-- Lexical order of two texts, character by character; a proper head part is less. -/
def lexLess : List Char → List Char → Bool
  | _, [] => false
  | [], _ :: _ => true
  | a :: as, b :: bs => if a < b then true else if b < a then false else lexLess as bs

/-- The Go comparison `s < t` of two strings. -/
def stringLess (s t : String) : Bool := lexLess s.data t.data

/-- The comparison function that `sortMultiClusterIngressSlice` hands to the sort; `in > jn`
is `jn < in`. -/
def mciLess (i j : MultiClusterIngress) : Bool :=
  if i.CreationTimestamp = j.CreationTimestamp then stringLess j.nsName i.nsName
  else decide (i.CreationTimestamp < j.CreationTimestamp)

/-- The inner loop of the insertion sort of package sort: the new element moves left past
every neighbour it is less than.  The sorted part is held nearest neighbour first. -/
def sinkLeft {α : Type} (less : α → α → Bool) (x : α) : List α → List α
  | [] => [x]
  | y :: before => if less x y then y :: sinkLeft less x before else x :: y :: before

/-- The outer loop of the insertion sort: the elements are taken left to right. -/
def insertAll {α : Type} (less : α → α → Bool) : List α → List α → List α
  | sortedRev, [] => sortedRev
  | sortedRev, x :: rest => insertAll less (sinkLeft less x sortedRev) rest

/-- The function `sort.SliceStable`.  The library sorts blocks of 20 elements by insertion
and merges the blocks; for a comparison that is a strict weak order, as `mciLess` is, every
stable sort returns the same slice, and the embedding runs the insertion sort over the whole
slice. -/
def SliceStable {α : Type} (less : α → α → Bool) (xs : List α) : List α :=
  (insertAll less [] xs).reverse

/-- The function `sortMultiClusterIngressSlice`; the sorted slice is the result. -/
def sortMultiClusterIngressSlice (multiclusteringresses : List MultiClusterIngress) :
    List MultiClusterIngress :=
  SliceStable mciLess multiclusteringresses

/-- The method `ListMultiClusterIngresses`; `store` is what the lister enumerates. -/
def ListMultiClusterIngresses (store : List MultiClusterIngress) : List MultiClusterIngress :=
  sortMultiClusterIngressSlice (store.foldl (fun acc mci => acc ++ [mci]) [])

/-- The function `FilterMultiClusterIngress`. -/
def FilterMultiClusterIngress (mcis : List MultiClusterIngress)
    (filterFunc : MultiClusterIngress → Bool) : List MultiClusterIngress :=
  sortMultiClusterIngressSlice
    (mcis.foldl (fun afterFilter mci =>
      if filterFunc mci = false then afterFilter ++ [mci] else afterFilter) [])

/-! ## Description of the result of the resolver -/

/-- The elements of a list whose key occurs neither in `seen` nor earlier in the list, in the
order of the list. -/
def firstOccurrences {α κ : Type} [DecidableEq κ] (key : α → κ) : List κ → List α → List α
  | _, [] => []
  | seen, x :: xs =>
    if key x ∈ seen then firstOccurrences key seen xs
    else x :: firstOccurrences key (key x :: seen) xs

/-- The text under which the resolver records an endpoint in `processedUpstreamServers`. -/
def endpointKey (e : IngressEndpoint) : String := joinHostPort e.Address e.Port

/-- The state of the resolver after the endpoints of a list were offered to it one by one:
an endpoint whose key is recorded is skipped, any other is appended and recorded. -/
def offer (st : ResolverState) (cands : List IngressEndpoint) : ResolverState :=
  cands.foldl (fun st e =>
    if endpointKey e ∈ st.processedUpstreamServers then st
    else ⟨st.upsServers ++ [e], endpointKey e :: st.processedUpstreamServers⟩) st

/-- The target ports that the port loop of one fragment settles on, one for every port entry
that does not end in `continue`, in the order of the entries; `none` when a nil pointer is
dereferenced. -/
def fragmentTargetPorts (svcPort : ServicePort) (proto : Protocol) (numPorts : Nat) :
    Nat → List EndpointPort → Bool → Option (List Int)
  | _, [], _ => some []
  | index, epPort :: rest, found =>
    match selectTargetPort svcPort proto numPorts index epPort found with
    | none => none
    | some (found, none) => fragmentTargetPorts svcPort proto numPorts (index + 1) rest found
    | some (found, some targetPort) =>
      (fragmentTargetPorts svcPort proto numPorts (index + 1) rest found).map
        (fun ports => targetPort :: ports)

/-- The endpoints of a fragment under one target port: its endpoints in order, and the
addresses of each endpoint in order. -/
def portCandidates (targetPort : Int) (endpoints : List Endpoint) : List IngressEndpoint :=
  endpoints.flatMap (fun endpoint =>
    endpoint.Addresses.map (fun address => ⟨address, sprintfV targetPort, endpoint.TargetRef⟩))

/-- The endpoints of one fragment in insertion order: its target ports in the order of the
port entries, and under each the endpoints of the fragment. -/
def sliceCandidates (svcPort : ServicePort) (proto : Protocol) (endpointSlice : EndpointSlice) :
    Option (List IngressEndpoint) :=
  (fragmentTargetPorts svcPort proto endpointSlice.Ports.length 0 endpointSlice.Ports false).map
    (fun ports => ports.flatMap (fun targetPort =>
      portCandidates targetPort endpointSlice.Endpoints))

/-- The endpoints of all fragments in insertion order, duplicates included. -/
def candidates (svcPort : ServicePort) (proto : Protocol) :
    List EndpointSlice → Option (List IngressEndpoint)
  | [] => some []
  | endpointSlice :: rest =>
    match sliceCandidates svcPort proto endpointSlice with
    | none => none
    | some c => (candidates svcPort proto rest).map (fun cs => c ++ cs)

/-- The port numbers of the port entries that have the requested protocol and a positive
number, in the order of the entries. -/
def positivePorts (proto : Protocol) (ports : List EndpointPort) : List Int :=
  ports.filterMap (fun epPort =>
    if epPort.Protocol = some proto then
      match epPort.Port with
      | some n => if 0 < n then some n else none
      | none => none
    else none)

/-- The triples of address, port number and target reference that the fragments offer for the
port entries of `positivePorts`: fragments in order, port entries in order, endpoints in
order, addresses in order. -/
def positivePortCandidates (proto : Protocol) (slices : List EndpointSlice) :
    List (String × Int × Option ObjectReference) :=
  slices.flatMap (fun endpointSlice =>
    (positivePorts proto endpointSlice.Ports).flatMap (fun n =>
      endpointSlice.Endpoints.flatMap (fun endpoint =>
        endpoint.Addresses.map (fun address => (address, n, endpoint.TargetRef)))))

/-- No port entry of the fragments holds a nil pointer. -/
def portsSet (slices : List EndpointSlice) : Prop :=
  ∀ s ∈ slices, ∀ p ∈ s.Ports, p.Name ≠ none ∧ p.Protocol ≠ none ∧ p.Port ≠ none

/-! ## Routing resources -/

/-- The fields of `metav1.ObjectMeta` read by the store; the creation timestamp is an
instant on a linear time scale, the annotations are a map from name to value. -/
structure ObjectMeta where
  Namespace : String
  Name : String
  CreationTimestamp : Int
  Annotations : List (String × String)
  deriving DecidableEq, Repr

/-- The type `networkingv1.PathType`, a string. -/
abbrev PathType := String

/-- The constant `networkingv1.PathTypeExact`. -/
def PathTypeExact : PathType := "Exact"

/-- The constant `networkingv1.PathTypePrefix`. -/
def PathTypePrefix : PathType := "Prefix"

/-- The constant `networkingv1.PathTypeImplementationSpecific`. -/
def PathTypeImplementationSpecific : PathType := "ImplementationSpecific"

/-- The fields of `networkingv1.HTTPIngressPath` that the synchronizer reads and writes; the
path type is a pointer. -/
structure HTTPIngressPath where
  Path : String
  PathType : Option PathType
  deriving DecidableEq, Repr

/-- The type `networkingv1.HTTPIngressRuleValue`. -/
structure HTTPIngressRuleValue where
  Paths : List HTTPIngressPath
  deriving DecidableEq, Repr

/-- The type `networkingv1.IngressRule`; the HTTP rule value is a pointer. -/
structure IngressRule where
  Host : String
  HTTP : Option HTTPIngressRuleValue
  deriving DecidableEq, Repr

/-- The type `networkingv1.IngressTLS`. -/
structure IngressTLS where
  Hosts : List String
  SecretName : String
  deriving DecidableEq, Repr

/-- The fields of `networkingv1.IngressSpec` read by the store; the class name is a
pointer. -/
structure IngressSpec where
  IngressClassName : Option String
  TLS : List IngressTLS
  Rules : List IngressRule
  deriving DecidableEq, Repr

/-- The type `karmadanetwork.MultiClusterIngress`: metadata and an ingress spec. -/
structure karmadanetwork.MultiClusterIngress where
  ObjectMeta : ObjectMeta
  Spec : IngressSpec
  deriving DecidableEq, Repr

/-- The type `networking.Ingress`: metadata and an ingress spec. -/
structure networking.Ingress where
  ObjectMeta : ObjectMeta
  Spec : IngressSpec
  deriving DecidableEq, Repr

/-- The variable `defaultPathType` of package karmada. -/
def defaultPathType : PathType := PathTypePrefix

/-- The body of the inner loop of `SetDefaultNGINXPathType` for one path entry. -/
def setDefaultPathType (p : HTTPIngressPath) : HTTPIngressPath :=
  let pathType : Option PathType := if p.PathType = none then some defaultPathType else p.PathType
  let pathType : Option PathType :=
    if pathType = some PathTypeImplementationSpecific then some defaultPathType else pathType
  ⟨p.Path, pathType⟩

/-- The function `karmada.SetDefaultNGINXPathType`; the object with the path types set is the
result. -/
def SetDefaultNGINXPathType (mci : karmadanetwork.MultiClusterIngress) :
    karmadanetwork.MultiClusterIngress :=
  ⟨mci.ObjectMeta, ⟨mci.Spec.IngressClassName, mci.Spec.TLS,
    mci.Spec.Rules.map (fun rule =>
      match rule.HTTP with
      | none => rule
      | some http => ⟨rule.Host, some ⟨http.Paths.map setDefaultPathType⟩⟩)⟩⟩

/-! ## Annotation getters and the canary parser -/

/-- Modelled from the spec: package internal/ingress/errors is not among the sources.  The
error of an annotation getter or parser tells "annotation not present" from other failures;
a parser reports an annotation that does not contain a valid configuration with the name of
the annotation and a reason. -/
inductive AnnotationError where
  | MissingAnnotations
  | InvalidConfiguration (name reason : String)
  | Other (msg : String)
  deriving DecidableEq, Repr

/-- Modelled from the spec: the function `errors.IsMissingAnnotations`, the test for
"annotation not present". -/
def IsMissingAnnotations (err : AnnotationError) : Bool :=
  decide (err = AnnotationError.MissingAnnotations)

/-- Modelled from the spec: the function `errors.NewInvalidAnnotationConfiguration`. -/
def NewInvalidAnnotationConfiguration (name reason : String) : AnnotationError :=
  AnnotationError.InvalidConfiguration name reason

/-- The annotation getters of package internal/ingress/annotations/parser, an external
capability of the specification: each returns a typed value or an error.  The embedding
takes them as a parameter. -/
structure AnnotationGetters where
  GetBoolAnnotation : String → networking.Ingress → Except AnnotationError Bool
  GetIntAnnotation : String → networking.Ingress → Except AnnotationError Int
  GetStringAnnotation : String → networking.Ingress → Except AnnotationError String
  GetBoolAnnotationFromMCI :
    String → karmadanetwork.MultiClusterIngress → Except AnnotationError Bool
  GetIntAnnotationFromMCI :
    String → karmadanetwork.MultiClusterIngress → Except AnnotationError Int
  GetStringAnnotationFromMCI :
    String → karmadanetwork.MultiClusterIngress → Except AnnotationError String

deriving instance DecidableEq for Except

/-- The Go pattern `v, err = get(...); if err != nil { v = d }`. -/
def orDefault {ε α : Type} (r : Except ε α) (d : α) : α :=
  match r with
  | Except.ok v => v
  | Except.error _ => d

/-- The type `canary.Config`. -/
structure canary.Config where
  Enabled : Bool
  Weight : Int
  WeightTotal : Int
  Header : String
  HeaderValue : String
  HeaderPattern : String
  Cookie : String
  deriving DecidableEq, Repr

/-- Lines 89 to 92 and 138 to 141: the cross-field check and the result of the canary
parser. -/
def canary.validate (config : canary.Config) : Except AnnotationError canary.Config :=
  if config.Enabled = false ∧ (config.Weight > 0 ∨ config.Header.utf8ByteSize > 0 ∨
      config.HeaderValue.utf8ByteSize > 0 ∨ config.Cookie.utf8ByteSize > 0 ∨
      config.HeaderPattern.utf8ByteSize > 0) then
    Except.error (NewInvalidAnnotationConfiguration "canary" "configured but not enabled")
  else Except.ok config

/-- The method `canary.Parse`. -/
def canary.Parse (parser : AnnotationGetters) (ing : networking.Ingress) :
    Except AnnotationError canary.Config :=
  let enabled := orDefault (parser.GetBoolAnnotation "canary" ing) false
  let weight := orDefault (parser.GetIntAnnotation "canary-weight" ing) 0
  let weightTotal := orDefault (parser.GetIntAnnotation "canary-weight-total" ing) 100
  let header := orDefault (parser.GetStringAnnotation "canary-by-header" ing) ""
  let headerValue := orDefault (parser.GetStringAnnotation "canary-by-header-value" ing) ""
  let headerPattern := orDefault (parser.GetStringAnnotation "canary-by-header-pattern" ing) ""
  let cookie := orDefault (parser.GetStringAnnotation "canary-by-cookie" ing) ""
  canary.validate ⟨enabled, weight, weightTotal, header, headerValue, headerPattern, cookie⟩

/-- The method `canary.ParseByMCI`. -/
def canary.ParseByMCI (parser : AnnotationGetters) (mci : karmadanetwork.MultiClusterIngress) :
    Except AnnotationError canary.Config :=
  let enabled := orDefault (parser.GetBoolAnnotationFromMCI "canary" mci) false
  let weight := orDefault (parser.GetIntAnnotationFromMCI "canary-weight" mci) 0
  let weightTotal := orDefault (parser.GetIntAnnotationFromMCI "canary-weight-total" mci) 100
  let header := orDefault (parser.GetStringAnnotationFromMCI "canary-by-header" mci) ""
  let headerValue :=
    orDefault (parser.GetStringAnnotationFromMCI "canary-by-header-value" mci) ""
  let headerPattern :=
    orDefault (parser.GetStringAnnotationFromMCI "canary-by-header-pattern" mci) ""
  let cookie := orDefault (parser.GetStringAnnotationFromMCI "canary-by-cookie" mci) ""
  canary.validate ⟨enabled, weight, weightTotal, header, headerValue, headerPattern, cookie⟩

/-! ### A reference instance of the annotation getters -/

/-- Modelled from the spec: the constant `parser.AnnotationsPrefix` is not among the sources;
the annotations of the controller are named by a prefix and a short name. -/
def AnnotationsPrefix : String := "nginx.ingress.kubernetes.io"

/-- The value of the annotation with a short name, or "annotation not present". -/
def annotationValue (name : String) (annotations : List (String × String)) :
    Except AnnotationError String :=
  match annotations.lookup (AnnotationsPrefix ++ "/" ++ name) with
  | some v => Except.ok v
  | none => Except.error AnnotationError.MissingAnnotations

/-- The texts that `strconv.ParseBool` accepts. -/
def parseBool (s : String) : Option Bool :=
  if s ∈ ["1", "t", "T", "TRUE", "true", "True"] then some true
  else if s ∈ ["0", "f", "F", "FALSE", "false", "False"] then some false
  else none

/-- The number of an optionally signed decimal text, or `none`. -/
def parseInt (s : String) : Option Int :=
  let signed : Bool × List Char :=
    match s.data with
    | '-' :: r => (true, r)
    | '+' :: r => (false, r)
    | r => (false, r)
  if signed.2 = [] ∨ signed.2.all isDigit = false then none
  else if signed.1 then some (-(decimalVal signed.2 : Int))
  else some (decimalVal signed.2 : Int)

/-- A typed getter over an annotation map: the annotation is read and its text parsed; a text
that does not parse is a failure other than "annotation not present". -/
def typedAnnotation {α : Type} (parse : String → Option α) (name : String)
    (annotations : List (String × String)) : Except AnnotationError α :=
  match annotationValue name annotations with
  | Except.error err => Except.error err
  | Except.ok v =>
    match parse v with
    | some a => Except.ok a
    | none => Except.error (AnnotationError.Other ("invalid annotation content: " ++ v))

/-- Modelled from the spec: the getters of package parser are not among the sources.
`GetBool`, `GetInt` and `GetString` read the annotation of an object and return a typed
value, the error "annotation not present", or another error for a text that has no value of
the type. -/
def mapGetters : AnnotationGetters :=
  ⟨fun name ing => typedAnnotation parseBool name ing.ObjectMeta.Annotations,
    fun name ing => typedAnnotation parseInt name ing.ObjectMeta.Annotations,
    fun name ing => typedAnnotation (fun v => if v = "" then none else some v) name
      ing.ObjectMeta.Annotations,
    fun name mci => typedAnnotation parseBool name mci.ObjectMeta.Annotations,
    fun name mci => typedAnnotation parseInt name mci.ObjectMeta.Annotations,
    fun name mci => typedAnnotation (fun v => if v = "" then none else some v) name
      mci.ObjectMeta.Annotations⟩

/-! ## Class admission -/

/-- Modelled from the spec: the type `ingressclass.IngressClassConfiguration` is not among
the sources.  The fields read by the admission are the configured class identity for the
annotation, the "watch without class" mode and the switch that makes the controller ignore
the class name of the spec. -/
structure IngressClassConfiguration where
  AnnotationValue : String
  WatchWithoutClass : Bool
  IgnoreIngressClass : Bool
  deriving DecidableEq, Repr

/-- Modelled from the spec: the constant `ingressclass.IngressKey` is not among the sources;
it is the name of the ingress-class annotation. -/
def IngressKey : String := "kubernetes.io/ingress.class"

/-- The field of `networkingv1.IngressClass` read by the admission. -/
structure IngressClass where
  Name : String
  deriving DecidableEq, Repr

/-- The method `GetIngressClassByMCI`.  The first argument is the ingress-class resolver
`s.listers.IngressClass.ByKey` of the specification, a parameter of the embedding. -/
def GetIngressClassByMCI (IngressClassByKey : String → Except String IngressClass)
    (mci : karmadanetwork.MultiClusterIngress) (icConfig : IngressClassConfiguration) :
    Except String String :=
  match icConfig.IgnoreIngressClass, mci.Spec.IngressClassName with
  | false, some name =>
    match IngressClassByKey name with
    | Except.error err => Except.error err
    | Except.ok ingressClass => Except.ok ingressClass.Name
  | _, _ =>
    match mci.ObjectMeta.Annotations.lookup IngressKey with
    | some ingressClass =>
      if ingressClass ≠ icConfig.AnnotationValue then
        Except.error "ingress class annotation is not equal to the expected by Ingress Controller"
      else Except.ok ingressClass
    | none =>
      if icConfig.WatchWithoutClass = true then Except.ok "_"
      else Except.error "ingress does not contain a valid IngressClass"

/-! ## The store of routing resources -/

/-- Modelled from the spec: the type `ObjectRefMap` of the store package is not among the
sources.  The secret-reference index maps the key of a referencing resource to the ordered
set of the secret keys it references. -/
structure ObjectRefMap where
  refs : String → List String

/-- Modelled from the spec: the method `Delete` of the secret-reference index clears the
reference set recorded for a resource. -/
def ObjectRefMap.Delete (o : ObjectRefMap) (consumer : String) : ObjectRefMap :=
  ⟨fun key => if key = consumer then [] else o.refs key⟩

/-- Modelled from the spec: the method `Insert` of the secret-reference index adds secret
keys to the reference set of a resource; a key that is in the set is not added again. -/
def ObjectRefMap.Insert (o : ObjectRefMap) (consumer : String) (ref : List String) :
    ObjectRefMap :=
  ⟨fun key =>
    if key = consumer then
      ref.foldl (fun set r => if r ∈ set then set else set ++ [r]) (o.refs key)
    else o.refs key⟩

/-- Modelled from the spec: the method `ReferencedBy` of the secret-reference index gives
the secret keys that a resource references. -/
def ObjectRefMap.ReferencedBy (o : ObjectRefMap) (key : String) : List String := o.refs key

set_option linter.dupNamespace false in
/-- The cached form of a routing resource, `ingress.MultiClusterIngress` with both of its
fields: the normalized object and the parsed annotations, of a type `P` that the annotation
framework defines. -/
structure ingress.MultiClusterIngress (P : Type) where
  MultiClusterIngress : karmadanetwork.MultiClusterIngress
  ParsedAnnotations : P
  deriving DecidableEq

/-- The fields of a cached routing resource that the ordered listing reads. -/
def ingress.MultiClusterIngress.listed {P : Type} (mci : ingress.MultiClusterIngress P) :
    Karmada.MultiClusterIngress :=
  ⟨mci.MultiClusterIngress.ObjectMeta.Namespace, mci.MultiClusterIngress.ObjectMeta.Name,
    mci.MultiClusterIngress.ObjectMeta.CreationTimestamp⟩

/-- The method `Update` of `cache.Store`, a map from key to object: the object replaces the
one stored under its key, or is added. -/
def cacheUpdate {α : Type} : List (String × α) → String → α → List (String × α)
  | [], key, obj => [(key, obj)]
  | (k, v) :: rest, key, obj =>
    if k = key then (key, obj) :: rest else (k, v) :: cacheUpdate rest key obj

/-- The method `GetByKey` of `cache.Store`. -/
def cacheGetByKey {α : Type} : List (String × α) → String → Option α
  | [], _ => none
  | (k, v) :: rest, key => if k = key then some v else cacheGetByKey rest key

/-- The state of `k8sStore` that the synchronizer reads and writes: the configured denylist
of annotation values, the cache of annotated routing resources and the secret-reference
index. -/
structure k8sStore (P : Type) where
  AnnotationValueWordBlocklist : String
  MultiClusterIngressWithAnnotation : List (String × ingress.MultiClusterIngress P)
  secretMCIMap : ObjectRefMap

/-- Functions of the repository that the synchronizer calls and that are not among the
sources, parameters of the embedding: `checkBadAnnotationValue`, whose result is the error
it reports, if any, and the annotation extractor `s.annotations.ExtractFromMCI`, which
returns the parsed annotations and no error. -/
structure StoreFunctions (P : Type) where
  checkBadAnnotationValue : List (String × String) → String → Option String
  ExtractFromMCI : karmadanetwork.MultiClusterIngress → P

/-- The function `strings.Contains`: some tail of the text starts with the other text. -/
def stringsContains (s substr : String) : Bool :=
  s.data.tails.any (fun t => substr.data.isPrefixOf t)

/-- Modelled from the spec: the function `checkBadAnnotationValue` of the store package is
not among the sources.  The denylist is a list of words separated by commas; the check scans
all annotation values and reports the first value that contains a denylisted word. -/
def checkBadAnnotationValueBySpec (annotations : List (String × String)) (badwords : String) :
    Option String :=
  match annotations.find? (fun kv =>
      (stringsSplit badwords ',').any (fun word => stringsContains kv.2 word)) with
  | some kv => some (kv.1 ++ " annotation contains invalid word")
  | none => none

/-- Lines 108 to 118 of `syncMultiClusterIngress`: an empty path becomes "/". -/
def defaultEmptyPaths (rules : List IngressRule) : List IngressRule :=
  rules.map (fun rule =>
    match rule.HTTP with
    | none => rule
    | some http =>
      ⟨rule.Host, some ⟨http.Paths.map (fun path =>
        if path.Path = "" then ⟨"/", path.PathType⟩ else path)⟩⟩)

/-- The method `syncMultiClusterIngress`; the store after the call is the result.  The copy
of the object is the object itself, and the key function of the cache does not fail on an
object with metadata. -/
def syncMultiClusterIngress {P : Type} (f : StoreFunctions P) (s : k8sStore P)
    (mci : karmadanetwork.MultiClusterIngress) : k8sStore P :=
  let copyMeta := mci.ObjectMeta
  if s.AnnotationValueWordBlocklist ≠ "" ∧
      (f.checkBadAnnotationValue copyMeta.Annotations s.AnnotationValueWordBlocklist).isSome
        = true then
    s
  else
    let copyMci : karmadanetwork.MultiClusterIngress :=
      ⟨copyMeta, ⟨mci.Spec.IngressClassName, mci.Spec.TLS, defaultEmptyPaths mci.Spec.Rules⟩⟩
    let copyMci := SetDefaultNGINXPathType copyMci
    ⟨s.AnnotationValueWordBlocklist,
      cacheUpdate s.MultiClusterIngressWithAnnotation
        (MetaNamespaceKey copyMci.ObjectMeta.Namespace copyMci.ObjectMeta.Name)
        ⟨copyMci, f.ExtractFromMCI mci⟩,
      s.secretMCIMap⟩

/-- The function `cache.SplitMetaNamespaceKey`: the namespace and the name of a key. -/
def SplitMetaNamespaceKey (key : String) : Except String (String × String) :=
  match stringsSplit key '/' with
  | [name] => Except.ok ("", name)
  | [ns, name] => Except.ok (ns, name)
  | _ => Except.error ("unexpected key format: " ++ key)

/-- The function `objectRefAnnotationNsKeyFromMCI`.  The result `ok ""` is the return of an
empty key without an error. -/
def objectRefAnnotationNsKeyFromMCI (parser : AnnotationGetters) (ann : String)
    (mci : karmadanetwork.MultiClusterIngress) : Except AnnotationError String :=
  match parser.GetStringAnnotationFromMCI ann mci with
  | Except.error err => Except.error err
  | Except.ok annValue =>
    match SplitMetaNamespaceKey annValue with
    | Except.error err => Except.error (AnnotationError.Other err)
    | Except.ok (secrNs, secrName) =>
      if secrName = "" then Except.ok ""
      else if secrNs = "" then Except.ok (mci.ObjectMeta.Namespace ++ "/" ++ secrName)
      else Except.ok annValue

/-- The variable `secretAnnotations` of `updateSecretMCIMap`. -/
def secretAnnotations : List String :=
  ["auth-secret", "auth-tls-secret", "proxy-ssl-secret", "secure-verify-ca-secret"]

/-- Lines 140 to 169 of `updateSecretMCIMap`: the secret keys that the resource references,
from its TLS entries and from its secret annotations. -/
def refSecrets (parser : AnnotationGetters) (mci : karmadanetwork.MultiClusterIngress) :
    List String :=
  let fromTLS := mci.Spec.TLS.foldl (fun refs tls =>
    if tls.SecretName ≠ "" then refs ++ [mci.ObjectMeta.Namespace ++ "/" ++ tls.SecretName]
    else refs) []
  secretAnnotations.foldl (fun refs ann =>
    let r := objectRefAnnotationNsKeyFromMCI parser ann mci
    let secrKey := orDefault r ""
    let failed : Bool :=
      match r with
      | Except.error err => !IsMissingAnnotations err
      | Except.ok _ => false
    if failed = true then refs
    else if secrKey ≠ "" then refs ++ [secrKey]
    else refs) fromTLS

/-- The method `updateSecretMCIMap`; the store after the call is the result. -/
def updateSecretMCIMap {P : Type} (parser : AnnotationGetters) (s : k8sStore P)
    (mci : karmadanetwork.MultiClusterIngress) : k8sStore P :=
  let key := MetaNamespaceKey mci.ObjectMeta.Namespace mci.ObjectMeta.Name
  ⟨s.AnnotationValueWordBlocklist, s.MultiClusterIngressWithAnnotation,
    (s.secretMCIMap.Delete key).Insert key (refSecrets parser mci)⟩

/-- The method `syncSecretsByMCI` up to the calls of `syncSecret`: the secret keys that are
synchronized. -/
def syncSecretsByMCI {P : Type} (s : k8sStore P) (mci : karmadanetwork.MultiClusterIngress) :
    List String :=
  s.secretMCIMap.ReferencedBy (MetaNamespaceKey mci.ObjectMeta.Namespace mci.ObjectMeta.Name)

/-! # Theorems -/

/-! ## Text helpers -/

theorem splitChars_ne_nil (sep : Char) (l : List Char) : splitChars sep l ≠ [] := by
  cases l with
  | nil => simp [splitChars]
  | cons c cs =>
    unfold splitChars
    split
    · simp
    · split <;> simp

theorem splitChars_append_sep (sep : Char) (l : List Char) :
    splitChars sep (l ++ [sep]) = splitChars sep l ++ [[]] := by
  induction l with
  | nil => simp [splitChars]
  | cons c cs ih =>
    by_cases h : c = sep
    · simp [splitChars, h, ih]
    · have hne := splitChars_ne_nil sep cs
      cases hs : splitChars sep cs with
      | nil => exact absurd hs hne
      | cons seg rest => simp [splitChars, h, ih, hs]

/-- A text that matches the subdomain format does not end in a dot. -/
theorem not_dot_suffix_of_matches (value : String) (h : matchesDNS1123Subdomain value = true) :
    ¬ ['.'] <:+ value.data := by
  rintro ⟨t, ht⟩
  unfold matchesDNS1123Subdomain at h
  rw [← ht, splitChars_append_sep] at h
  simp [matchesDNS1123Label] at h

/-- Trimming the trailing dot leaves a valid subdomain as it is. -/
theorem trimSuffix_of_valid (value : String) (h : IsDNS1123Subdomain value = []) :
    trimSuffix value "." = value := by
  have hm : matchesDNS1123Subdomain value = true := by
    unfold IsDNS1123Subdomain at h
    by_contra hc
    simp [hc] at h
  have hs := not_dot_suffix_of_matches value hm
  unfold trimSuffix
  rw [if_neg]
  simpa using hs

/-! ## ExternalName services -/

/-- C2: an ExternalName service whose external name is the text "localhost", or an IP literal
that is a loopback address, resolves to the empty list, for every port (nil included),
protocol and slice lookup. -/
theorem getEndpointsByEps_loopback_empty (lib : GoLib) (svc : Service)
    (svcPort : Option ServicePort) (proto : Protocol)
    (lookup : String → Except String (List EndpointSlice))
    (hType : svc.Spec.Type_ = ServiceTypeExternalName)
    (hName : svc.Spec.ExternalName = "localhost" ∨
      ∃ ip, lib.parseIP svc.Spec.ExternalName = some ip ∧ lib.isLoopback ip = true) :
    getEndpointsByEps lib (some svc) svcPort proto lookup = some [] := by
  cases svcPort with
  | none => rfl
  | some svcPort =>
    unfold getEndpointsByEps
    simp only [hType, if_true]
    rcases hName with h | ⟨ip, hip, hlo⟩
    · simp [h]
    · simp [hip, hlo]

/-- The loopback guard at "127.0.0.1" and at "localhost", with the standard library. -/
theorem getEndpointsByEps_loopback_empty_witness :
    (goLib.parseIP "127.0.0.1" = some [0, 0, 0, 0, 0, 0, 0, 0, 0, 0, 255, 255, 127, 0, 0, 1] ∧
      goLib.isLoopback [0, 0, 0, 0, 0, 0, 0, 0, 0, 0, 255, 255, 127, 0, 0, 1] = true) ∧
    getEndpointsByEps goLib (some ⟨"default", "svc", ⟨"ExternalName", "127.0.0.1"⟩⟩)
      (some ⟨"http", ⟨IntstrType.Int, 8080, ""⟩⟩) "TCP"
      (fun _ => Except.ok [⟨"default", "svc-1", [], [⟨some "http", some "TCP", some 8080⟩],
        [⟨["10.0.0.1"], none⟩]⟩]) = some [] ∧
    getEndpointsByEps goLib (some ⟨"default", "svc", ⟨"ExternalName", "localhost"⟩⟩)
      (some ⟨"http", ⟨IntstrType.Int, 8080, ""⟩⟩) "TCP" (fun _ => Except.ok []) = some [] :=
  ⟨⟨by decide, by decide⟩,
    getEndpointsByEps_loopback_empty goLib _ _ _ _ rfl
      (Or.inr ⟨[0, 0, 0, 0, 0, 0, 0, 0, 0, 0, 255, 255, 127, 0, 0, 1], by decide, by decide⟩),
    getEndpointsByEps_loopback_empty goLib _ _ _ _ rfl (Or.inl rfl)⟩

/-- C3: an ExternalName service whose external name is neither "localhost" nor a loopback IP
and is an IP literal or a valid DNS-1123 subdomain resolves to exactly one endpoint: the
external name as given, the decimal text of the integer value of the target port, and no
target reference. -/
theorem getEndpointsByEps_externalName_single (lib : GoLib) (svc : Service)
    (svcPort : ServicePort) (proto : Protocol)
    (lookup : String → Except String (List EndpointSlice))
    (hType : svc.Spec.Type_ = ServiceTypeExternalName)
    (hLocal : svc.Spec.ExternalName ≠ "localhost")
    (hLoop : ∀ ip, lib.parseIP svc.Spec.ExternalName = some ip → lib.isLoopback ip = false)
    (hValid : lib.parseIP svc.Spec.ExternalName ≠ none ∨
      IsDNS1123Subdomain svc.Spec.ExternalName = []) :
    getEndpointsByEps lib (some svc) (some svcPort) proto lookup =
      some [⟨svc.Spec.ExternalName, itoa (svcPort.TargetPort.IntValue lib), none⟩] := by
  unfold getEndpointsByEps
  simp only [hType, if_true]
  have h1 : ¬ (svc.Spec.ExternalName = "localhost" ∨
      (match lib.parseIP svc.Spec.ExternalName with
        | some ip => lib.isLoopback ip
        | none => false) = true) := by
    rintro (h | h)
    · exact hLocal h
    · cases hip : lib.parseIP svc.Spec.ExternalName with
      | none => simp [hip] at h
      | some ip => simp [hip, hLoop ip hip] at h
  have h2 : ¬ (lib.parseIP svc.Spec.ExternalName = none ∧
      (IsDNS1123Subdomain (trimSuffix svc.Spec.ExternalName ".")).length > 0) := by
    rintro ⟨hn, hlen⟩
    rcases hValid with h | h
    · exact h hn
    · rw [trimSuffix_of_valid _ h, h] at hlen
      simp at hlen
  simp only [if_neg h1, if_neg h2, sprintfV]

/-- The example of the specification: "api.internal.example.com" with target port 8443. -/
theorem getEndpointsByEps_externalName_single_witness :
    (goLib.parseIP "api.internal.example.com" = none ∧
      IsDNS1123Subdomain "api.internal.example.com" = []) ∧
    getEndpointsByEps goLib
      (some ⟨"default", "svc", ⟨"ExternalName", "api.internal.example.com"⟩⟩)
      (some ⟨"https", ⟨IntstrType.Int, 8443, ""⟩⟩) "TCP" (fun _ => Except.ok []) =
      some [⟨"api.internal.example.com", "8443", none⟩] :=
  ⟨⟨by decide, by decide⟩,
    getEndpointsByEps_externalName_single goLib
      ⟨"default", "svc", ⟨"ExternalName", "api.internal.example.com"⟩⟩
      ⟨"https", ⟨IntstrType.Int, 8443, ""⟩⟩ "TCP" (fun _ => Except.ok []) rfl (by decide)
      (fun _ h => Option.noConfusion
        ((show goLib.parseIP "api.internal.example.com" = none by decide).symm.trans h))
      (Or.inr (by decide))⟩

/-- C4 as stated fails: "example.com." is no IP literal and does not pass DNS-1123 subdomain
validation, and the resolver still returns an endpoint for it. -/
theorem getEndpointsByEps_trailing_dot_accepted :
    goLib.parseIP "example.com." = none ∧
    IsDNS1123Subdomain "example.com." ≠ [] ∧
    getEndpointsByEps goLib (some ⟨"default", "svc", ⟨"ExternalName", "example.com."⟩⟩)
      (some ⟨"https", ⟨IntstrType.Int, 8443, ""⟩⟩) "TCP" (fun _ => Except.ok []) =
      some [⟨"example.com.", "8443", none⟩] := by
  refine ⟨by decide, by decide, by decide⟩

/-- C4, amended: an ExternalName service whose external name is no IP literal and, with one
trailing dot removed, does not pass DNS-1123 subdomain validation resolves to the empty
list. -/
theorem getEndpointsByEps_invalid_name_empty (lib : GoLib) (svc : Service)
    (svcPort : Option ServicePort) (proto : Protocol)
    (lookup : String → Except String (List EndpointSlice))
    (hType : svc.Spec.Type_ = ServiceTypeExternalName)
    (hIP : lib.parseIP svc.Spec.ExternalName = none)
    (hInvalid : IsDNS1123Subdomain (trimSuffix svc.Spec.ExternalName ".") ≠ []) :
    getEndpointsByEps lib (some svc) svcPort proto lookup = some [] := by
  cases svcPort with
  | none => rfl
  | some svcPort =>
    unfold getEndpointsByEps
    simp only [hType, if_true, hIP]
    have hlen : (IsDNS1123Subdomain (trimSuffix svc.Spec.ExternalName ".")).length > 0 :=
      List.length_pos.mpr hInvalid
    by_cases h : svc.Spec.ExternalName = "localhost"
    · simp [h]
    · simp [h, hlen]

/-- An upper-case name is rejected. -/
theorem getEndpointsByEps_invalid_name_empty_witness :
    (goLib.parseIP "Not_A_Name" = none ∧
      IsDNS1123Subdomain (trimSuffix "Not_A_Name" ".") ≠ []) ∧
    getEndpointsByEps goLib (some ⟨"default", "svc", ⟨"ExternalName", "Not_A_Name"⟩⟩)
      (some ⟨"https", ⟨IntstrType.Int, 8443, ""⟩⟩) "TCP" (fun _ => Except.ok []) = some [] :=
  ⟨⟨by decide, by decide⟩,
    getEndpointsByEps_invalid_name_empty goLib
      ⟨"default", "svc", ⟨"ExternalName", "Not_A_Name"⟩⟩ _ _ _ rfl (by decide) (by decide)⟩

/-! ## Ordered listing -/

theorem sinkLeft_perm {α : Type} (less : α → α → Bool) (x : α) (l : List α) :
    (sinkLeft less x l).Perm (x :: l) := by
  induction l with
  | nil => simp [sinkLeft]
  | cons y before ih =>
    unfold sinkLeft
    split
    · exact (List.Perm.cons y ih).trans (List.Perm.swap x y before)
    · exact List.Perm.refl _

theorem insertAll_perm {α : Type} (less : α → α → Bool) (xs sortedRev : List α) :
    (insertAll less sortedRev xs).Perm (sortedRev ++ xs) := by
  induction xs generalizing sortedRev with
  | nil => simp [insertAll]
  | cons x rest ih =>
    unfold insertAll
    refine (ih _).trans ?_
    refine (List.Perm.append_right rest (sinkLeft_perm less x sortedRev)).trans ?_
    have hmid : (sortedRev ++ x :: rest).Perm (x :: (sortedRev ++ rest)) := List.perm_middle
    simpa using hmid.symm

theorem SliceStable_perm {α : Type} (less : α → α → Bool) (xs : List α) :
    (SliceStable less xs).Perm xs := by
  unfold SliceStable
  exact (List.reverse_perm _).trans (by simpa using insertAll_perm less xs [])

theorem sinkLeft_sorted {α : Type} (less : α → α → Bool)
    (hasymm : ∀ a b, less a b = true → less b a = false)
    (hneg : ∀ a b c, less a b = false → less b c = false → less a c = false)
    (x : α) (l : List α) (h : l.Pairwise (fun a b => less a b = false)) :
    (sinkLeft less x l).Pairwise (fun a b => less a b = false) := by
  induction l with
  | nil => simp [sinkLeft]
  | cons y before ih =>
    rw [List.pairwise_cons] at h
    unfold sinkLeft
    by_cases hxy : less x y = true
    · rw [if_pos hxy, List.pairwise_cons]
      refine ⟨?_, ih h.2⟩
      intro z hz
      rcases List.mem_cons.mp ((sinkLeft_perm less x before).mem_iff.mp hz) with rfl | hz
      · exact hasymm _ _ hxy
      · exact h.1 z hz
    · rw [if_neg hxy, List.pairwise_cons, List.pairwise_cons]
      have hxy : less x y = false := by simpa using hxy
      refine ⟨?_, h⟩
      intro z hz
      rcases List.mem_cons.mp hz with rfl | hz
      · exact hxy
      · exact hneg _ _ _ hxy (h.1 z hz)

theorem insertAll_sorted {α : Type} (less : α → α → Bool)
    (hasymm : ∀ a b, less a b = true → less b a = false)
    (hneg : ∀ a b c, less a b = false → less b c = false → less a c = false)
    (xs sortedRev : List α) (h : sortedRev.Pairwise (fun a b => less a b = false)) :
    (insertAll less sortedRev xs).Pairwise (fun a b => less a b = false) := by
  induction xs generalizing sortedRev with
  | nil => simpa [insertAll] using h
  | cons x rest ih =>
    unfold insertAll
    exact ih _ (sinkLeft_sorted less hasymm hneg x sortedRev h)

/-- The sort leaves no element less than an element in front of it. -/
theorem SliceStable_sorted {α : Type} (less : α → α → Bool)
    (hasymm : ∀ a b, less a b = true → less b a = false)
    (hneg : ∀ a b c, less a b = false → less b c = false → less a c = false)
    (xs : List α) : (SliceStable less xs).Pairwise (fun a b => less b a = false) := by
  unfold SliceStable
  rw [List.pairwise_reverse]
  exact insertAll_sorted less hasymm hneg xs [] List.Pairwise.nil

theorem insertAll_of_sorted {α : Type} (less : α → α → Bool) (xs sortedRev : List α)
    (h : xs.Pairwise (fun a b => less b a = false))
    (hacc : ∀ x ∈ xs, ∀ y ∈ sortedRev, less x y = false) :
    insertAll less sortedRev xs = xs.reverse ++ sortedRev := by
  induction xs generalizing sortedRev with
  | nil => simp [insertAll]
  | cons x rest ih =>
    rw [List.pairwise_cons] at h
    have hsink : sinkLeft less x sortedRev = x :: sortedRev := by
      cases sortedRev with
      | nil => rfl
      | cons y before =>
        have := hacc x (List.mem_cons_self _ _) y (List.mem_cons_self _ _)
        simp [sinkLeft, this]
    unfold insertAll
    rw [hsink, ih _ h.2]
    · simp
    · intro z hz y hy
      rcases List.mem_cons.mp hy with rfl | hy
      · exact h.1 z hz
      · exact hacc z (List.mem_cons_of_mem _ hz) y hy

/-- The sort returns a sorted slice as it is. -/
theorem SliceStable_of_sorted {α : Type} (less : α → α → Bool) (xs : List α)
    (h : xs.Pairwise (fun a b => less b a = false)) : SliceStable less xs = xs := by
  unfold SliceStable
  rw [insertAll_of_sorted less xs [] h (by simp)]
  simp

theorem lexLess_iff_lt (l₁ l₂ : List Char) : lexLess l₁ l₂ = true ↔ l₁ < l₂ := by
  induction l₁ generalizing l₂ with
  | nil =>
    cases l₂ with
    | nil => simp [lexLess]
    | cons b bs => simpa [lexLess] using List.nil_lt_cons b bs
  | cons a as ih =>
    cases l₂ with
    | nil => simp [lexLess]
    | cons b bs =>
      unfold lexLess
      by_cases hab : a < b
      · simpa [hab] using (List.Lex.rel hab : List.Lex (· < ·) (a :: as) (b :: bs))
      · by_cases hba : b < a
        · simp only [hab, hba, if_false, if_true]
          refine iff_of_false (by simp) ?_
          intro h
          exact absurd (List.head_le_of_lt h) (not_le.mpr hba)
        · have heq : a = b := le_antisymm (not_lt.mp hba) (not_lt.mp hab)
          subst heq
          simp only [hab, if_false]
          exact (ih bs).trans List.Lex.cons_iff.symm

/-- The comparison of the embedding is the lexical order of strings. -/
theorem stringLess_iff_lt (s t : String) : stringLess s t = true ↔ s < t := by
  unfold stringLess
  rw [lexLess_iff_lt, String.lt_iff_toList_lt]
  rfl

theorem mciLess_eq_true_iff (i j : MultiClusterIngress) :
    mciLess i j = true ↔ i.CreationTimestamp < j.CreationTimestamp ∨
      (i.CreationTimestamp = j.CreationTimestamp ∧ j.nsName < i.nsName) := by
  unfold mciLess
  by_cases h : i.CreationTimestamp = j.CreationTimestamp
  · simp [h, stringLess_iff_lt]
  · simp [h]

theorem mciLess_eq_false_iff (i j : MultiClusterIngress) :
    mciLess i j = false ↔ j.CreationTimestamp ≤ i.CreationTimestamp ∧
      (i.CreationTimestamp = j.CreationTimestamp → i.nsName ≤ j.nsName) := by
  unfold mciLess
  by_cases h : i.CreationTimestamp = j.CreationTimestamp
  · simp only [h, if_true, le_refl, true_and, forall_const]
    rw [← not_lt, ← stringLess_iff_lt]
    simp
  · simp [h]

theorem mciLess_asymm (a b : MultiClusterIngress) (h : mciLess a b = true) :
    mciLess b a = false := by
  rw [mciLess_eq_true_iff] at h
  rw [mciLess_eq_false_iff]
  rcases h with h | ⟨h1, h2⟩
  · exact ⟨le_of_lt h, fun h3 => absurd h3.symm (ne_of_lt h)⟩
  · exact ⟨le_of_eq h1, fun _ => le_of_lt h2⟩

theorem mciLess_negtrans (a b c : MultiClusterIngress) (h1 : mciLess a b = false)
    (h2 : mciLess b c = false) : mciLess a c = false := by
  rw [mciLess_eq_false_iff] at h1 h2 ⊢
  refine ⟨le_trans h2.1 h1.1, fun h => ?_⟩
  have hab : a.CreationTimestamp = b.CreationTimestamp :=
    le_antisymm (by rw [h]; exact h2.1) h1.1
  exact le_trans (h1.2 hab) (h2.2 (hab.symm.trans h))

theorem sortMultiClusterIngressSlice_pairwise (l : List MultiClusterIngress) :
    (sortMultiClusterIngressSlice l).Pairwise (fun a b => mciLess b a = false) :=
  SliceStable_sorted mciLess mciLess_asymm mciLess_negtrans l

theorem foldl_append_singleton {α : Type} (l acc : List α) :
    l.foldl (fun acc x => acc ++ [x]) acc = acc ++ l := by
  induction l generalizing acc with
  | nil => simp
  | cons x rest ih => simp [ih]

theorem foldl_append_filter {α : Type} (p : α → Bool) (l acc : List α) :
    l.foldl (fun acc x => if p x = true then acc ++ [x] else acc) acc = acc ++ l.filter p := by
  induction l generalizing acc with
  | nil => simp
  | cons x rest ih =>
    by_cases h : p x = true
    · simp [ih, h]
    · simp [ih, h]

theorem ListMultiClusterIngresses_eq (store : List MultiClusterIngress) :
    ListMultiClusterIngresses store = sortMultiClusterIngressSlice store := by
  unfold ListMultiClusterIngresses
  rw [foldl_append_singleton]
  simp

theorem FilterMultiClusterIngress_eq (mcis : List MultiClusterIngress)
    (filterFunc : MultiClusterIngress → Bool) :
    FilterMultiClusterIngress mcis filterFunc =
      sortMultiClusterIngressSlice (mcis.filter (fun mci => !filterFunc mci)) := by
  unfold FilterMultiClusterIngress
  have h := foldl_append_filter (fun mci => !filterFunc mci) mcis []
  simp only [Bool.not_eq_true', List.nil_append] at h
  rw [h]

theorem sortMultiClusterIngressSlice_chain (l : List MultiClusterIngress) :
    (sortMultiClusterIngressSlice l).Chain' (fun a b =>
      a.CreationTimestamp ≤ b.CreationTimestamp ∧
      (a.CreationTimestamp = b.CreationTimestamp → b.nsName ≤ a.nsName)) := by
  refine List.Pairwise.chain' ((sortMultiClusterIngressSlice_pairwise l).imp ?_)
  intro a b h
  rw [mciLess_eq_false_iff] at h
  exact ⟨h.1, fun hab => h.2 hab.symm⟩

/-- C7: the sorted slice is a permutation of the input in which no element has a later
creation timestamp than its successor and in which, of two adjacent elements with equal
creation timestamps, the first has the greater or equal "namespace/name" text; the same
holds for the listing of the store and for the filtered listing. -/
theorem sortMultiClusterIngressSlice_sorted_perm (l : List MultiClusterIngress)
    (filterFunc : MultiClusterIngress → Bool) :
    ((sortMultiClusterIngressSlice l).Perm l ∧
      (sortMultiClusterIngressSlice l).Chain' (fun a b =>
        a.CreationTimestamp ≤ b.CreationTimestamp ∧
        (a.CreationTimestamp = b.CreationTimestamp → b.nsName ≤ a.nsName))) ∧
    ((ListMultiClusterIngresses l).Perm l ∧
      (ListMultiClusterIngresses l).Chain' (fun a b =>
        a.CreationTimestamp ≤ b.CreationTimestamp ∧
        (a.CreationTimestamp = b.CreationTimestamp → b.nsName ≤ a.nsName))) ∧
    ((FilterMultiClusterIngress l filterFunc).Perm (l.filter (fun mci => !filterFunc mci)) ∧
      (FilterMultiClusterIngress l filterFunc).Chain' (fun a b =>
        a.CreationTimestamp ≤ b.CreationTimestamp ∧
        (a.CreationTimestamp = b.CreationTimestamp → b.nsName ≤ a.nsName))) := by
  rw [ListMultiClusterIngresses_eq, FilterMultiClusterIngress_eq]
  exact ⟨⟨SliceStable_perm mciLess l, sortMultiClusterIngressSlice_chain l⟩,
    ⟨SliceStable_perm mciLess l, sortMultiClusterIngressSlice_chain l⟩,
    ⟨SliceStable_perm mciLess _, sortMultiClusterIngressSlice_chain _⟩⟩

/-- Two permutations of a collection with distinct "namespace/name" texts sort alike. -/
theorem sortMultiClusterIngressSlice_unique (l₁ l₂ : List MultiClusterIngress)
    (hperm : l₁.Perm l₂) (hnd : (l₁.map MultiClusterIngress.nsName).Nodup) :
    sortMultiClusterIngressSlice l₁ = sortMultiClusterIngressSlice l₂ := by
  let r : MultiClusterIngress → MultiClusterIngress → Prop :=
    fun a b => mciLess b a = false ∧ (a.nsName = b.nsName → a = b)
  have hanti : IsAntisymm MultiClusterIngress r := by
    refine ⟨fun a b hab hba => hab.2 ?_⟩
    have h1 := (mciLess_eq_false_iff b a).mp hab.1
    have h2 := (mciLess_eq_false_iff a b).mp hba.1
    have hts : a.CreationTimestamp = b.CreationTimestamp := le_antisymm h1.1 h2.1
    exact le_antisymm (h2.2 hts) (h1.2 hts.symm)
  have hsorted : ∀ l : List MultiClusterIngress, l.Perm l₁ →
      List.Sorted r (sortMultiClusterIngressSlice l) := by
    intro l hl
    have hp : (sortMultiClusterIngressSlice l).Perm l₁ := (SliceStable_perm mciLess l).trans hl
    have hnd2 : ((sortMultiClusterIngressSlice l).map MultiClusterIngress.nsName).Nodup :=
      ((hp.map _).nodup_iff).mpr hnd
    have hpw : (sortMultiClusterIngressSlice l).Pairwise
        (fun a b => a.nsName ≠ b.nsName) := List.pairwise_map.mp hnd2
    exact ((sortMultiClusterIngressSlice_pairwise l).and hpw).imp
      (fun h => ⟨h.1, fun he => absurd he h.2⟩)
  exact @List.eq_of_perm_of_sorted _ r hanti _ _
    (((SliceStable_perm mciLess l₁).trans hperm).trans (SliceStable_perm mciLess l₂).symm)
    (hsorted l₁ (List.Perm.refl _)) (hsorted l₂ hperm.symm)

/-- C8: for a collection with pairwise distinct "namespace/name" texts the sorted sequence
does not depend on the order of the input, sorting a sorted sequence returns it, and listing
the store gives the same sequence for every enumeration order. -/
theorem sortMultiClusterIngressSlice_deterministic (l₁ l₂ : List MultiClusterIngress)
    (hperm : l₁.Perm l₂) (hnd : (l₁.map MultiClusterIngress.nsName).Nodup) :
    sortMultiClusterIngressSlice l₁ = sortMultiClusterIngressSlice l₂ ∧
    sortMultiClusterIngressSlice (sortMultiClusterIngressSlice l₁) =
      sortMultiClusterIngressSlice l₁ ∧
    ListMultiClusterIngresses l₁ = ListMultiClusterIngresses l₂ := by
  refine ⟨sortMultiClusterIngressSlice_unique l₁ l₂ hperm hnd, ?_, ?_⟩
  · exact SliceStable_of_sorted mciLess _ (sortMultiClusterIngressSlice_pairwise l₁)
  · rw [ListMultiClusterIngresses_eq, ListMultiClusterIngresses_eq]
    exact sortMultiClusterIngressSlice_unique l₁ l₂ hperm hnd

/-- Three resources, two of them created at the same instant, in two enumeration orders. -/
theorem sortMultiClusterIngressSlice_deterministic_witness :
    ([⟨"prod", "web", 20⟩, ⟨"prod", "api", 20⟩, ⟨"dev", "web", 10⟩] :
        List MultiClusterIngress).Perm
      [⟨"dev", "web", 10⟩, ⟨"prod", "api", 20⟩, ⟨"prod", "web", 20⟩] ∧
    sortMultiClusterIngressSlice [⟨"prod", "web", 20⟩, ⟨"prod", "api", 20⟩, ⟨"dev", "web", 10⟩] =
      [⟨"dev", "web", 10⟩, ⟨"prod", "web", 20⟩, ⟨"prod", "api", 20⟩] ∧
    sortMultiClusterIngressSlice [⟨"dev", "web", 10⟩, ⟨"prod", "api", 20⟩, ⟨"prod", "web", 20⟩] =
      [⟨"dev", "web", 10⟩, ⟨"prod", "web", 20⟩, ⟨"prod", "api", 20⟩] ∧
    ListMultiClusterIngresses [⟨"prod", "web", 20⟩, ⟨"prod", "api", 20⟩, ⟨"dev", "web", 10⟩] =
      ListMultiClusterIngresses [⟨"dev", "web", 10⟩, ⟨"prod", "api", 20⟩, ⟨"prod", "web", 20⟩] :=
  ⟨by decide, by decide, by decide,
    (sortMultiClusterIngressSlice_deterministic
      [⟨"prod", "web", 20⟩, ⟨"prod", "api", 20⟩, ⟨"dev", "web", 10⟩]
      [⟨"dev", "web", 10⟩, ⟨"prod", "api", 20⟩, ⟨"prod", "web", 20⟩]
      (by decide) (by decide)).2.2⟩


/-! ## The EndpointSlice index -/

theorem splitChars_length (sep : Char) (l : List Char) :
    (splitChars sep l).length = l.count sep + 1 := by
  induction l with
  | nil => simp [splitChars]
  | cons c cs ih =>
    by_cases h : c = sep
    · subst h
      simp [splitChars, ih]
    · have hne := splitChars_ne_nil sep cs
      cases hs : splitChars sep cs with
      | nil => exact absurd hs hne
      | cons seg rest =>
        rw [hs] at ih
        have hc : List.count sep (c :: cs) = List.count sep cs := by
          rw [List.count_cons_of_ne (fun e => h e.symm)]
        simp only [splitChars, h, if_false, hs, hc]
        simpa using ih

theorem splitChars_of_not_mem (sep : Char) (l : List Char) (h : sep ∉ l) :
    splitChars sep l = [l] := by
  induction l with
  | nil => simp [splitChars]
  | cons c cs ih =>
    rw [List.mem_cons, not_or] at h
    have hc : ¬ c = sep := fun e => h.1 e.symm
    simp [splitChars, hc, ih h.2]

theorem splitChars_append_cons (sep : Char) (l r : List Char) (h : sep ∉ l) :
    splitChars sep (l ++ sep :: r) = l :: splitChars sep r := by
  induction l with
  | nil => simp [splitChars]
  | cons c cs ih =>
    rw [List.mem_cons, not_or] at h
    have hc : ¬ c = sep := fun e => h.1 e.symm
    simp [splitChars, hc, ih h.2]

theorem stringsSplit_length (s : String) (sep : Char) :
    (stringsSplit s sep).length = s.data.count sep + 1 := by
  simp [stringsSplit, splitChars_length]

/-- A key "ns/name" with no further slash splits into its two parts. -/
theorem stringsSplit_key (ns name : String) (hns : '/' ∉ ns.data) (hname : '/' ∉ name.data) :
    stringsSplit (ns ++ "/" ++ name) '/' = [ns, name] := by
  have h : (ns ++ "/" ++ name).data = ns.data ++ '/' :: name.data := by
    simp [String.data_append]
  unfold stringsSplit
  rw [h, splitChars_append_cons _ _ _ hns, splitChars_of_not_mem _ _ hname]
  rfl

/-- The loop of `ByKey` keeps the matching slices in store order. -/
theorem ByKey_of_split (store : List EndpointSlice) (key ns name : String)
    (h : stringsSplit key '/' = [ns, name]) :
    EndpointSliceLister.ByKey store key = Except.ok (store.filter (fun eps =>
      decide (eps.Namespace = ns) && decide (eps.Labels.lookup LabelServiceName = some name))) := by
  unfold EndpointSliceLister.ByKey
  simp only [h, List.length_cons, List.length_nil, ne_eq, not_true_eq_false, if_false]
  have hf := foldl_append_filter (fun eps : EndpointSlice =>
      decide (eps.Namespace = ns) && decide (eps.Labels.lookup LabelServiceName = some name))
    store []
  simp only [List.nil_append] at hf
  rw [← hf]
  congr 1
  apply List.foldl_ext
  intro acc eps _
  simp [selectorMatches]

/-- C9: `ByKey` fails exactly when the key does not split at "/" into two segments, which is
when it does not contain exactly one "/"; a key of two segments gives no error, and the empty
list when no slice of the store has that namespace and service-name label. -/
theorem ByKey_error_iff (store : List EndpointSlice) (key : String) :
    (stringsSplit key '/').length = key.data.count '/' + 1 ∧
    ((∃ msg, EndpointSliceLister.ByKey store key = Except.error msg) ↔
      (stringsSplit key '/').length ≠ 2) ∧
    ((∃ msg, EndpointSliceLister.ByKey store key = Except.error msg) ↔
      key.data.count '/' ≠ 1) ∧
    ((stringsSplit key '/').length = 2 →
      ∃ slices, EndpointSliceLister.ByKey store key = Except.ok slices ∧
        ((∀ eps ∈ store, ¬ (eps.Namespace = (stringsSplit key '/').getD 0 "" ∧
          eps.Labels.lookup LabelServiceName = some ((stringsSplit key '/').getD 1 ""))) →
          slices = [])) := by
  have herr : (∃ msg, EndpointSliceLister.ByKey store key = Except.error msg) ↔
      (stringsSplit key '/').length ≠ 2 := by
    unfold EndpointSliceLister.ByKey
    by_cases h : (stringsSplit key '/').length = 2
    · simp [h]
    · simp [h]
  refine ⟨stringsSplit_length key '/', herr, ?_, ?_⟩
  · rw [herr, stringsSplit_length]
    omega
  · intro h
    obtain ⟨ns, name, hsplit⟩ : ∃ ns name, stringsSplit key '/' = [ns, name] := by
      match hs : stringsSplit key '/', h with
      | [a, b], _ => exact ⟨a, b, rfl⟩
    refine ⟨_, ByKey_of_split store key ns name hsplit, ?_⟩
    intro hno
    rw [hsplit] at hno
    simp only [List.getD_cons_zero, List.getD_cons_succ] at hno
    rw [List.filter_eq_nil_iff]
    intro eps heps
    simpa using hno eps heps

/-- The keys "bad-key-no-slash" and "a/b/c" are malformed; "ns/svc" finds nothing in a store
that holds a slice of another service. -/
theorem ByKey_error_iff_witness :
    (∃ msg, EndpointSliceLister.ByKey
      [⟨"ns", "other-x7k2p", [("kubernetes.io/service-name", "other")], [], []⟩]
      "bad-key-no-slash" = Except.error msg) ∧
    (∃ msg, EndpointSliceLister.ByKey
      [⟨"ns", "other-x7k2p", [("kubernetes.io/service-name", "other")], [], []⟩]
      "a/b/c" = Except.error msg) ∧
    (∃ slices, EndpointSliceLister.ByKey
      [⟨"ns", "other-x7k2p", [("kubernetes.io/service-name", "other")], [], []⟩]
      "ns/svc" = Except.ok slices ∧ slices = []) :=
  ⟨(ByKey_error_iff _ "bad-key-no-slash").2.2.1.mpr (by decide),
    (ByKey_error_iff _ "a/b/c").2.2.1.mpr (by decide),
    match (ByKey_error_iff
      [⟨"ns", "other-x7k2p", [("kubernetes.io/service-name", "other")], [], []⟩]
      "ns/svc").2.2.2 (by decide) with
    | ⟨slices, hok, hnil⟩ => ⟨slices, hok, hnil (by decide)⟩⟩

/-- C10: for a key "ns/name" whose two parts hold no slash, `ByKey` returns the slices of the
store whose namespace is ns and whose service-name label is present and equal to name, in
store order: a slice is returned if and only if it is in the store and meets both
conditions. -/
theorem ByKey_sound_complete (store : List EndpointSlice) (ns name : String)
    (hns : '/' ∉ ns.data) (hname : '/' ∉ name.data) :
    ∃ slices, EndpointSliceLister.ByKey store (ns ++ "/" ++ name) = Except.ok slices ∧
      slices = store.filter (fun eps => decide (eps.Namespace = ns) &&
        decide (eps.Labels.lookup LabelServiceName = some name)) ∧
      slices.Sublist store ∧
      (∀ eps, eps ∈ slices ↔ eps ∈ store ∧ eps.Namespace = ns ∧
        eps.Labels.lookup LabelServiceName = some name) := by
  refine ⟨_, ByKey_of_split store _ ns name (stringsSplit_key ns name hns hname), rfl,
    List.filter_sublist _, ?_⟩
  intro eps
  simp [List.mem_filter]

/-- A store of three slices, of which the first and the last belong to "ns/svc". -/
theorem ByKey_sound_complete_witness :
    ('/' ∉ ("ns" : String).data ∧ '/' ∉ ("svc" : String).data) ∧
    EndpointSliceLister.ByKey
      [⟨"ns", "svc-a", [("kubernetes.io/service-name", "svc")], [], []⟩,
        ⟨"other", "svc-b", [("kubernetes.io/service-name", "svc")], [], []⟩,
        ⟨"ns", "svc-c", [("app", "x"), ("kubernetes.io/service-name", "svc")], [], []⟩,
        ⟨"ns", "svc-d", [], [], []⟩]
      "ns/svc" = Except.ok
      [⟨"ns", "svc-a", [("kubernetes.io/service-name", "svc")], [], []⟩,
        ⟨"ns", "svc-c", [("app", "x"), ("kubernetes.io/service-name", "svc")], [], []⟩] :=
  ⟨⟨by decide, by decide⟩,
    match ByKey_sound_complete
      [⟨"ns", "svc-a", [("kubernetes.io/service-name", "svc")], [], []⟩,
        ⟨"other", "svc-b", [("kubernetes.io/service-name", "svc")], [], []⟩,
        ⟨"ns", "svc-c", [("app", "x"), ("kubernetes.io/service-name", "svc")], [], []⟩,
        ⟨"ns", "svc-d", [], [], []⟩] "ns" "svc" (by decide) (by decide) with
    | ⟨_, hok, hfilter, _, _⟩ => hok.trans (congrArg Except.ok (hfilter.trans (by decide)))⟩


/-! ## The endpoint resolver -/

theorem addAddress_eq_offer (targetPort : Int) (targetRef : Option ObjectReference)
    (st : ResolverState) (address : String) :
    addAddress targetPort targetRef st address =
      offer st [⟨address, sprintfV targetPort, targetRef⟩] := by
  simp [addAddress, offer, endpointKey, sprintfV]

theorem offer_append (st : ResolverState) (l₁ l₂ : List IngressEndpoint) :
    offer st (l₁ ++ l₂) = offer (offer st l₁) l₂ := by
  simp [offer, List.foldl_append]

theorem offer_cons (st : ResolverState) (e : IngressEndpoint) (l : List IngressEndpoint) :
    offer st (e :: l) = offer (offer st [e]) l := rfl

theorem foldl_addAddress (targetPort : Int) (targetRef : Option ObjectReference)
    (addresses : List String) (st : ResolverState) :
    addresses.foldl (addAddress targetPort targetRef) st =
      offer st (addresses.map (fun address => ⟨address, sprintfV targetPort, targetRef⟩)) := by
  induction addresses generalizing st with
  | nil => rfl
  | cons a rest ih =>
    rw [List.foldl_cons, ih, addAddress_eq_offer, List.map_cons]
    rfl

theorem addEndpoints_eq_offer (targetPort : Int) (endpoints : List Endpoint)
    (st : ResolverState) :
    addEndpoints targetPort endpoints st = offer st (portCandidates targetPort endpoints) := by
  unfold addEndpoints portCandidates
  induction endpoints generalizing st with
  | nil => rfl
  | cons e rest ih =>
    rw [List.foldl_cons, ih, foldl_addAddress, List.flatMap_cons, offer_append]

theorem portsLoop_eq (svcPort : ServicePort) (proto : Protocol) (endpointSlice : EndpointSlice)
    (ports : List EndpointPort) (index : Nat) (found : Bool) (st : ResolverState) :
    (portsLoop svcPort proto endpointSlice index ports found st).map Prod.snd =
      (fragmentTargetPorts svcPort proto endpointSlice.Ports.length index ports found).map
        (fun tps => offer st (tps.flatMap (fun targetPort =>
          portCandidates targetPort endpointSlice.Endpoints))) := by
  induction ports generalizing index found st with
  | nil => simp [portsLoop, fragmentTargetPorts, offer]
  | cons p rest ih =>
    unfold portsLoop fragmentTargetPorts
    cases hsel : selectTargetPort svcPort proto endpointSlice.Ports.length index p found with
    | none => rfl
    | some r =>
      obtain ⟨found2, tp⟩ := r
      cases tp with
      | none => exact ih _ _ _
      | some tp =>
        simp only [ih, addEndpoints_eq_offer, Option.map_map]
        congr 1
        funext tps
        simp [List.flatMap_cons, offer_append]

theorem slicesLoop_eq (svcPort : ServicePort) (proto : Protocol) (slices : List EndpointSlice)
    (st : ResolverState) :
    slicesLoop svcPort proto slices st = (candidates svcPort proto slices).map (offer st) := by
  induction slices generalizing st with
  | nil => simp [slicesLoop, candidates, offer]
  | cons s rest ih =>
    have h := portsLoop_eq svcPort proto s s.Ports 0 false st
    unfold slicesLoop candidates sliceCandidates
    cases hp : portsLoop svcPort proto s 0 s.Ports false st with
    | none =>
      rw [hp] at h
      cases hf : fragmentTargetPorts svcPort proto s.Ports.length 0 s.Ports false with
      | none => rfl
      | some tps => rw [hf] at h; simp at h
    | some r =>
      rw [hp] at h
      cases hf : fragmentTargetPorts svcPort proto s.Ports.length 0 s.Ports false with
      | none => rw [hf] at h; simp at h
      | some tps =>
        rw [hf] at h
        simp only [Option.map_some', Option.some.injEq] at h
        simp only [Option.map_some', ih, h, Option.map_map]
        congr 1
        funext cs
        simp [offer_append]

theorem offer_upsServers (st : ResolverState) (l : List IngressEndpoint) :
    (offer st l).upsServers =
      st.upsServers ++ firstOccurrences endpointKey st.processedUpstreamServers l := by
  induction l generalizing st with
  | nil => simp [offer, firstOccurrences]
  | cons e rest ih =>
    rw [offer_cons, ih]
    by_cases h : endpointKey e ∈ st.processedUpstreamServers
    · simp [offer, firstOccurrences, h]
    · simp [offer, firstOccurrences, h]

/-- The loops of the resolver return the first occurrences, by recorded key, of the endpoints
in insertion order. -/
theorem getEndpointsByEps_slices (lib : GoLib) (svc : Service) (svcPort : ServicePort)
    (proto : Protocol) (lookup : String → Except String (List EndpointSlice))
    (slices : List EndpointSlice)
    (hType : svc.Spec.Type_ ≠ ServiceTypeExternalName)
    (hLookup : lookup (MetaNamespaceKey svc.Namespace svc.Name) = Except.ok slices) :
    getEndpointsByEps lib (some svc) (some svcPort) proto lookup =
      (candidates svcPort proto slices).map (firstOccurrences endpointKey []) := by
  unfold getEndpointsByEps
  simp only [hType, if_false, hLookup, slicesLoop_eq]
  cases candidates svcPort proto slices with
  | none => rfl
  | some c => simp [offer_upsServers]


/-! ### First occurrences -/

theorem firstOccurrences_map {α β κ₁ κ₂ : Type} [DecidableEq κ₁] [DecidableEq κ₂]
    (f : α → β) (key₁ : α → κ₁) (key₂ : β → κ₂) (l : List α) (seen₁ : List κ₁)
    (seen₂ : List κ₂)
    (hseen : ∀ x ∈ l, key₁ x ∈ seen₁ ↔ key₂ (f x) ∈ seen₂)
    (hkey : ∀ x ∈ l, ∀ y ∈ l, key₁ x = key₁ y ↔ key₂ (f x) = key₂ (f y)) :
    firstOccurrences key₂ seen₂ (l.map f) = (firstOccurrences key₁ seen₁ l).map f := by
  induction l generalizing seen₁ seen₂ with
  | nil => rfl
  | cons x xs ih =>
    have hx := hseen x (List.mem_cons_self _ _)
    have hkey2 : ∀ a ∈ xs, ∀ b ∈ xs, key₁ a = key₁ b ↔ key₂ (f a) = key₂ (f b) :=
      fun a ha b hb => hkey a (List.mem_cons_of_mem _ ha) b (List.mem_cons_of_mem _ hb)
    rw [List.map_cons]
    unfold firstOccurrences
    by_cases h : key₁ x ∈ seen₁
    · rw [if_pos h, if_pos (hx.mp h)]
      exact ih _ _ (fun y hy => hseen y (List.mem_cons_of_mem _ hy)) hkey2
    · rw [if_neg h, if_neg (fun h2 => h (hx.mpr h2)), List.map_cons]
      congr 1
      apply ih _ _ _ hkey2
      intro y hy
      rw [List.mem_cons, List.mem_cons,
        hkey y (List.mem_cons_of_mem _ hy) x (List.mem_cons_self _ _),
        hseen y (List.mem_cons_of_mem _ hy)]

theorem mem_firstOccurrences {α κ : Type} [DecidableEq κ] (key : α → κ) (l : List α)
    (seen : List κ) (x : α) (h : x ∈ firstOccurrences key seen l) : x ∈ l ∧ key x ∉ seen := by
  induction l generalizing seen with
  | nil => simp [firstOccurrences] at h
  | cons y ys ih =>
    unfold firstOccurrences at h
    by_cases hy : key y ∈ seen
    · rw [if_pos hy] at h
      exact ⟨List.mem_cons_of_mem _ (ih _ h).1, (ih _ h).2⟩
    · rw [if_neg hy, List.mem_cons] at h
      rcases h with rfl | h
      · exact ⟨List.mem_cons_self _ _, hy⟩
      · exact ⟨List.mem_cons_of_mem _ (ih _ h).1,
          fun hs => (ih _ h).2 (List.mem_cons_of_mem _ hs)⟩

/-- The first occurrences have pairwise different keys. -/
theorem firstOccurrences_nodup {α κ : Type} [DecidableEq κ] (key : α → κ) (l : List α)
    (seen : List κ) : ((firstOccurrences key seen l).map key).Nodup := by
  induction l generalizing seen with
  | nil => simp [firstOccurrences]
  | cons y ys ih =>
    unfold firstOccurrences
    by_cases hy : key y ∈ seen
    · rw [if_pos hy]
      exact ih _
    · rw [if_neg hy, List.map_cons, List.nodup_cons]
      refine ⟨?_, ih _⟩
      intro hmem
      obtain ⟨z, hz, hzy⟩ := List.mem_map.mp hmem
      exact (mem_firstOccurrences key ys _ z hz).2 (by rw [hzy]; exact List.mem_cons_self _ _)

/-- Elements that follow do not change the first occurrences found so far. -/
theorem firstOccurrences_append {α κ : Type} [DecidableEq κ] (key : α → κ) (l₁ l₂ : List α)
    (seen : List κ) :
    firstOccurrences key seen l₁ <+: firstOccurrences key seen (l₁ ++ l₂) := by
  induction l₁ generalizing seen with
  | nil => exact List.nil_prefix
  | cons y ys ih =>
    rw [List.cons_append]
    unfold firstOccurrences
    by_cases hy : key y ∈ seen
    · rw [if_pos hy, if_pos hy]
      exact ih _
    · rw [if_neg hy, if_neg hy]
      exact (List.prefix_cons_inj y).mpr (ih _)

/-! ### Decimal text and the recorded key -/

theorem digitChar_ne_colon (d : Nat) (h : d < 10) : digitChar d ≠ ':' := by
  interval_cases d <;> decide

theorem digitVal_digitChar (d : Nat) (h : d < 10) : digitVal (digitChar d) = d := by
  interval_cases d <;> decide

theorem formatBits_acc (fuel u : Nat) (acc : List Char) :
    formatBits fuel u acc = formatBits fuel u [] ++ acc := by
  induction fuel generalizing u acc with
  | zero => simp [formatBits]
  | succ fuel ih =>
    unfold formatBits
    by_cases h : 10 ≤ u
    · rw [if_pos h, if_pos h, ih _ (digitChar (u % 10) :: acc), ih _ [digitChar (u % 10)]]
      simp
    · rw [if_neg h, if_neg h]
      simp

theorem formatBits_colon (fuel u : Nat) : ':' ∉ formatBits fuel u [] := by
  induction fuel generalizing u with
  | zero => simp [formatBits]
  | succ fuel ih =>
    unfold formatBits
    by_cases h : 10 ≤ u
    · rw [if_pos h, formatBits_acc, List.mem_append, not_or]
      refine ⟨ih _, ?_⟩
      rw [List.mem_singleton]
      exact fun e => digitChar_ne_colon (u % 10) (Nat.mod_lt _ (by decide)) e.symm
    · rw [if_neg h, List.mem_singleton]
      exact fun e => digitChar_ne_colon u (by omega) e.symm

theorem decimalVal_append_singleton (l : List Char) (c : Char) :
    decimalVal (l ++ [c]) = decimalVal l * 10 + digitVal c := by
  simp [decimalVal, List.foldl_append]

theorem decimalVal_formatBits (fuel u : Nat) (h : u < fuel) :
    decimalVal (formatBits fuel u []) = u := by
  induction fuel generalizing u with
  | zero => omega
  | succ fuel ih =>
    unfold formatBits
    by_cases h10 : 10 ≤ u
    · rw [if_pos h10, formatBits_acc, decimalVal_append_singleton, ih _ (by omega),
        digitVal_digitChar _ (Nat.mod_lt _ (by decide))]
      omega
    · rw [if_neg h10]
      have := digitVal_digitChar u (by omega)
      simp [decimalVal, this]

/-- The decimal text of an integer holds no colon. -/
theorem itoa_colon (i : Int) : ':' ∉ (itoa i).data := by
  unfold itoa
  by_cases h : i < 0
  · rw [if_pos h]
    simp only [List.mem_cons, not_or]
    exact ⟨by decide, formatBits_colon _ _⟩
  · rw [if_neg h]
    exact formatBits_colon _ _

/-- Different integers that are not negative have different decimal texts. -/
theorem itoa_inj (i j : Int) (hi : 0 ≤ i) (hj : 0 ≤ j) (h : itoa i = itoa j) : i = j := by
  unfold itoa at h
  rw [if_neg (by omega), if_neg (by omega)] at h
  have hd := congrArg (fun s : String => decimalVal s.data) h
  simp only [decimalVal_formatBits _ _ (Nat.lt_succ_self _)] at hd
  omega

theorem append_cons_inj_last (sep : Char) (l l2 r r2 : List Char) (hr : sep ∉ r)
    (hr2 : sep ∉ r2) (h : l ++ sep :: r = l2 ++ sep :: r2) : l = l2 ∧ r = r2 := by
  induction l generalizing l2 with
  | nil =>
    cases l2 with
    | nil => simpa using h
    | cons c t =>
      simp only [List.nil_append, List.cons_append, List.cons.injEq] at h
      exact absurd (by rw [h.2]; simp) hr
  | cons c t ih =>
    cases l2 with
    | nil =>
      simp only [List.nil_append, List.cons_append, List.cons.injEq] at h
      exact absurd (by rw [← h.2]; simp) hr2
    | cons c2 t2 =>
      simp only [List.cons_append, List.cons.injEq] at h
      obtain ⟨h1, h2⟩ := ih t2 h.2
      exact ⟨by rw [h.1, h1], h2⟩

theorem joinHostPort_data (host port : String) :
    (joinHostPort host port).data =
      (if ':' ∈ host.data then '[' :: host.data ++ [']'] else host.data) ++ ':' :: port.data := by
  unfold joinHostPort
  by_cases h : ':' ∈ host.data
  · simp only [if_pos h, String.data_append]
    simp
  · simp only [if_neg h, String.data_append]
    simp

/-- Two hosts with ports that hold no colon are joined to the same text only when they are
the same host and port. -/
theorem joinHostPort_inj (host host2 port port2 : String) (hp : ':' ∉ port.data)
    (hp2 : ':' ∉ port2.data) (h : joinHostPort host port = joinHostPort host2 port2) :
    host = host2 ∧ port = port2 := by
  have hd := congrArg String.data h
  rw [joinHostPort_data, joinHostPort_data] at hd
  obtain ⟨h1, h2⟩ := append_cons_inj_last ':' _ _ _ _ hp hp2 hd
  refine ⟨?_, String.ext h2⟩
  by_cases hc : ':' ∈ host.data
  · by_cases hc2 : ':' ∈ host2.data
    · rw [if_pos hc, if_pos hc2] at h1
      simp only [List.cons_append, List.cons.injEq, true_and] at h1
      exact String.ext (List.append_cancel_right h1)
    · rw [if_pos hc, if_neg hc2] at h1
      exact absurd (by rw [← h1]; simp [hc]) hc2
  · by_cases hc2 : ':' ∈ host2.data
    · rw [if_neg hc, if_pos hc2] at h1
      exact absurd (by rw [h1]; simp [hc2]) hc
    · rw [if_neg hc, if_neg hc2] at h1
      exact String.ext h1


/-! ### The endpoints in insertion order -/

theorem mem_portCandidates (targetPort : Int) (endpoints : List Endpoint) (e : IngressEndpoint)
    (h : e ∈ portCandidates targetPort endpoints) : e.Port = sprintfV targetPort := by
  unfold portCandidates at h
  simp only [List.mem_flatMap, List.mem_map] at h
  obtain ⟨_, _, _, _, rfl⟩ := h
  rfl

theorem sliceCandidates_port (svcPort : ServicePort) (proto : Protocol) (s : EndpointSlice)
    (c : List IngressEndpoint) (h : sliceCandidates svcPort proto s = some c)
    (e : IngressEndpoint) (he : e ∈ c) : ∃ targetPort, e.Port = sprintfV targetPort := by
  unfold sliceCandidates at h
  cases hf : fragmentTargetPorts svcPort proto s.Ports.length 0 s.Ports false with
  | none => simp [hf] at h
  | some tps =>
    simp only [hf, Option.map_some', Option.some.injEq] at h
    subst h
    obtain ⟨tp, _, htp⟩ := List.mem_flatMap.mp he
    exact ⟨tp, mem_portCandidates tp _ e htp⟩

theorem candidates_cons_some (svcPort : ServicePort) (proto : Protocol) (s : EndpointSlice)
    (rest : List EndpointSlice) (c : List IngressEndpoint)
    (h : candidates svcPort proto (s :: rest) = some c) :
    ∃ c₁ c₂, sliceCandidates svcPort proto s = some c₁ ∧
      candidates svcPort proto rest = some c₂ ∧ c = c₁ ++ c₂ := by
  unfold candidates at h
  cases h1 : sliceCandidates svcPort proto s with
  | none => simp [h1] at h
  | some c₁ =>
    cases h2 : candidates svcPort proto rest with
    | none => simp [h1, h2] at h
    | some c₂ =>
      simp only [h1, h2, Option.map_some', Option.some.injEq] at h
      exact ⟨c₁, c₂, rfl, rfl, h.symm⟩

/-- The port text of every endpoint that the fragments offer holds no colon. -/
theorem candidates_port_colon (svcPort : ServicePort) (proto : Protocol)
    (slices : List EndpointSlice) (c : List IngressEndpoint)
    (h : candidates svcPort proto slices = some c) (e : IngressEndpoint) (he : e ∈ c) :
    ':' ∉ e.Port.data := by
  induction slices generalizing c with
  | nil =>
    simp only [candidates, Option.some.injEq] at h
    subst h
    simp at he
  | cons s rest ih =>
    obtain ⟨c₁, c₂, h1, h2, rfl⟩ := candidates_cons_some svcPort proto s rest c h
    rcases List.mem_append.mp he with he | he
    · obtain ⟨tp, htp⟩ := sliceCandidates_port svcPort proto s c₁ h1 e he
      rw [htp]
      exact itoa_colon tp
    · exact ih c₂ h2 he

/-- On endpoints whose port text holds no colon, the recorded key tells apart exactly the
pairs of address and port. -/
theorem firstOccurrences_endpointKey (c : List IngressEndpoint)
    (hc : ∀ e ∈ c, ':' ∉ e.Port.data) :
    firstOccurrences endpointKey [] c =
      firstOccurrences (fun e : IngressEndpoint => (e.Address, e.Port)) [] c := by
  have h := firstOccurrences_map id (fun e : IngressEndpoint => (e.Address, e.Port))
    endpointKey c [] [] (by simp) (by
      intro x hx y hy
      constructor
      · intro hxy
        simp only [Prod.mk.injEq] at hxy
        simp [endpointKey, hxy.1, hxy.2]
      · intro hxy
        obtain ⟨h1, h2⟩ := joinHostPort_inj _ _ _ _ (hc x hx) (hc y hy) hxy
        simp only [id] at h1 h2
        simp [h1, h2])
  simpa using h

theorem selectTargetPort_isSome (svcPort : ServicePort) (proto : Protocol) (numPorts index : Nat)
    (p : EndpointPort) (found : Bool) (h1 : p.Name ≠ none) (h2 : p.Protocol ≠ none)
    (h3 : p.Port ≠ none) : ∃ r, selectTargetPort svcPort proto numPorts index p found = some r := by
  obtain ⟨n, hn⟩ := Option.ne_none_iff_exists'.mp h1
  obtain ⟨pr, hpr⟩ := Option.ne_none_iff_exists'.mp h2
  obtain ⟨v, hv⟩ := Option.ne_none_iff_exists'.mp h3
  have hnamed : ∃ r, (if svcPort.Name = "" then some (true, v)
      else if svcPort.Name = n then some (true, v) else some (found, (0 : Int))) = some r := by
    split_ifs <;> exact ⟨_, rfl⟩
  obtain ⟨⟨f, t⟩, hr⟩ := hnamed
  unfold selectTargetPort
  simp only [hn, hpr, hv, hr]
  split_ifs <;> exact ⟨_, rfl⟩

theorem fragmentTargetPorts_isSome (svcPort : ServicePort) (proto : Protocol) (numPorts : Nat)
    (ports : List EndpointPort) (index : Nat) (found : Bool)
    (h : ∀ p ∈ ports, p.Name ≠ none ∧ p.Protocol ≠ none ∧ p.Port ≠ none) :
    ∃ tps, fragmentTargetPorts svcPort proto numPorts index ports found = some tps := by
  induction ports generalizing index found with
  | nil => exact ⟨[], rfl⟩
  | cons p rest ih =>
    obtain ⟨hp1, hp2, hp3⟩ := h p (List.mem_cons_self _ _)
    obtain ⟨⟨found2, tp⟩, hr⟩ :=
      selectTargetPort_isSome svcPort proto numPorts index p found hp1 hp2 hp3
    have hrest := fun index found =>
      ih index found (fun q hq => h q (List.mem_cons_of_mem _ hq))
    unfold fragmentTargetPorts
    rw [hr]
    cases tp with
    | none => exact hrest _ _
    | some tp =>
      obtain ⟨tps, htps⟩ := hrest (index + 1) found2
      exact ⟨tp :: tps, by simp [htps]⟩

/-- Fragments without nil pointers are resolved without a panic. -/
theorem candidates_isSome (svcPort : ServicePort) (proto : Protocol)
    (slices : List EndpointSlice) (h : portsSet slices) :
    ∃ c, candidates svcPort proto slices = some c := by
  induction slices with
  | nil => exact ⟨[], rfl⟩
  | cons s rest ih =>
    obtain ⟨tps, htps⟩ := fragmentTargetPorts_isSome svcPort proto s.Ports.length s.Ports 0 false
      (h s (List.mem_cons_self _ _))
    obtain ⟨c₂, hc₂⟩ := ih (fun q hq => h q (List.mem_cons_of_mem _ hq))
    unfold candidates sliceCandidates
    rw [htps, hc₂]
    exact ⟨_, rfl⟩

theorem candidates_append (svcPort : ServicePort) (proto : Protocol)
    (l₁ l₂ : List EndpointSlice) (c : List IngressEndpoint)
    (h : candidates svcPort proto (l₁ ++ l₂) = some c) :
    ∃ c₁ c₂, candidates svcPort proto l₁ = some c₁ ∧ c = c₁ ++ c₂ := by
  induction l₁ generalizing c with
  | nil => exact ⟨[], c, rfl, rfl⟩
  | cons s rest ih =>
    obtain ⟨a, b, h1, h2, rfl⟩ := candidates_cons_some svcPort proto s (rest ++ l₂) c h
    obtain ⟨c₁, c₂, h3, rfl⟩ := ih b h2
    refine ⟨a ++ c₁, c₂, ?_, by simp⟩
    unfold candidates
    rw [h1, h3]
    rfl


theorem getEndpointsByEps_lookup_error (lib : GoLib) (svc : Service) (svcPort : ServicePort)
    (proto : Protocol) (lookup : String → Except String (List EndpointSlice)) (err : String)
    (hType : svc.Spec.Type_ ≠ ServiceTypeExternalName)
    (hLookup : lookup (MetaNamespaceKey svc.Namespace svc.Name) = Except.error err) :
    getEndpointsByEps lib (some svc) (some svcPort) proto lookup = some [] := by
  unfold getEndpointsByEps
  simp only [hType, if_false, hLookup]

theorem getEndpointsByEps_externalName_short (lib : GoLib) (svc : Service)
    (svcPort : ServicePort) (proto : Protocol)
    (lookup : String → Except String (List EndpointSlice))
    (hType : svc.Spec.Type_ = ServiceTypeExternalName) :
    ∃ r, getEndpointsByEps lib (some svc) (some svcPort) proto lookup = some r ∧
      r.length ≤ 1 := by
  unfold getEndpointsByEps
  simp only [hType, if_true]
  split_ifs <;> exact ⟨_, rfl, by simp⟩

/-- C1: the list that `getEndpointsByEps` returns holds no two entries with the same address
and port, for every service, port, protocol and lookup; and it does return a list whenever
no port entry of the fragments holds a nil pointer. -/
theorem getEndpointsByEps_nodup (lib : GoLib) (svc : Option Service)
    (svcPort : Option ServicePort) (proto : Protocol)
    (lookup : String → Except String (List EndpointSlice)) :
    (∀ r, getEndpointsByEps lib svc svcPort proto lookup = some r →
      (r.map (fun e => (e.Address, e.Port))).Nodup) ∧
    ((∀ key slices, lookup key = Except.ok slices → portsSet slices) →
      ∃ r, getEndpointsByEps lib svc svcPort proto lookup = some r) := by
  cases svc with
  | none =>
    refine ⟨fun r hr => ?_, fun _ => ⟨[], rfl⟩⟩
    have : r = [] := by simpa [getEndpointsByEps] using hr.symm
    simp [this]
  | some svc =>
    cases svcPort with
    | none =>
      refine ⟨fun r hr => ?_, fun _ => ⟨[], rfl⟩⟩
      have : r = [] := by simpa [getEndpointsByEps] using hr.symm
      simp [this]
    | some svcPort =>
      by_cases hType : svc.Spec.Type_ = ServiceTypeExternalName
      · obtain ⟨r0, hr0, hlen⟩ :=
          getEndpointsByEps_externalName_short lib svc svcPort proto lookup hType
        refine ⟨fun r hr => ?_, fun _ => ⟨r0, hr0⟩⟩
        have hrr : r = r0 := Option.some.inj (hr.symm.trans hr0)
        subst hrr
        match r, hlen with
        | [], _ => simp
        | [_], _ => simp
      · cases hLookup : lookup (MetaNamespaceKey svc.Namespace svc.Name) with
        | error err =>
          have h0 := getEndpointsByEps_lookup_error lib svc svcPort proto lookup err hType hLookup
          refine ⟨fun r hr => ?_, fun _ => ⟨[], h0⟩⟩
          have : r = [] := Option.some.inj (hr.symm.trans h0)
          simp [this]
        | ok slices =>
          have h0 := getEndpointsByEps_slices lib svc svcPort proto lookup slices hType hLookup
          constructor
          · intro r hr
            rw [h0] at hr
            cases hc : candidates svcPort proto slices with
            | none => simp [hc] at hr
            | some c =>
              simp only [hc, Option.map_some', Option.some.injEq] at hr
              rw [← hr, firstOccurrences_endpointKey c
                (candidates_port_colon svcPort proto slices c hc)]
              exact firstOccurrences_nodup _ c []
          · intro hset
            obtain ⟨c, hc⟩ := candidates_isSome svcPort proto slices (hset _ _ hLookup)
            exact ⟨_, by rw [h0, hc]; rfl⟩

/-- Two ports of two fragments that lead to the same addresses: four candidates, two
entries. -/
theorem getEndpointsByEps_nodup_witness :
    getEndpointsByEps goLib (some ⟨"default", "web", ⟨"ClusterIP", ""⟩⟩)
      (some ⟨"", ⟨IntstrType.Int, 8080, ""⟩⟩) "TCP"
      (fun _ => Except.ok
        [⟨"default", "web-1", [], [⟨some "http", some "TCP", some 8080⟩,
            ⟨some "metrics", some "TCP", some 8080⟩], [⟨["10.0.0.1", "10.0.0.2"], none⟩]⟩,
          ⟨"default", "web-2", [], [⟨some "http", some "TCP", some 8080⟩],
            [⟨["10.0.0.2"], none⟩]⟩]) =
      some [⟨"10.0.0.1", "8080", none⟩, ⟨"10.0.0.2", "8080", none⟩] ∧
    (([⟨"10.0.0.1", "8080", none⟩, ⟨"10.0.0.2", "8080", none⟩] : List IngressEndpoint).map
      (fun e => (e.Address, e.Port))).Nodup :=
  ⟨by decide,
    (getEndpointsByEps_nodup goLib (some ⟨"default", "web", ⟨"ClusterIP", ""⟩⟩)
      (some ⟨"", ⟨IntstrType.Int, 8080, ""⟩⟩) "TCP"
      (fun _ => Except.ok
        [⟨"default", "web-1", [], [⟨some "http", some "TCP", some 8080⟩,
            ⟨some "metrics", some "TCP", some 8080⟩], [⟨["10.0.0.1", "10.0.0.2"], none⟩]⟩,
          ⟨"default", "web-2", [], [⟨some "http", some "TCP", some 8080⟩],
            [⟨["10.0.0.2"], none⟩]⟩])).1 _ (by decide)⟩


/-- C6: for a slice-backed service the returned endpoints are the first occurrences, by
address and port, of the endpoints in insertion order (fragments in lookup order, port
entries in order, endpoints in order, addresses in order), each with the target reference of
that first occurrence; without nil pointers in the port entries a list is returned; and
fragments that follow leave the entries found so far in place. -/
theorem getEndpointsByEps_insertion_order (lib : GoLib) (svc : Service) (svcPort : ServicePort)
    (proto : Protocol) (lookup : String → Except String (List EndpointSlice))
    (slices : List EndpointSlice)
    (hType : svc.Spec.Type_ ≠ ServiceTypeExternalName)
    (hLookup : lookup (MetaNamespaceKey svc.Namespace svc.Name) = Except.ok slices) :
    getEndpointsByEps lib (some svc) (some svcPort) proto lookup =
      (candidates svcPort proto slices).map
        (firstOccurrences (fun e : IngressEndpoint => (e.Address, e.Port)) []) ∧
    (portsSet slices → ∃ c, candidates svcPort proto slices = some c) ∧
    (∀ (more : List EndpointSlice) (lookup2 : String → Except String (List EndpointSlice))
      (r r2 : List IngressEndpoint),
      lookup2 (MetaNamespaceKey svc.Namespace svc.Name) = Except.ok (slices ++ more) →
      getEndpointsByEps lib (some svc) (some svcPort) proto lookup = some r →
      getEndpointsByEps lib (some svc) (some svcPort) proto lookup2 = some r2 →
      r <+: r2) := by
  have hmain : ∀ (l : List EndpointSlice) (lk : String → Except String (List EndpointSlice)),
      lk (MetaNamespaceKey svc.Namespace svc.Name) = Except.ok l →
      getEndpointsByEps lib (some svc) (some svcPort) proto lk =
        (candidates svcPort proto l).map
          (firstOccurrences (fun e : IngressEndpoint => (e.Address, e.Port)) []) := by
    intro l lk hlk
    rw [getEndpointsByEps_slices lib svc svcPort proto lk l hType hlk]
    cases hc : candidates svcPort proto l with
    | none => rfl
    | some c =>
      simp only [Option.map_some']
      rw [firstOccurrences_endpointKey c (candidates_port_colon svcPort proto l c hc)]
  refine ⟨hmain slices lookup hLookup, candidates_isSome svcPort proto slices, ?_⟩
  intro more lookup2 r r2 hLookup2 hr hr2
  rw [hmain slices lookup hLookup] at hr
  rw [hmain (slices ++ more) lookup2 hLookup2] at hr2
  cases hc2 : candidates svcPort proto (slices ++ more) with
  | none => simp [hc2] at hr2
  | some c =>
    obtain ⟨c₁, c₂, hc₁, rfl⟩ := candidates_append svcPort proto slices more c hc2
    simp only [hc2, hc₁, Option.map_some', Option.some.injEq] at hr hr2
    rw [← hr, ← hr2]
    exact firstOccurrences_append _ c₁ c₂ []

/-- Two fragments: the address 10.0.0.2 comes back in the second fragment under another
target reference, and the entry of the first fragment stays. -/
theorem getEndpointsByEps_insertion_order_witness :
    candidates ⟨"http", ⟨IntstrType.Int, 8080, ""⟩⟩ "TCP"
      [⟨"default", "web-1", [], [⟨some "http", some "TCP", some 8080⟩],
          [⟨["10.0.0.1", "10.0.0.2"], some ⟨"Pod", "default", "web-a", "uid-a"⟩⟩]⟩,
        ⟨"default", "web-2", [], [⟨some "http", some "TCP", some 8080⟩],
          [⟨["10.0.0.2", "10.0.0.3"], some ⟨"Pod", "default", "web-b", "uid-b"⟩⟩]⟩] =
      some [⟨"10.0.0.1", "8080", some ⟨"Pod", "default", "web-a", "uid-a"⟩⟩,
        ⟨"10.0.0.2", "8080", some ⟨"Pod", "default", "web-a", "uid-a"⟩⟩,
        ⟨"10.0.0.2", "8080", some ⟨"Pod", "default", "web-b", "uid-b"⟩⟩,
        ⟨"10.0.0.3", "8080", some ⟨"Pod", "default", "web-b", "uid-b"⟩⟩] ∧
    getEndpointsByEps goLib (some ⟨"default", "web", ⟨"ClusterIP", ""⟩⟩)
      (some ⟨"http", ⟨IntstrType.Int, 8080, ""⟩⟩) "TCP"
      (fun _ => Except.ok
        [⟨"default", "web-1", [], [⟨some "http", some "TCP", some 8080⟩],
            [⟨["10.0.0.1", "10.0.0.2"], some ⟨"Pod", "default", "web-a", "uid-a"⟩⟩]⟩,
          ⟨"default", "web-2", [], [⟨some "http", some "TCP", some 8080⟩],
            [⟨["10.0.0.2", "10.0.0.3"], some ⟨"Pod", "default", "web-b", "uid-b"⟩⟩]⟩]) =
      some [⟨"10.0.0.1", "8080", some ⟨"Pod", "default", "web-a", "uid-a"⟩⟩,
        ⟨"10.0.0.2", "8080", some ⟨"Pod", "default", "web-a", "uid-a"⟩⟩,
        ⟨"10.0.0.3", "8080", some ⟨"Pod", "default", "web-b", "uid-b"⟩⟩] :=
  ⟨by decide,
    (getEndpointsByEps_insertion_order goLib ⟨"default", "web", ⟨"ClusterIP", ""⟩⟩
      ⟨"http", ⟨IntstrType.Int, 8080, ""⟩⟩ "TCP"
      (fun _ => Except.ok
        [⟨"default", "web-1", [], [⟨some "http", some "TCP", some 8080⟩],
            [⟨["10.0.0.1", "10.0.0.2"], some ⟨"Pod", "default", "web-a", "uid-a"⟩⟩]⟩,
          ⟨"default", "web-2", [], [⟨some "http", some "TCP", some 8080⟩],
            [⟨["10.0.0.2", "10.0.0.3"], some ⟨"Pod", "default", "web-b", "uid-b"⟩⟩]⟩])
      _ (by decide) rfl).1.trans (by decide)⟩

/-! ### A port without a name -/

theorem fragmentTargetPorts_unnamed (targetPort : IntOrString) (proto : Protocol)
    (numPorts : Nat) (ports : List EndpointPort) (index : Nat) (found : Bool)
    (h : ∀ p ∈ ports, p.Protocol ≠ none ∧ (p.Protocol = some proto → p.Port ≠ none)) :
    fragmentTargetPorts ⟨"", targetPort⟩ proto numPorts index ports found =
      some (positivePorts proto ports) := by
  induction ports generalizing index found with
  | nil => rfl
  | cons p rest ih =>
    obtain ⟨hp1, hp2⟩ := h p (List.mem_cons_self _ _)
    have hrest := fun index found =>
      ih index found (fun q hq => h q (List.mem_cons_of_mem _ hq))
    obtain ⟨pr, hpr⟩ := Option.ne_none_iff_exists'.mp hp1
    unfold fragmentTargetPorts
    by_cases hproto : pr = proto
    · subst hproto
      obtain ⟨v, hv⟩ := Option.ne_none_iff_exists'.mp (hp2 hpr)
      by_cases hv0 : v ≤ 0
      · have hs : selectTargetPort ⟨"", targetPort⟩ pr numPorts index p found =
            some (true, none) := by
          simp [selectTargetPort, hpr, hv, hv0]
        rw [hs]
        simp only [hrest]
        simp [positivePorts, hpr, hv, not_lt.mpr hv0]
      · have hs : selectTargetPort ⟨"", targetPort⟩ pr numPorts index p found =
            some (true, some v) := by
          simp [selectTargetPort, hpr, hv, hv0]
        rw [hs]
        simp only [hrest]
        simp [positivePorts, hpr, hv, not_le.mp hv0]
    · have hs : selectTargetPort ⟨"", targetPort⟩ proto numPorts index p found =
          some (found, none) := by
        simp [selectTargetPort, hpr, hproto]
      rw [hs]
      simp only [hrest]
      simp [positivePorts, hpr, hproto]

theorem candidates_unnamed (targetPort : IntOrString) (proto : Protocol)
    (slices : List EndpointSlice)
    (h : ∀ s ∈ slices, ∀ p ∈ s.Ports,
      p.Protocol ≠ none ∧ (p.Protocol = some proto → p.Port ≠ none)) :
    candidates ⟨"", targetPort⟩ proto slices =
      some ((positivePortCandidates proto slices).map
        (fun c => (⟨c.1, itoa c.2.1, c.2.2⟩ : IngressEndpoint))) := by
  induction slices with
  | nil => rfl
  | cons s rest ih =>
    unfold candidates sliceCandidates
    rw [fragmentTargetPorts_unnamed targetPort proto _ s.Ports 0 false
      (h s (List.mem_cons_self _ _)), ih (fun q hq => h q (List.mem_cons_of_mem _ hq))]
    simp [positivePortCandidates, portCandidates, sprintfV, List.map_flatMap,
      List.flatMap_cons, Function.comp_def]

theorem positivePortCandidates_pos (proto : Protocol) (slices : List EndpointSlice)
    (c : String × Int × Option ObjectReference) (h : c ∈ positivePortCandidates proto slices) :
    0 < c.2.1 := by
  simp only [positivePortCandidates, positivePorts, List.mem_flatMap, List.mem_filterMap,
    List.mem_map] at h
  obtain ⟨s, _, n, ⟨p, _, hp⟩, e, _, a, _, rfl⟩ := h
  simp only
  split_ifs at hp with h1
  · cases hport : p.Port with
    | none => simp [hport] at hp
    | some v =>
      simp only [hport] at hp
      split_ifs at hp with h2
      · exact (Option.some.inj hp) ▸ h2

/-- C5: for a slice-backed service and a ServicePort with an empty name the result is the
list of first occurrences, by address and slice port number, over the port entries that have
the requested protocol and a positive number, every entry under the decimal text of that
number; the target port of the ServicePort does not enter. -/
theorem getEndpointsByEps_unnamed_port (lib : GoLib) (svc : Service)
    (targetPort : IntOrString) (proto : Protocol)
    (lookup : String → Except String (List EndpointSlice)) (slices : List EndpointSlice)
    (hType : svc.Spec.Type_ ≠ ServiceTypeExternalName)
    (hLookup : lookup (MetaNamespaceKey svc.Namespace svc.Name) = Except.ok slices)
    (hPtr : ∀ s ∈ slices, ∀ p ∈ s.Ports,
      p.Protocol ≠ none ∧ (p.Protocol = some proto → p.Port ≠ none)) :
    getEndpointsByEps lib (some svc) (some ⟨"", targetPort⟩) proto lookup =
      some ((firstOccurrences (fun c : String × Int × Option ObjectReference => (c.1, c.2.1)) []
        (positivePortCandidates proto slices)).map
          (fun c => (⟨c.1, itoa c.2.1, c.2.2⟩ : IngressEndpoint))) := by
  rw [getEndpointsByEps_slices lib svc _ proto lookup slices hType hLookup,
    candidates_unnamed targetPort proto slices hPtr, Option.map_some']
  congr 1
  apply firstOccurrences_map
  · simp
  · intro x hx y hy
    have hx0 := positivePortCandidates_pos proto slices x hx
    have hy0 := positivePortCandidates_pos proto slices y hy
    constructor
    · intro hxy
      simp only [Prod.mk.injEq] at hxy
      simp [endpointKey, hxy.1, hxy.2]
    · intro hxy
      obtain ⟨h1, h2⟩ := joinHostPort_inj _ _ _ _ (itoa_colon _) (itoa_colon _) hxy
      simp only at h1 h2
      rw [h1, itoa_inj _ _ (le_of_lt hx0) (le_of_lt hy0) h2]

/-- The example of the specification: one fragment with one port 80 without a name and the
addresses 10.0.0.1 and 10.0.0.2 gives two endpoints on port "80", for target port 80 and for
any other target port. -/
theorem getEndpointsByEps_unnamed_port_witness :
    getEndpointsByEps goLib (some ⟨"default", "web", ⟨"ClusterIP", ""⟩⟩)
      (some ⟨"", ⟨IntstrType.Int, 80, ""⟩⟩) "TCP"
      (fun _ => Except.ok [⟨"default", "web-1", [], [⟨none, some "TCP", some 80⟩],
        [⟨["10.0.0.1"], none⟩, ⟨["10.0.0.2"], none⟩]⟩]) =
      some [⟨"10.0.0.1", "80", none⟩, ⟨"10.0.0.2", "80", none⟩] ∧
    getEndpointsByEps goLib (some ⟨"default", "web", ⟨"ClusterIP", ""⟩⟩)
      (some ⟨"", ⟨IntstrType.String, 0, "http"⟩⟩) "TCP"
      (fun _ => Except.ok [⟨"default", "web-1", [], [⟨none, some "TCP", some 80⟩],
        [⟨["10.0.0.1"], none⟩, ⟨["10.0.0.2"], none⟩]⟩]) =
      some [⟨"10.0.0.1", "80", none⟩, ⟨"10.0.0.2", "80", none⟩] :=
  ⟨(getEndpointsByEps_unnamed_port goLib ⟨"default", "web", ⟨"ClusterIP", ""⟩⟩
      ⟨IntstrType.Int, 80, ""⟩ "TCP"
      (fun _ => Except.ok [⟨"default", "web-1", [], [⟨none, some "TCP", some 80⟩],
        [⟨["10.0.0.1"], none⟩, ⟨["10.0.0.2"], none⟩]⟩]) _ (by decide) rfl (by decide)).trans
      (by decide),
    (getEndpointsByEps_unnamed_port goLib ⟨"default", "web", ⟨"ClusterIP", ""⟩⟩
      ⟨IntstrType.String, 0, "http"⟩ "TCP"
      (fun _ => Except.ok [⟨"default", "web-1", [], [⟨none, some "TCP", some 80⟩],
        [⟨["10.0.0.1"], none⟩, ⟨["10.0.0.2"], none⟩]⟩]) _ (by decide) rfl (by decide)).trans
      (by decide)⟩


/-! ### The fallback to the target port of the ServicePort -/

/-- Every offered element has a first occurrence with its key in the result. -/
theorem firstOccurrences_complete {α κ : Type} [DecidableEq κ] (key : α → κ) (l : List α)
    (seen : List κ) (x : α) (hx : x ∈ l) (hseen : key x ∉ seen) :
    ∃ y ∈ firstOccurrences key seen l, key y = key x := by
  induction l generalizing seen with
  | nil => simp at hx
  | cons z zs ih =>
    unfold firstOccurrences
    by_cases hz : key z ∈ seen
    · rw [if_pos hz]
      rcases List.mem_cons.mp hx with rfl | hx
      · exact absurd hz hseen
      · exact ih seen hx hseen
    · rw [if_neg hz]
      by_cases hzx : key z = key x
      · exact ⟨z, List.mem_cons_self _ _, hzx⟩
      · rcases List.mem_cons.mp hx with rfl | hx
        · exact absurd rfl hzx
        · obtain ⟨y, hy, hyx⟩ := ih (key z :: seen) hx
            (by simp only [List.mem_cons, not_or]; exact ⟨fun e => hzx e.symm, hseen⟩)
          exact ⟨y, List.mem_cons_of_mem _ hy, hyx⟩

theorem candidates_cons (svcPort : ServicePort) (proto : Protocol) (s : EndpointSlice)
    (rest : List EndpointSlice) :
    candidates svcPort proto (s :: rest) =
      (sliceCandidates svcPort proto s).bind (fun c =>
        (candidates svcPort proto rest).map (fun cs => c ++ cs)) := by
  cases h : sliceCandidates svcPort proto s <;> simp [candidates, h]

theorem candidates_append_eq (svcPort : ServicePort) (proto : Protocol)
    (l₁ l₂ : List EndpointSlice) :
    candidates svcPort proto (l₁ ++ l₂) =
      (candidates svcPort proto l₁).bind (fun a =>
        (candidates svcPort proto l₂).map (fun b => a ++ b)) := by
  induction l₁ with
  | nil =>
    cases h : candidates svcPort proto l₂ <;> simp [candidates, h]
  | cons s rest ih =>
    rw [List.cons_append, candidates_cons, candidates_cons, ih]
    cases sliceCandidates svcPort proto s with
    | none => rfl
    | some c =>
      cases candidates svcPort proto rest with
      | none => rfl
      | some a =>
        cases candidates svcPort proto l₂ with
        | none => rfl
        | some b => simp

/-- A port entry whose name is not the name of the ServicePort: the iteration ends in
`continue` unless it is the last one, the target port is an integer and nothing matched. -/
theorem selectTargetPort_no_match (svcPort : ServicePort) (proto : Protocol)
    (numPorts index : Nat) (q : EndpointPort)
    (hName : svcPort.Name ≠ "")
    (hq : ∃ pr, q.Protocol = some pr ∧
      (pr = proto → ∃ n, q.Name = some n ∧ n ≠ svcPort.Name)) :
    selectTargetPort svcPort proto numPorts index q false =
      if q.Protocol = some proto ∧ (index : Int) = (numPorts : Int) - 1 ∧
          svcPort.TargetPort.Type_ = IntstrType.Int ∧ 0 < svcPort.TargetPort.IntVal then
        some (false, some svcPort.TargetPort.IntVal)
      else some (false, none) := by
  obtain ⟨pr, hpr, hn⟩ := hq
  unfold selectTargetPort
  by_cases hp : pr = proto
  · subst hp
    obtain ⟨n, hn1, hn2⟩ := hn rfl
    have hne : ¬ svcPort.Name = n := fun e => hn2 e.symm
    simp only [hpr, hn1, ne_eq, not_true_eq_false, if_false, hName, hne, true_and]
    by_cases hc : (index : Int) = (numPorts : Int) - 1 ∧
        svcPort.TargetPort.Type_ = IntstrType.Int
    · by_cases h0 : 0 < svcPort.TargetPort.IntVal
      · simp [hc, h0, not_le.mpr h0]
      · simp [hc, h0, not_lt.mp h0]
    · have hc2 : ¬ ((index : Int) = (numPorts : Int) - 1 ∧
          svcPort.TargetPort.Type_ = IntstrType.Int ∧ 0 < svcPort.TargetPort.IntVal) :=
        fun h => hc ⟨h.1, h.2.1⟩
      simp [hc, hc2]
  · have hp2 : ¬ q.Protocol = some proto := by rw [hpr]; simpa using hp
    simp [hpr, hp, hp2]

/-- A fragment without a port entry of the requested name contributes no target port when
the target port of the ServicePort is a named port. -/
theorem fragmentTargetPorts_named_string (svcPort : ServicePort) (proto : Protocol)
    (numPorts : Nat) (ports : List EndpointPort) (index : Nat)
    (hName : svcPort.Name ≠ "") (hType : svcPort.TargetPort.Type_ = IntstrType.String)
    (hports : ∀ q ∈ ports, ∃ pr, q.Protocol = some pr ∧
      (pr = proto → ∃ n, q.Name = some n ∧ n ≠ svcPort.Name)) :
    fragmentTargetPorts svcPort proto numPorts index ports false = some [] := by
  induction ports generalizing index with
  | nil => rfl
  | cons q rest ih =>
    unfold fragmentTargetPorts
    rw [selectTargetPort_no_match svcPort proto numPorts index q hName
      (hports q (List.mem_cons_self _ _)), if_neg (by simp [hType])]
    exact ih _ (fun p hp => hports p (List.mem_cons_of_mem _ hp))

/-- A fragment without a port entry of the requested name, whose last port entry has the
requested protocol, contributes the integer target port of the ServicePort and nothing
else. -/
theorem fragmentTargetPorts_fallback (svcPort : ServicePort) (proto : Protocol)
    (numPorts : Nat) (init : List EndpointPort) (last : EndpointPort) (index : Nat)
    (hName : svcPort.Name ≠ "") (hType : svcPort.TargetPort.Type_ = IntstrType.Int)
    (hpos : 0 < svcPort.TargetPort.IntVal)
    (hindex : index + (init ++ [last]).length = numPorts)
    (hports : ∀ q ∈ init ++ [last], ∃ pr, q.Protocol = some pr ∧
      (pr = proto → ∃ n, q.Name = some n ∧ n ≠ svcPort.Name))
    (hlast : last.Protocol = some proto) :
    fragmentTargetPorts svcPort proto numPorts index (init ++ [last]) false =
      some [svcPort.TargetPort.IntVal] := by
  induction init generalizing index with
  | nil =>
    simp only [List.nil_append, List.length_singleton] at hindex
    simp only [List.nil_append]
    unfold fragmentTargetPorts
    rw [selectTargetPort_no_match svcPort proto numPorts index last hName
      (hports last (by simp)), if_pos ⟨hlast, by omega, hType, hpos⟩]
    rfl
  | cons q rest ih =>
    simp only [List.cons_append, List.length_cons, List.length_append,
      List.length_singleton, List.length_nil] at hindex
    rw [List.cons_append]
    unfold fragmentTargetPorts
    rw [selectTargetPort_no_match svcPort proto numPorts index q hName
      (hports q (by simp)), if_neg (by rintro ⟨_, h, _⟩; omega)]
    exact ih (index + 1) (by simp only [List.length_append, List.length_singleton]; omega)
      (fun p hp => hports p (List.mem_cons_of_mem _ hp))

/-- The result of the resolver for a slice-backed service, by address and port. -/
theorem getEndpointsByEps_pairs (lib : GoLib) (svc : Service) (svcPort : ServicePort)
    (proto : Protocol) (lookup : String → Except String (List EndpointSlice))
    (slices : List EndpointSlice)
    (hType : svc.Spec.Type_ ≠ ServiceTypeExternalName)
    (hLookup : lookup (MetaNamespaceKey svc.Namespace svc.Name) = Except.ok slices) :
    getEndpointsByEps lib (some svc) (some svcPort) proto lookup =
      (candidates svcPort proto slices).map
        (firstOccurrences (fun e : IngressEndpoint => (e.Address, e.Port)) []) := by
  rw [getEndpointsByEps_slices lib svc svcPort proto lookup slices hType hLookup]
  cases hc : candidates svcPort proto slices with
  | none => rfl
  | some c =>
    simp only [Option.map_some']
    rw [firstOccurrences_endpointKey c (candidates_port_colon svcPort proto slices c hc)]

/-- C19: for a slice-backed service and a ServicePort with a name, a fragment in which no
port entry of the requested protocol has that name and whose last port entry has the
requested protocol is resolved as follows.  When the target port is a literal integer p > 0,
the fragment offers every address of its endpoints under port p and nothing else, so every
such address is in the result under port p, and a result is returned when no other fragment
holds a nil pointer.  When the target port is a named port, the fragment offers nothing: the
result is that of the lookup without the fragment. -/
theorem getEndpointsByEps_fallback (lib : GoLib) (svc : Service) (svcPort : ServicePort)
    (proto : Protocol) (lookup lookup2 : String → Except String (List EndpointSlice))
    (pre post : List EndpointSlice) (frag : EndpointSlice) (init : List EndpointPort)
    (last : EndpointPort)
    (hType : svc.Spec.Type_ ≠ ServiceTypeExternalName)
    (hLookup : lookup (MetaNamespaceKey svc.Namespace svc.Name) =
      Except.ok (pre ++ frag :: post))
    (hLookup2 : lookup2 (MetaNamespaceKey svc.Namespace svc.Name) = Except.ok (pre ++ post))
    (hName : svcPort.Name ≠ "")
    (hPorts : frag.Ports = init ++ [last])
    (hLast : last.Protocol = some proto)
    (hNoMatch : ∀ q ∈ frag.Ports, ∃ pr, q.Protocol = some pr ∧
      (pr = proto → ∃ n, q.Name = some n ∧ n ≠ svcPort.Name)) :
    (svcPort.TargetPort.Type_ = IntstrType.Int → 0 < svcPort.TargetPort.IntVal →
      sliceCandidates svcPort proto frag =
        some (portCandidates svcPort.TargetPort.IntVal frag.Endpoints) ∧
      (∀ r, getEndpointsByEps lib (some svc) (some svcPort) proto lookup = some r →
        ∀ e ∈ frag.Endpoints, ∀ a ∈ e.Addresses,
          ∃ x ∈ r, x.Address = a ∧ x.Port = itoa svcPort.TargetPort.IntVal) ∧
      (portsSet pre → portsSet post →
        ∃ r, getEndpointsByEps lib (some svc) (some svcPort) proto lookup = some r)) ∧
    (svcPort.TargetPort.Type_ = IntstrType.String →
      sliceCandidates svcPort proto frag = some [] ∧
      getEndpointsByEps lib (some svc) (some svcPort) proto lookup =
        getEndpointsByEps lib (some svc) (some svcPort) proto lookup2) := by
  have hget := getEndpointsByEps_pairs lib svc svcPort proto lookup _ hType hLookup
  have hget2 := getEndpointsByEps_pairs lib svc svcPort proto lookup2 _ hType hLookup2
  have hcand := candidates_append_eq svcPort proto pre (frag :: post)
  rw [candidates_cons] at hcand
  constructor
  · intro hInt hpos
    have hfrag : sliceCandidates svcPort proto frag =
        some (portCandidates svcPort.TargetPort.IntVal frag.Endpoints) := by
      have h := fragmentTargetPorts_fallback svcPort proto frag.Ports.length init last 0
        hName hInt hpos (by rw [hPorts]; simp) (by rw [← hPorts]; exact hNoMatch) hLast
      unfold sliceCandidates
      rw [hPorts] at h ⊢
      rw [h]
      simp
    rw [hfrag] at hcand
    refine ⟨hfrag, ?_, ?_⟩
    · intro r hr e he a ha
      rw [hget, hcand] at hr
      cases hpre : candidates svcPort proto pre with
      | none => simp [hpre] at hr
      | some cpre =>
        cases hpost : candidates svcPort proto post with
        | none => simp [hpre, hpost] at hr
        | some cpost =>
          simp only [hpre, hpost, Option.some_bind, Option.map_some', Option.some.injEq] at hr
          have hmem : (⟨a, sprintfV svcPort.TargetPort.IntVal, e.TargetRef⟩ : IngressEndpoint) ∈
              cpre ++ (portCandidates svcPort.TargetPort.IntVal frag.Endpoints ++ cpost) := by
            refine List.mem_append_right _ (List.mem_append_left _ ?_)
            unfold portCandidates
            exact List.mem_flatMap.mpr ⟨e, he, List.mem_map.mpr ⟨a, ha, rfl⟩⟩
          obtain ⟨y, hy, hkey⟩ := firstOccurrences_complete
            (fun e : IngressEndpoint => (e.Address, e.Port)) _ [] _ hmem (by simp)
          simp only [Prod.mk.injEq] at hkey
          exact ⟨y, hr ▸ hy, hkey.1, hkey.2⟩
    · intro hpre hpost
      obtain ⟨cpre, hcpre⟩ := candidates_isSome svcPort proto pre hpre
      obtain ⟨cpost, hcpost⟩ := candidates_isSome svcPort proto post hpost
      exact ⟨_, by rw [hget, hcand, hcpre, hcpost]; rfl⟩
  · intro hStr
    have hfrag : sliceCandidates svcPort proto frag = some [] := by
      have h := fragmentTargetPorts_named_string svcPort proto frag.Ports.length frag.Ports 0
        hName hStr hNoMatch
      unfold sliceCandidates
      rw [h]
      rfl
    refine ⟨hfrag, ?_⟩
    rw [hget, hget2, hcand, hfrag, candidates_append_eq]
    simp

/-- A fragment whose only port entry is named "metrics": the ServicePort "http" with the
integer target port 8080 gets both addresses under port 8080. -/
theorem getEndpointsByEps_fallback_witness :
    getEndpointsByEps goLib (some ⟨"default", "web", ⟨"ClusterIP", ""⟩⟩)
      (some ⟨"http", ⟨IntstrType.Int, 8080, ""⟩⟩) "TCP"
      (fun _ => Except.ok ([] ++
        (⟨"default", "web-1", [], [⟨some "dns", some "UDP", some 53⟩,
          ⟨some "metrics", some "TCP", some 9090⟩],
          [⟨["10.0.0.1", "10.0.0.2"], none⟩]⟩ : EndpointSlice) :: [])) =
      some [⟨"10.0.0.1", "8080", none⟩, ⟨"10.0.0.2", "8080", none⟩] ∧
    sliceCandidates ⟨"http", ⟨IntstrType.Int, 8080, ""⟩⟩ "TCP"
      ⟨"default", "web-1", [], [⟨some "dns", some "UDP", some 53⟩,
        ⟨some "metrics", some "TCP", some 9090⟩],
        [⟨["10.0.0.1", "10.0.0.2"], none⟩]⟩ =
      some (portCandidates 8080 [⟨["10.0.0.1", "10.0.0.2"], none⟩]) :=
  ⟨by decide,
    ((getEndpointsByEps_fallback goLib ⟨"default", "web", ⟨"ClusterIP", ""⟩⟩
      ⟨"http", ⟨IntstrType.Int, 8080, ""⟩⟩ "TCP"
      (fun _ => Except.ok ([] ++
        (⟨"default", "web-1", [], [⟨some "dns", some "UDP", some 53⟩,
          ⟨some "metrics", some "TCP", some 9090⟩],
          [⟨["10.0.0.1", "10.0.0.2"], none⟩]⟩ : EndpointSlice) :: []))
      (fun _ => Except.ok ([] ++ []))
      [] [] _ [⟨some "dns", some "UDP", some 53⟩] ⟨some "metrics", some "TCP", some 9090⟩
      (by decide) rfl rfl (by decide) rfl rfl (by decide)).1 rfl (by decide)).1⟩

/-- C20: the fallback to the integer target port depends on the order of the port entries.
For the ServicePort "http" with target port 8080 and protocol TCP, a fragment with the port
entries metrics/TCP and dns/UDP gives no endpoint, and the same fragment with the two entries
in the other order gives the address under port 8080. -/
theorem getEndpointsByEps_fallback_order_dependent :
    ∃ (svc : Service) (svcPort : ServicePort) (proto : Protocol) (frag₁ frag₂ : EndpointSlice),
      svc.Spec.Type_ ≠ ServiceTypeExternalName ∧
      svcPort.Name ≠ "" ∧ svcPort.TargetPort.Type_ = IntstrType.Int ∧
      frag₂.Ports = frag₁.Ports.reverse ∧ frag₂.Endpoints = frag₁.Endpoints ∧
      frag₂.Namespace = frag₁.Namespace ∧ frag₂.Name = frag₁.Name ∧
      frag₂.Labels = frag₁.Labels ∧
      getEndpointsByEps goLib (some svc) (some svcPort) proto (fun _ => Except.ok [frag₁]) =
        some [] ∧
      getEndpointsByEps goLib (some svc) (some svcPort) proto (fun _ => Except.ok [frag₂]) =
        some [⟨"10.0.0.1", "8080", none⟩] :=
  ⟨⟨"default", "web", ⟨"ClusterIP", ""⟩⟩, ⟨"http", ⟨IntstrType.Int, 8080, ""⟩⟩, "TCP",
    ⟨"default", "web-1", [], [⟨some "metrics", some "TCP", some 9090⟩,
      ⟨some "dns", some "UDP", some 53⟩], [⟨["10.0.0.1"], none⟩]⟩,
    ⟨"default", "web-1", [], [⟨some "dns", some "UDP", some 53⟩,
      ⟨some "metrics", some "TCP", some 9090⟩], [⟨["10.0.0.1"], none⟩]⟩,
    by decide, by decide, rfl, rfl, rfl, rfl, rfl, rfl, by decide, by decide⟩


/-! ## The canary parser -/

theorem utf8ByteSize_pos_iff (s : String) : s.utf8ByteSize > 0 ↔ s ≠ "" := by
  cases s with
  | mk l =>
    cases l with
    | nil => simp [String.utf8ByteSize, String.utf8ByteSize.go]
    | cons c cs =>
      have hc := Char.utf8Size_pos c
      have hne : (String.mk (c :: cs)) ≠ "" := by
        intro h
        have := congrArg String.data h
        simp at this
      simp only [String.utf8ByteSize, String.utf8ByteSize.go, gt_iff_lt, ne_eq, hne,
        not_false_eq_true, iff_true]
      omega

/-- The cross-field check fails exactly on a configuration that is not enabled and has a
positive weight or a header, header value, header pattern or cookie that is not empty. -/
theorem canary_validate_error_iff (config : canary.Config) :
    (canary.validate config =
        Except.error (NewInvalidAnnotationConfiguration "canary" "configured but not enabled") ↔
      config.Enabled = false ∧ (config.Weight > 0 ∨ config.Header ≠ "" ∨
        config.HeaderValue ≠ "" ∨ config.HeaderPattern ≠ "" ∨ config.Cookie ≠ "")) ∧
    (¬ (config.Enabled = false ∧ (config.Weight > 0 ∨ config.Header ≠ "" ∨
        config.HeaderValue ≠ "" ∨ config.HeaderPattern ≠ "" ∨ config.Cookie ≠ "")) →
      canary.validate config = Except.ok config) := by
  have hcond : (config.Enabled = false ∧ (config.Weight > 0 ∨ config.Header.utf8ByteSize > 0 ∨
      config.HeaderValue.utf8ByteSize > 0 ∨ config.Cookie.utf8ByteSize > 0 ∨
      config.HeaderPattern.utf8ByteSize > 0)) ↔
      (config.Enabled = false ∧ (config.Weight > 0 ∨ config.Header ≠ "" ∨
        config.HeaderValue ≠ "" ∨ config.HeaderPattern ≠ "" ∨ config.Cookie ≠ "")) := by
    simp only [utf8ByteSize_pos_iff]
    tauto
  unfold canary.validate
  by_cases h : config.Enabled = false ∧ (config.Weight > 0 ∨ config.Header.utf8ByteSize > 0 ∨
      config.HeaderValue.utf8ByteSize > 0 ∨ config.Cookie.utf8ByteSize > 0 ∨
      config.HeaderPattern.utf8ByteSize > 0)
  · rw [if_pos h]
    exact ⟨⟨fun _ => hcond.mp h, fun _ => rfl⟩, fun hn => absurd (hcond.mp h) hn⟩
  · rw [if_neg h]
    refine ⟨⟨fun he => ?_, fun hc => absurd (hcond.mpr hc) h⟩, fun _ => rfl⟩
    cases he

/-- C17: `Parse` and `ParseByMCI` return the error "configured but not enabled" exactly when
the resolved enabled flag is false and the resolved weight is positive or one of the resolved
header, header value, header pattern and cookie is not empty; otherwise they return a
configuration and no error. -/
theorem canary_error_iff (parser : AnnotationGetters) (ing : networking.Ingress)
    (mci : karmadanetwork.MultiClusterIngress) :
    ((canary.Parse parser ing =
        Except.error (NewInvalidAnnotationConfiguration "canary" "configured but not enabled") ↔
      orDefault (parser.GetBoolAnnotation "canary" ing) false = false ∧
        (orDefault (parser.GetIntAnnotation "canary-weight" ing) 0 > 0 ∨
          orDefault (parser.GetStringAnnotation "canary-by-header" ing) "" ≠ "" ∨
          orDefault (parser.GetStringAnnotation "canary-by-header-value" ing) "" ≠ "" ∨
          orDefault (parser.GetStringAnnotation "canary-by-header-pattern" ing) "" ≠ "" ∨
          orDefault (parser.GetStringAnnotation "canary-by-cookie" ing) "" ≠ "")) ∧
      (canary.Parse parser ing ≠
          Except.error (NewInvalidAnnotationConfiguration "canary" "configured but not enabled") →
        ∃ config, canary.Parse parser ing = Except.ok config)) ∧
    ((canary.ParseByMCI parser mci =
        Except.error (NewInvalidAnnotationConfiguration "canary" "configured but not enabled") ↔
      orDefault (parser.GetBoolAnnotationFromMCI "canary" mci) false = false ∧
        (orDefault (parser.GetIntAnnotationFromMCI "canary-weight" mci) 0 > 0 ∨
          orDefault (parser.GetStringAnnotationFromMCI "canary-by-header" mci) "" ≠ "" ∨
          orDefault (parser.GetStringAnnotationFromMCI "canary-by-header-value" mci) "" ≠ "" ∨
          orDefault (parser.GetStringAnnotationFromMCI "canary-by-header-pattern" mci) "" ≠ "" ∨
          orDefault (parser.GetStringAnnotationFromMCI "canary-by-cookie" mci) "" ≠ "")) ∧
      (canary.ParseByMCI parser mci ≠
          Except.error (NewInvalidAnnotationConfiguration "canary" "configured but not enabled") →
        ∃ config, canary.ParseByMCI parser mci = Except.ok config)) := by
  constructor
  · unfold canary.Parse
    simp only
    refine ⟨(canary_validate_error_iff _).1, fun hne => ?_⟩
    exact ⟨_, (canary_validate_error_iff _).2 (fun hc => hne ((canary_validate_error_iff _).1.mpr hc))⟩
  · unfold canary.ParseByMCI
    simp only
    refine ⟨(canary_validate_error_iff _).1, fun hne => ?_⟩
    exact ⟨_, (canary_validate_error_iff _).2 (fun hc => hne ((canary_validate_error_iff _).1.mpr hc))⟩

/-- The examples of the specification: a weight of 10 without the canary annotation fails,
and with the canary annotation set to true it does not. -/
theorem canary_error_iff_witness :
    canary.ParseByMCI mapGetters ⟨⟨"default", "web", 0,
        [("nginx.ingress.kubernetes.io/canary-weight", "10")]⟩, ⟨none, [], []⟩⟩ =
      Except.error (NewInvalidAnnotationConfiguration "canary" "configured but not enabled") ∧
    canary.Parse mapGetters ⟨⟨"default", "web", 0,
        [("nginx.ingress.kubernetes.io/canary-weight", "10")]⟩, ⟨none, [], []⟩⟩ =
      Except.error (NewInvalidAnnotationConfiguration "canary" "configured but not enabled") ∧
    ∃ config, canary.ParseByMCI mapGetters ⟨⟨"default", "web", 0,
        [("nginx.ingress.kubernetes.io/canary", "true"),
          ("nginx.ingress.kubernetes.io/canary-weight", "10")]⟩, ⟨none, [], []⟩⟩ =
      Except.ok config :=
  ⟨(canary_error_iff mapGetters ⟨⟨"", "", 0, []⟩, ⟨none, [], []⟩⟩
      ⟨⟨"default", "web", 0, [("nginx.ingress.kubernetes.io/canary-weight", "10")]⟩,
        ⟨none, [], []⟩⟩).2.1.mpr ⟨by decide, Or.inl (by decide)⟩,
    (canary_error_iff mapGetters
      ⟨⟨"default", "web", 0, [("nginx.ingress.kubernetes.io/canary-weight", "10")]⟩,
        ⟨none, [], []⟩⟩ ⟨⟨"", "", 0, []⟩, ⟨none, [], []⟩⟩).1.1.mpr
      ⟨by decide, Or.inl (by decide)⟩,
    (canary_error_iff mapGetters ⟨⟨"", "", 0, []⟩, ⟨none, [], []⟩⟩
      ⟨⟨"default", "web", 0, [("nginx.ingress.kubernetes.io/canary", "true"),
        ("nginx.ingress.kubernetes.io/canary-weight", "10")]⟩, ⟨none, [], []⟩⟩).2.2
      (by decide)⟩

/-- C18: when the canary parser succeeds, every field of the configuration is the value that
its getter returns, and the default of the field when the getter returns an error: false for
Enabled, 0 for Weight, 100 for WeightTotal and the empty text for the other fields.  Both
parsers do succeed, with exactly this configuration, whenever the resolved fields pass the
cross-field check (the resolved flag is true, or the weight is not positive and the four
texts are empty). -/
theorem canary_fields (parser : AnnotationGetters) (ing : networking.Ingress)
    (mci : karmadanetwork.MultiClusterIngress) :
    (∀ config, canary.Parse parser ing = Except.ok config →
      config.Enabled = orDefault (parser.GetBoolAnnotation "canary" ing) false ∧
      config.Weight = orDefault (parser.GetIntAnnotation "canary-weight" ing) 0 ∧
      config.WeightTotal = orDefault (parser.GetIntAnnotation "canary-weight-total" ing) 100 ∧
      config.Header = orDefault (parser.GetStringAnnotation "canary-by-header" ing) "" ∧
      config.HeaderValue =
        orDefault (parser.GetStringAnnotation "canary-by-header-value" ing) "" ∧
      config.HeaderPattern =
        orDefault (parser.GetStringAnnotation "canary-by-header-pattern" ing) "" ∧
      config.Cookie = orDefault (parser.GetStringAnnotation "canary-by-cookie" ing) "") ∧
    (∀ config, canary.ParseByMCI parser mci = Except.ok config →
      config.Enabled = orDefault (parser.GetBoolAnnotationFromMCI "canary" mci) false ∧
      config.Weight = orDefault (parser.GetIntAnnotationFromMCI "canary-weight" mci) 0 ∧
      config.WeightTotal =
        orDefault (parser.GetIntAnnotationFromMCI "canary-weight-total" mci) 100 ∧
      config.Header = orDefault (parser.GetStringAnnotationFromMCI "canary-by-header" mci) "" ∧
      config.HeaderValue =
        orDefault (parser.GetStringAnnotationFromMCI "canary-by-header-value" mci) "" ∧
      config.HeaderPattern =
        orDefault (parser.GetStringAnnotationFromMCI "canary-by-header-pattern" mci) "" ∧
      config.Cookie = orDefault (parser.GetStringAnnotationFromMCI "canary-by-cookie" mci) "") ∧
    (∀ (ε α : Type) (v d : α) (err : ε),
      orDefault (Except.ok v : Except ε α) d = v ∧ orDefault (Except.error err : Except ε α) d = d) ∧
    (¬ (orDefault (parser.GetBoolAnnotation "canary" ing) false = false ∧
        (orDefault (parser.GetIntAnnotation "canary-weight" ing) 0 > 0 ∨
          orDefault (parser.GetStringAnnotation "canary-by-header" ing) "" ≠ "" ∨
          orDefault (parser.GetStringAnnotation "canary-by-header-value" ing) "" ≠ "" ∨
          orDefault (parser.GetStringAnnotation "canary-by-header-pattern" ing) "" ≠ "" ∨
          orDefault (parser.GetStringAnnotation "canary-by-cookie" ing) "" ≠ "")) →
      canary.Parse parser ing = Except.ok
        ⟨orDefault (parser.GetBoolAnnotation "canary" ing) false,
          orDefault (parser.GetIntAnnotation "canary-weight" ing) 0,
          orDefault (parser.GetIntAnnotation "canary-weight-total" ing) 100,
          orDefault (parser.GetStringAnnotation "canary-by-header" ing) "",
          orDefault (parser.GetStringAnnotation "canary-by-header-value" ing) "",
          orDefault (parser.GetStringAnnotation "canary-by-header-pattern" ing) "",
          orDefault (parser.GetStringAnnotation "canary-by-cookie" ing) ""⟩) ∧
    (¬ (orDefault (parser.GetBoolAnnotationFromMCI "canary" mci) false = false ∧
        (orDefault (parser.GetIntAnnotationFromMCI "canary-weight" mci) 0 > 0 ∨
          orDefault (parser.GetStringAnnotationFromMCI "canary-by-header" mci) "" ≠ "" ∨
          orDefault (parser.GetStringAnnotationFromMCI "canary-by-header-value" mci) "" ≠ "" ∨
          orDefault (parser.GetStringAnnotationFromMCI "canary-by-header-pattern" mci) "" ≠ "" ∨
          orDefault (parser.GetStringAnnotationFromMCI "canary-by-cookie" mci) "" ≠ "")) →
      canary.ParseByMCI parser mci = Except.ok
        ⟨orDefault (parser.GetBoolAnnotationFromMCI "canary" mci) false,
          orDefault (parser.GetIntAnnotationFromMCI "canary-weight" mci) 0,
          orDefault (parser.GetIntAnnotationFromMCI "canary-weight-total" mci) 100,
          orDefault (parser.GetStringAnnotationFromMCI "canary-by-header" mci) "",
          orDefault (parser.GetStringAnnotationFromMCI "canary-by-header-value" mci) "",
          orDefault (parser.GetStringAnnotationFromMCI "canary-by-header-pattern" mci) "",
          orDefault (parser.GetStringAnnotationFromMCI "canary-by-cookie" mci) ""⟩) := by
  have hval : ∀ c config : canary.Config, canary.validate c = Except.ok config → config = c := by
    intro c config h
    unfold canary.validate at h
    split_ifs at h
    exact (Except.ok.inj h).symm
  refine ⟨fun config h => ?_, fun config h => ?_, fun _ _ _ _ _ => ⟨rfl, rfl⟩,
    fun hpass => ?_, fun hpass => ?_⟩
  · unfold canary.Parse at h
    rw [hval _ _ h]
    exact ⟨rfl, rfl, rfl, rfl, rfl, rfl, rfl⟩
  · unfold canary.ParseByMCI at h
    rw [hval _ _ h]
    exact ⟨rfl, rfl, rfl, rfl, rfl, rfl, rfl⟩
  · unfold canary.Parse
    exact (canary_validate_error_iff _).2 hpass
  · unfold canary.ParseByMCI
    exact (canary_validate_error_iff _).2 hpass

/-- The example of the specification: canary true and weight 10 give, from `Parse` and from
`ParseByMCI`, an enabled configuration of weight 10 out of a total of 100. -/
theorem canary_fields_witness :
    canary.Parse mapGetters ⟨⟨"default", "web", 0,
        [("nginx.ingress.kubernetes.io/canary", "true"),
          ("nginx.ingress.kubernetes.io/canary-weight", "10")]⟩, ⟨none, [], []⟩⟩ =
      Except.ok ⟨true, 10, 100, "", "", "", ""⟩ ∧
    canary.ParseByMCI mapGetters ⟨⟨"default", "web", 0,
        [("nginx.ingress.kubernetes.io/canary", "true"),
          ("nginx.ingress.kubernetes.io/canary-weight", "10")]⟩, ⟨none, [], []⟩⟩ =
      Except.ok ⟨true, 10, 100, "", "", "", ""⟩ ∧
    (⟨true, 10, 100, "", "", "", ""⟩ : canary.Config).WeightTotal =
      orDefault (mapGetters.GetIntAnnotation "canary-weight-total"
        ⟨⟨"default", "web", 0, [("nginx.ingress.kubernetes.io/canary", "true"),
          ("nginx.ingress.kubernetes.io/canary-weight", "10")]⟩, ⟨none, [], []⟩⟩) 100 ∧
    (⟨true, 10, 100, "", "", "", ""⟩ : canary.Config).WeightTotal =
      orDefault (mapGetters.GetIntAnnotationFromMCI "canary-weight-total"
        ⟨⟨"default", "web", 0, [("nginx.ingress.kubernetes.io/canary", "true"),
          ("nginx.ingress.kubernetes.io/canary-weight", "10")]⟩, ⟨none, [], []⟩⟩) 100 :=
  ⟨((canary_fields mapGetters
      ⟨⟨"default", "web", 0, [("nginx.ingress.kubernetes.io/canary", "true"),
        ("nginx.ingress.kubernetes.io/canary-weight", "10")]⟩, ⟨none, [], []⟩⟩
      ⟨⟨"", "", 0, []⟩, ⟨none, [], []⟩⟩).2.2.2.1 (by decide)).trans (by decide),
    ((canary_fields mapGetters ⟨⟨"", "", 0, []⟩, ⟨none, [], []⟩⟩
      ⟨⟨"default", "web", 0, [("nginx.ingress.kubernetes.io/canary", "true"),
        ("nginx.ingress.kubernetes.io/canary-weight", "10")]⟩, ⟨none, [], []⟩⟩).2.2.2.2
      (by decide)).trans (by decide),
    ((canary_fields mapGetters
      ⟨⟨"default", "web", 0, [("nginx.ingress.kubernetes.io/canary", "true"),
        ("nginx.ingress.kubernetes.io/canary-weight", "10")]⟩, ⟨none, [], []⟩⟩
      ⟨⟨"", "", 0, []⟩, ⟨none, [], []⟩⟩).1
      ⟨true, 10, 100, "", "", "", ""⟩ (by decide)).2.2.1,
    ((canary_fields mapGetters ⟨⟨"", "", 0, []⟩, ⟨none, [], []⟩⟩
      ⟨⟨"default", "web", 0, [("nginx.ingress.kubernetes.io/canary", "true"),
        ("nginx.ingress.kubernetes.io/canary-weight", "10")]⟩, ⟨none, [], []⟩⟩).2.1
      ⟨true, 10, 100, "", "", "", ""⟩ (by decide)).2.2.1⟩


/-! ## The secret-reference index -/

theorem mem_foldl_insert (ref set : List String) (x : String) :
    x ∈ ref.foldl (fun set r => if r ∈ set then set else set ++ [r]) set ↔ x ∈ set ∨ x ∈ ref := by
  induction ref generalizing set with
  | nil => simp
  | cons r rest ih =>
    rw [List.foldl_cons, ih]
    by_cases h : r ∈ set
    · rw [if_pos h, List.mem_cons]
      constructor
      · rintro (h1 | h1)
        · exact Or.inl h1
        · exact Or.inr (Or.inr h1)
      · rintro (h1 | h1 | h1)
        · exact Or.inl h1
        · exact Or.inl (h1 ▸ h)
        · exact Or.inr h1
    · rw [if_neg h, List.mem_append, List.mem_singleton, List.mem_cons]
      tauto

/-- C11: after `updateSecretMCIMap` the secret keys recorded for the key of the resource are
exactly the keys collected from its TLS entries and secret annotations, whatever was
recorded before; a secret that is not collected is not recorded, and the sets of the other
resources are as before. -/
theorem updateSecretMCIMap_replaces {P : Type} (parser : AnnotationGetters) (s s2 : k8sStore P)
    (mci : karmadanetwork.MultiClusterIngress) :
    (∀ secret, secret ∈ (updateSecretMCIMap parser s mci).secretMCIMap.ReferencedBy
          (MetaNamespaceKey mci.ObjectMeta.Namespace mci.ObjectMeta.Name) ↔
        secret ∈ refSecrets parser mci) ∧
    (updateSecretMCIMap parser s mci).secretMCIMap.ReferencedBy
        (MetaNamespaceKey mci.ObjectMeta.Namespace mci.ObjectMeta.Name) =
      (updateSecretMCIMap parser s2 mci).secretMCIMap.ReferencedBy
        (MetaNamespaceKey mci.ObjectMeta.Namespace mci.ObjectMeta.Name) ∧
    (∀ secret, secret ∈ s.secretMCIMap.ReferencedBy
          (MetaNamespaceKey mci.ObjectMeta.Namespace mci.ObjectMeta.Name) →
        secret ∉ refSecrets parser mci →
        secret ∉ (updateSecretMCIMap parser s mci).secretMCIMap.ReferencedBy
          (MetaNamespaceKey mci.ObjectMeta.Namespace mci.ObjectMeta.Name)) ∧
    (∀ other, other ≠ MetaNamespaceKey mci.ObjectMeta.Namespace mci.ObjectMeta.Name →
      (updateSecretMCIMap parser s mci).secretMCIMap.ReferencedBy other =
        s.secretMCIMap.ReferencedBy other) := by
  have hmem : ∀ (t : k8sStore P) (secret : String),
      secret ∈ (updateSecretMCIMap parser t mci).secretMCIMap.ReferencedBy
          (MetaNamespaceKey mci.ObjectMeta.Namespace mci.ObjectMeta.Name) ↔
        secret ∈ refSecrets parser mci := by
    intro t secret
    simp only [updateSecretMCIMap, ObjectRefMap.ReferencedBy, ObjectRefMap.Insert,
      ObjectRefMap.Delete, if_true]
    rw [mem_foldl_insert]
    simp
  refine ⟨hmem s, ?_, fun secret _ hno hin => hno ((hmem s secret).mp hin), ?_⟩
  · simp only [updateSecretMCIMap, ObjectRefMap.ReferencedBy, ObjectRefMap.Insert,
      ObjectRefMap.Delete, if_true]
  · intro other hne
    simp only [updateSecretMCIMap, ObjectRefMap.ReferencedBy, ObjectRefMap.Insert,
      ObjectRefMap.Delete, if_neg hne]

/-- A resource that referenced the secrets "default/old-tls" and "default/basic" and now has
one TLS entry with the secret "new-tls" and no secret annotation. -/
theorem updateSecretMCIMap_replaces_witness :
    ("default/old-tls" ∈ (⟨"", ([] : List (String × ingress.MultiClusterIngress Unit)),
        ⟨fun key => if key = "default/web" then ["default/old-tls", "default/basic"]
          else []⟩⟩ : k8sStore Unit).secretMCIMap.ReferencedBy
        (MetaNamespaceKey "default" "web") ∧
      "default/old-tls" ∉ refSecrets mapGetters
        ⟨⟨"default", "web", 0, []⟩, ⟨none, [⟨["example.com"], "new-tls"⟩], []⟩⟩) ∧
    (updateSecretMCIMap mapGetters
      (⟨"", ([] : List (String × ingress.MultiClusterIngress Unit)),
        ⟨fun key => if key = "default/web" then ["default/old-tls", "default/basic"]
          else []⟩⟩ : k8sStore Unit)
      ⟨⟨"default", "web", 0, []⟩, ⟨none, [⟨["example.com"], "new-tls"⟩], []⟩⟩).secretMCIMap.ReferencedBy
        "default/web" = ["default/new-tls"] ∧
    "default/old-tls" ∉ (updateSecretMCIMap mapGetters
      (⟨"", ([] : List (String × ingress.MultiClusterIngress Unit)),
        ⟨fun key => if key = "default/web" then ["default/old-tls", "default/basic"]
          else []⟩⟩ : k8sStore Unit)
      ⟨⟨"default", "web", 0, []⟩, ⟨none, [⟨["example.com"], "new-tls"⟩], []⟩⟩).secretMCIMap.ReferencedBy
        (MetaNamespaceKey "default" "web") :=
  ⟨⟨by decide, by decide⟩, by decide,
    (updateSecretMCIMap_replaces mapGetters
      (⟨"", ([] : List (String × ingress.MultiClusterIngress Unit)),
        ⟨fun key => if key = "default/web" then ["default/old-tls", "default/basic"]
          else []⟩⟩ : k8sStore Unit)
      (⟨"", [], ⟨fun _ => []⟩⟩ : k8sStore Unit)
      ⟨⟨"default", "web", 0, []⟩, ⟨none, [⟨["example.com"], "new-tls"⟩], []⟩⟩).2.2.1
      "default/old-tls" (by decide) (by decide)⟩

/-! ## The synchronizer -/

theorem cacheGetByKey_cacheUpdate {α : Type} (items : List (String × α)) (key : String)
    (obj : α) : cacheGetByKey (cacheUpdate items key obj) key = some obj := by
  induction items with
  | nil => simp [cacheUpdate, cacheGetByKey]
  | cons kv rest ih =>
    obtain ⟨k, v⟩ := kv
    unfold cacheUpdate
    by_cases h : k = key
    · simp [h, cacheGetByKey]
    · simp [h, cacheGetByKey, ih]

theorem cacheGetByKey_cacheUpdate_ne {α : Type} (items : List (String × α)) (key other : String)
    (obj : α) (hne : other ≠ key) :
    cacheGetByKey (cacheUpdate items key obj) other = cacheGetByKey items other := by
  have hne2 : ¬ key = other := fun e => hne e.symm
  induction items with
  | nil => simp [cacheUpdate, cacheGetByKey, hne2]
  | cons kv rest ih =>
    obtain ⟨k, v⟩ := kv
    unfold cacheUpdate
    by_cases h : k = key
    · simp [h, cacheGetByKey, hne2]
    · simp only [if_neg h, cacheGetByKey, ih]

/-- The object that the synchronizer hands to the cache: the metadata of the resource, its
spec with empty paths and open path types replaced. -/
theorem syncMultiClusterIngress_commit {P : Type} (f : StoreFunctions P) (s : k8sStore P)
    (mci : karmadanetwork.MultiClusterIngress)
    (hGate : ¬ (s.AnnotationValueWordBlocklist ≠ "" ∧
      (f.checkBadAnnotationValue mci.ObjectMeta.Annotations
        s.AnnotationValueWordBlocklist).isSome = true)) :
    cacheGetByKey (k8sStore.MultiClusterIngressWithAnnotation (syncMultiClusterIngress f s mci))
        (MetaNamespaceKey mci.ObjectMeta.Namespace mci.ObjectMeta.Name) =
      some ⟨SetDefaultNGINXPathType ⟨mci.ObjectMeta,
        ⟨mci.Spec.IngressClassName, mci.Spec.TLS, defaultEmptyPaths mci.Spec.Rules⟩⟩,
        f.ExtractFromMCI mci⟩ := by
  unfold syncMultiClusterIngress
  simp only [if_neg hGate]
  exact cacheGetByKey_cacheUpdate _ _ _

theorem setDefaultPathType_spec (p : HTTPIngressPath) :
    (setDefaultPathType p).Path = p.Path ∧
    (setDefaultPathType p).PathType =
      (if p.PathType = none ∨ p.PathType = some PathTypeImplementationSpecific then
        some PathTypePrefix else p.PathType) := by
  unfold setDefaultPathType
  cases hp : p.PathType with
  | none => simp [defaultPathType, PathTypePrefix, PathTypeImplementationSpecific]
  | some t =>
    by_cases ht : t = PathTypeImplementationSpecific
    · simp [ht, defaultPathType]
    · simp [ht]

/-- The path entries of the committed rules: in each rule with an HTTP value, the entries of
the incoming rule with the empty path replaced by "/" and the absent or
ImplementationSpecific path type replaced by Prefix. -/
theorem committed_rules (mci : karmadanetwork.MultiClusterIngress) :
    (SetDefaultNGINXPathType ⟨mci.ObjectMeta,
      ⟨mci.Spec.IngressClassName, mci.Spec.TLS, defaultEmptyPaths mci.Spec.Rules⟩⟩).Spec.Rules =
      mci.Spec.Rules.map (fun rule =>
        match rule.HTTP with
        | none => rule
        | some http => ⟨rule.Host, some ⟨http.Paths.map (fun p =>
            ⟨if p.Path = "" then "/" else p.Path,
              if p.PathType = none ∨ p.PathType = some PathTypeImplementationSpecific then
                some PathTypePrefix else p.PathType⟩)⟩⟩) := by
  simp only [SetDefaultNGINXPathType, defaultEmptyPaths, List.map_map]
  apply List.map_congr_left
  intro rule _
  cases hr : rule.HTTP with
  | none => simp [hr]
  | some http =>
    simp only [Function.comp, hr, List.map_map]
    congr 3
    apply List.map_congr_left
    intro p _
    have h := setDefaultPathType_spec (if p.Path = "" then ⟨"/", p.PathType⟩ else p)
    by_cases hp : p.Path = ""
    · simp only [Function.comp_apply, hp, if_true] at h ⊢
      cases hq : setDefaultPathType ⟨"/", p.PathType⟩ with
      | mk a b =>
        rw [hq] at h
        simp only at h
        rw [h.1, h.2]
    · simp only [Function.comp_apply, hp, if_false] at h ⊢
      cases hq : setDefaultPathType p with
      | mk a b =>
        rw [hq] at h
        simp only at h
        rw [h.1, h.2]

/-- C12: for a resource that passes the denylist gate, the object that
`syncMultiClusterIngress` commits under the key of the resource has, in every path entry of
every HTTP rule, a path that is not empty and a path type that is present and is not
ImplementationSpecific; its rules are those of the resource with an empty path replaced by
"/" and an absent or ImplementationSpecific path type replaced by Prefix. -/
theorem syncMultiClusterIngress_paths {P : Type} (f : StoreFunctions P) (s : k8sStore P)
    (mci : karmadanetwork.MultiClusterIngress)
    (hGate : ¬ (s.AnnotationValueWordBlocklist ≠ "" ∧
      (f.checkBadAnnotationValue mci.ObjectMeta.Annotations
        s.AnnotationValueWordBlocklist).isSome = true)) :
    ∃ committed, cacheGetByKey (k8sStore.MultiClusterIngressWithAnnotation
        (syncMultiClusterIngress f s mci))
        (MetaNamespaceKey mci.ObjectMeta.Namespace mci.ObjectMeta.Name) = some committed ∧
      (∀ rule ∈ committed.MultiClusterIngress.Spec.Rules, ∀ http, rule.HTTP = some http →
        ∀ p ∈ http.Paths, p.Path ≠ "" ∧
          ∃ t, p.PathType = some t ∧ t ≠ PathTypeImplementationSpecific) ∧
      committed.MultiClusterIngress.Spec.Rules =
        mci.Spec.Rules.map (fun rule =>
          match rule.HTTP with
          | none => rule
          | some http => ⟨rule.Host, some ⟨http.Paths.map (fun p =>
              ⟨if p.Path = "" then "/" else p.Path,
                if p.PathType = none ∨ p.PathType = some PathTypeImplementationSpecific then
                  some PathTypePrefix else p.PathType⟩)⟩⟩) := by
  refine ⟨_, syncMultiClusterIngress_commit f s mci hGate, ?_, committed_rules mci⟩
  simp only [committed_rules mci]
  intro rule hrule http hhttp p hp
  obtain ⟨rule0, _, hrule0⟩ := List.mem_map.mp hrule
  cases h0 : rule0.HTTP with
  | none =>
    simp only [h0] at hrule0
    rw [← hrule0, h0] at hhttp
    cases hhttp
  | some http0 =>
    simp only [h0] at hrule0
    rw [← hrule0] at hhttp
    simp only [Option.some.injEq] at hhttp
    rw [← hhttp] at hp
    obtain ⟨p0, _, hp0⟩ := List.mem_map.mp hp
    rw [← hp0]
    constructor
    · simp only
      by_cases hpath : p0.Path = ""
      · simp [hpath]
      · simp [hpath]
    · simp only
      cases hpt : p0.PathType with
      | none => exact ⟨PathTypePrefix, by simp, by decide⟩
      | some t =>
        by_cases ht : t = PathTypeImplementationSpecific
        · exact ⟨PathTypePrefix, by simp [ht], by decide⟩
        · exact ⟨t, by simp [ht], ht⟩

/-- A resource with an empty path without type, a path of type ImplementationSpecific and a
path of type Exact, synchronized into an empty store without denylist. -/
theorem syncMultiClusterIngress_paths_witness :
    (cacheGetByKey (k8sStore.MultiClusterIngressWithAnnotation (syncMultiClusterIngress
        (⟨fun _ _ => none, fun _ => ()⟩ : StoreFunctions Unit) ⟨"", [], ⟨fun _ => []⟩⟩
        ⟨⟨"default", "web", 0, []⟩, ⟨none, [],
          [⟨"example.com", some ⟨[⟨"", none⟩, ⟨"/a", some "ImplementationSpecific"⟩,
            ⟨"/b", some "Exact"⟩]⟩⟩, ⟨"example.org", none⟩]⟩⟩))
        "default/web").map (fun committed => committed.MultiClusterIngress.Spec.Rules) =
      some [⟨"example.com", some ⟨[⟨"/", some "Prefix"⟩, ⟨"/a", some "Prefix"⟩,
        ⟨"/b", some "Exact"⟩]⟩⟩, ⟨"example.org", none⟩] :=
  match syncMultiClusterIngress_paths
    (⟨fun _ _ => none, fun _ => ()⟩ : StoreFunctions Unit) ⟨"", [], ⟨fun _ => []⟩⟩
    ⟨⟨"default", "web", 0, []⟩, ⟨none, [],
      [⟨"example.com", some ⟨[⟨"", none⟩, ⟨"/a", some "ImplementationSpecific"⟩,
        ⟨"/b", some "Exact"⟩]⟩⟩, ⟨"example.org", none⟩]⟩⟩ (by decide) with
  | ⟨_, hget, _, hrules⟩ => by
    rw [show MetaNamespaceKey "default" "web" = "default/web" by decide] at hget
    rw [hget, Option.map_some', hrules]
    decide

/-- C13: when the configured denylist is not empty and the check reports a denylisted word
in an annotation value, `syncMultiClusterIngress` leaves the cache of annotated resources as
it was: no entry is added or replaced, and the entry of the key, if any, is the previous
one. -/
theorem syncMultiClusterIngress_denylisted {P : Type} (f : StoreFunctions P) (s : k8sStore P)
    (mci : karmadanetwork.MultiClusterIngress) (err : String)
    (hList : s.AnnotationValueWordBlocklist ≠ "")
    (hBad : f.checkBadAnnotationValue mci.ObjectMeta.Annotations
      s.AnnotationValueWordBlocklist = some err) :
    (k8sStore.MultiClusterIngressWithAnnotation (syncMultiClusterIngress f s mci)) =
      s.MultiClusterIngressWithAnnotation ∧
    (∀ key, cacheGetByKey (k8sStore.MultiClusterIngressWithAnnotation
        (syncMultiClusterIngress f s mci)) key =
      cacheGetByKey s.MultiClusterIngressWithAnnotation key) ∧
    (syncMultiClusterIngress f s mci).secretMCIMap.refs = s.secretMCIMap.refs := by
  have h : syncMultiClusterIngress f s mci = s := by
    unfold syncMultiClusterIngress
    simp only
    rw [if_pos ⟨hList, by rw [hBad]; rfl⟩]
  rw [h]
  exact ⟨rfl, fun _ => rfl, rfl⟩

/-- A resource whose snippet annotation holds the denylisted word "load_module": the entry
that the cache holds for its key stays. -/
theorem syncMultiClusterIngress_denylisted_witness :
    checkBadAnnotationValueBySpec
      [("nginx.ingress.kubernetes.io/configuration-snippet", "load_module /tmp/x.so;")]
      "load_module,lua_package" =
      some "nginx.ingress.kubernetes.io/configuration-snippet annotation contains invalid word" ∧
    (k8sStore.MultiClusterIngressWithAnnotation
        (syncMultiClusterIngress (⟨checkBadAnnotationValueBySpec, fun _ => ()⟩ : StoreFunctions Unit)
      ⟨"load_module,lua_package",
        [("default/web", ⟨⟨⟨"default", "web", 0, []⟩, ⟨none, [], []⟩⟩, ()⟩)], ⟨fun _ => []⟩⟩
      ⟨⟨"default", "web", 0,
        [("nginx.ingress.kubernetes.io/configuration-snippet", "load_module /tmp/x.so;")]⟩,
        ⟨none, [], [⟨"example.com", some ⟨[⟨"", none⟩]⟩⟩]⟩⟩)) =
      [("default/web", ⟨⟨⟨"default", "web", 0, []⟩, ⟨none, [], []⟩⟩, ()⟩)] :=
  ⟨by decide,
    (syncMultiClusterIngress_denylisted
      (⟨checkBadAnnotationValueBySpec, fun _ => ()⟩ : StoreFunctions Unit)
      ⟨"load_module,lua_package",
        [("default/web", ⟨⟨⟨"default", "web", 0, []⟩, ⟨none, [], []⟩⟩, ()⟩)], ⟨fun _ => []⟩⟩
      ⟨⟨"default", "web", 0,
        [("nginx.ingress.kubernetes.io/configuration-snippet", "load_module /tmp/x.so;")]⟩,
        ⟨none, [], [⟨"example.com", some ⟨[⟨"", none⟩]⟩⟩]⟩⟩
      "nginx.ingress.kubernetes.io/configuration-snippet annotation contains invalid word"
      (by decide) (by decide)).1⟩

/-- C14 as stated fails: a resource with a canary weight of 10 and no canary annotation
violates the cross-field validation, and `syncMultiClusterIngress` still commits it to a
cache that had no entry for its key; the parsed annotations of the entry are what the
extractor returns, here the failed result of the canary parser. -/
theorem syncMultiClusterIngress_commits_invalid_canary :
    canary.ParseByMCI mapGetters ⟨⟨"default", "web", 0,
        [("nginx.ingress.kubernetes.io/canary-weight", "10")]⟩, ⟨none, [], []⟩⟩ =
      Except.error (NewInvalidAnnotationConfiguration "canary" "configured but not enabled") ∧
    cacheGetByKey ([] : List (String × ingress.MultiClusterIngress
      (Except AnnotationError canary.Config))) "default/web" = none ∧
    cacheGetByKey (k8sStore.MultiClusterIngressWithAnnotation (syncMultiClusterIngress
        (⟨checkBadAnnotationValueBySpec, canary.ParseByMCI mapGetters⟩ :
          StoreFunctions (Except AnnotationError canary.Config))
        ⟨"", [], ⟨fun _ => []⟩⟩
        ⟨⟨"default", "web", 0, [("nginx.ingress.kubernetes.io/canary-weight", "10")]⟩,
          ⟨none, [], []⟩⟩)) "default/web" =
      some ⟨⟨⟨"default", "web", 0, [("nginx.ingress.kubernetes.io/canary-weight", "10")]⟩,
        ⟨none, [], []⟩⟩,
        Except.error (NewInvalidAnnotationConfiguration "canary" "configured but not enabled")⟩ := by
  refine ⟨by decide, by decide, by decide⟩

/-- C14, amended: when the canary cross-field validation is violated for a resource, the
canary parser returns the error "configured but not enabled", and `syncMultiClusterIngress`
does not fail on it: if the denylist gate passes, the normalized object is committed under
the key of the resource with the parsed annotations that the extractor returns. -/
theorem syncMultiClusterIngress_canary_committed {P : Type} (parser : AnnotationGetters)
    (f : StoreFunctions P) (s : k8sStore P) (mci : karmadanetwork.MultiClusterIngress)
    (hViolated : orDefault (parser.GetBoolAnnotationFromMCI "canary" mci) false = false ∧
      (orDefault (parser.GetIntAnnotationFromMCI "canary-weight" mci) 0 > 0 ∨
        orDefault (parser.GetStringAnnotationFromMCI "canary-by-header" mci) "" ≠ "" ∨
        orDefault (parser.GetStringAnnotationFromMCI "canary-by-header-value" mci) "" ≠ "" ∨
        orDefault (parser.GetStringAnnotationFromMCI "canary-by-header-pattern" mci) "" ≠ "" ∨
        orDefault (parser.GetStringAnnotationFromMCI "canary-by-cookie" mci) "" ≠ ""))
    (hGate : ¬ (s.AnnotationValueWordBlocklist ≠ "" ∧
      (f.checkBadAnnotationValue mci.ObjectMeta.Annotations
        s.AnnotationValueWordBlocklist).isSome = true)) :
    canary.ParseByMCI parser mci =
      Except.error (NewInvalidAnnotationConfiguration "canary" "configured but not enabled") ∧
    cacheGetByKey (k8sStore.MultiClusterIngressWithAnnotation (syncMultiClusterIngress f s mci))
        (MetaNamespaceKey mci.ObjectMeta.Namespace mci.ObjectMeta.Name) =
      some ⟨SetDefaultNGINXPathType ⟨mci.ObjectMeta,
        ⟨mci.Spec.IngressClassName, mci.Spec.TLS, defaultEmptyPaths mci.Spec.Rules⟩⟩,
        f.ExtractFromMCI mci⟩ := by
  refine ⟨?_, syncMultiClusterIngress_commit f s mci hGate⟩
  unfold canary.ParseByMCI
  exact (canary_validate_error_iff _).1.mpr hViolated

/-- A weight of 10 without the canary annotation, synchronized into a store that holds an
older entry of the resource: the entry is replaced. -/
theorem syncMultiClusterIngress_canary_committed_witness :
    cacheGetByKey (k8sStore.MultiClusterIngressWithAnnotation (syncMultiClusterIngress
        (⟨checkBadAnnotationValueBySpec, fun _ => ()⟩ : StoreFunctions Unit)
        ⟨"load_module", [("default/web", ⟨⟨⟨"default", "web", 0, []⟩, ⟨none, [], []⟩⟩, ()⟩)],
          ⟨fun _ => []⟩⟩
        ⟨⟨"default", "web", 0, [("nginx.ingress.kubernetes.io/canary-weight", "10")]⟩,
          ⟨none, [], []⟩⟩))
        (MetaNamespaceKey "default" "web") =
      some ⟨SetDefaultNGINXPathType ⟨⟨"default", "web", 0,
        [("nginx.ingress.kubernetes.io/canary-weight", "10")]⟩,
        ⟨none, [], defaultEmptyPaths []⟩⟩, ()⟩ :=
  (syncMultiClusterIngress_canary_committed mapGetters
    (⟨checkBadAnnotationValueBySpec, fun _ => ()⟩ : StoreFunctions Unit)
    ⟨"load_module", [("default/web", ⟨⟨⟨"default", "web", 0, []⟩, ⟨none, [], []⟩⟩, ()⟩)],
      ⟨fun _ => []⟩⟩
    ⟨⟨"default", "web", 0, [("nginx.ingress.kubernetes.io/canary-weight", "10")]⟩,
      ⟨none, [], []⟩⟩
    ⟨by decide, Or.inl (by decide)⟩ (by decide)).2

/-! ## Class admission -/

/-- C15 as stated fails: with a configuration that ignores the ingress class and watches
resources without class, a resource that names a class that the lister does not resolve is
admitted under the wildcard. -/
theorem GetIngressClassByMCI_ignored_class_admitted :
    (fun _ => Except.error "ingress class not found" : String → Except String IngressClass)
      "missing-class" = Except.error "ingress class not found" ∧
    GetIngressClassByMCI (fun _ => Except.error "ingress class not found")
      ⟨⟨"default", "web", 0, []⟩, ⟨some "missing-class", [], []⟩⟩ ⟨"nginx", true, true⟩ =
      Except.ok "_" := by
  refine ⟨rfl, by decide⟩

/-- C15, amended: for a resource whose spec names an ingress class and a configuration that
does not ignore the ingress class, `GetIngressClassByMCI` admits the resource exactly when
the lister resolves the name, the class returned is the name of the resolved object, and a
failed lookup returns the error of the lookup.  When the configuration ignores the ingress
class, the name is not looked up and the result is that of the resource without class
name. -/
theorem GetIngressClassByMCI_named_class
    (IngressClassByKey : String → Except String IngressClass)
    (mci : karmadanetwork.MultiClusterIngress) (icConfig : IngressClassConfiguration)
    (name : String) (hName : mci.Spec.IngressClassName = some name) :
    (icConfig.IgnoreIngressClass = false →
      (∀ ingressClass, IngressClassByKey name = Except.ok ingressClass →
        GetIngressClassByMCI IngressClassByKey mci icConfig = Except.ok ingressClass.Name) ∧
      (∀ err, IngressClassByKey name = Except.error err →
        GetIngressClassByMCI IngressClassByKey mci icConfig = Except.error err) ∧
      ((∃ cls, GetIngressClassByMCI IngressClassByKey mci icConfig = Except.ok cls) ↔
        ∃ ingressClass, IngressClassByKey name = Except.ok ingressClass)) ∧
    (icConfig.IgnoreIngressClass = true →
      GetIngressClassByMCI IngressClassByKey mci icConfig =
        GetIngressClassByMCI IngressClassByKey
          ⟨mci.ObjectMeta, ⟨none, mci.Spec.TLS, mci.Spec.Rules⟩⟩ icConfig) := by
  constructor
  · intro hIgnore
    have h : GetIngressClassByMCI IngressClassByKey mci icConfig =
        match IngressClassByKey name with
        | Except.error err => Except.error err
        | Except.ok ingressClass => Except.ok ingressClass.Name := by
      unfold GetIngressClassByMCI
      rw [hIgnore, hName]
    refine ⟨fun ic hic => by rw [h, hic], fun err herr => by rw [h, herr], ?_⟩
    rw [h]
    cases IngressClassByKey name with
    | error err => simp
    | ok ic => simp
  · intro hIgnore
    unfold GetIngressClassByMCI
    rw [hIgnore, hName]

/-- A class "nginx" that the lister resolves, and a class that it does not. -/
theorem GetIngressClassByMCI_named_class_witness :
    GetIngressClassByMCI
      (fun name => if name = "nginx" then Except.ok ⟨"nginx"⟩ else Except.error "not found")
      ⟨⟨"default", "web", 0, []⟩, ⟨some "nginx", [], []⟩⟩ ⟨"nginx", false, false⟩ =
      Except.ok "nginx" ∧
    GetIngressClassByMCI
      (fun name => if name = "nginx" then Except.ok ⟨"nginx"⟩ else Except.error "not found")
      ⟨⟨"default", "web", 0, []⟩, ⟨some "other", [], []⟩⟩ ⟨"nginx", true, false⟩ =
      Except.error "not found" :=
  ⟨((GetIngressClassByMCI_named_class
      (fun name => if name = "nginx" then Except.ok ⟨"nginx"⟩ else Except.error "not found")
      ⟨⟨"default", "web", 0, []⟩, ⟨some "nginx", [], []⟩⟩ ⟨"nginx", false, false⟩ "nginx"
      rfl).1 rfl).1 ⟨"nginx"⟩ (by decide),
    ((GetIngressClassByMCI_named_class
      (fun name => if name = "nginx" then Except.ok ⟨"nginx"⟩ else Except.error "not found")
      ⟨⟨"default", "web", 0, []⟩, ⟨some "other", [], []⟩⟩ ⟨"nginx", true, false⟩ "other"
      rfl).1 rfl).2.1 "not found" (by decide)⟩

/-- C16: for a resource that names no ingress class, `GetIngressClassByMCI` looks at the
ingress-class annotation.  With the annotation it succeeds exactly when the value is the
configured one, and returns it, whatever the "watch without class" mode; without the
annotation it succeeds exactly when the controller watches resources without class, and
returns "_"; in every other case it returns an error. -/
theorem GetIngressClassByMCI_no_class
    (IngressClassByKey : String → Except String IngressClass)
    (mci : karmadanetwork.MultiClusterIngress) (icConfig : IngressClassConfiguration)
    (hName : mci.Spec.IngressClassName = none) :
    (∀ value, mci.ObjectMeta.Annotations.lookup IngressKey = some value →
      (value = icConfig.AnnotationValue →
        GetIngressClassByMCI IngressClassByKey mci icConfig = Except.ok value) ∧
      (value ≠ icConfig.AnnotationValue →
        ∃ err, GetIngressClassByMCI IngressClassByKey mci icConfig = Except.error err)) ∧
    (mci.ObjectMeta.Annotations.lookup IngressKey = none →
      (icConfig.WatchWithoutClass = true →
        GetIngressClassByMCI IngressClassByKey mci icConfig = Except.ok "_") ∧
      (icConfig.WatchWithoutClass = false →
        ∃ err, GetIngressClassByMCI IngressClassByKey mci icConfig = Except.error err)) := by
  have h : GetIngressClassByMCI IngressClassByKey mci icConfig =
      match mci.ObjectMeta.Annotations.lookup IngressKey with
      | some ingressClass =>
        if ingressClass ≠ icConfig.AnnotationValue then
          Except.error
            "ingress class annotation is not equal to the expected by Ingress Controller"
        else Except.ok ingressClass
      | none =>
        if icConfig.WatchWithoutClass = true then Except.ok "_"
        else Except.error "ingress does not contain a valid IngressClass" := by
    unfold GetIngressClassByMCI
    rw [hName]
    cases icConfig.IgnoreIngressClass <;> rfl
  constructor
  · intro value hv
    rw [h, hv]
    exact ⟨fun he => by simp [he], fun hne => ⟨_, by simp only; rw [if_pos hne]⟩⟩
  · intro hv
    rw [h, hv]
    exact ⟨fun hw => by simp [hw],
      fun hw => ⟨_, by simp only; rw [if_neg (by rw [hw]; decide)]⟩⟩

/-- The annotation with the configured value, with another value under "watch without
class", and no annotation with and without "watch without class". -/
theorem GetIngressClassByMCI_no_class_witness :
    GetIngressClassByMCI (fun _ => Except.error "not found")
      ⟨⟨"default", "web", 0, [("kubernetes.io/ingress.class", "nginx")]⟩, ⟨none, [], []⟩⟩
      ⟨"nginx", false, false⟩ = Except.ok "nginx" ∧
    (∃ err, GetIngressClassByMCI (fun _ => Except.error "not found")
      ⟨⟨"default", "web", 0, [("kubernetes.io/ingress.class", "traefik")]⟩, ⟨none, [], []⟩⟩
      ⟨"nginx", true, false⟩ = Except.error err) ∧
    GetIngressClassByMCI (fun _ => Except.error "not found")
      ⟨⟨"default", "web", 0, []⟩, ⟨none, [], []⟩⟩ ⟨"nginx", true, false⟩ = Except.ok "_" ∧
    (∃ err, GetIngressClassByMCI (fun _ => Except.error "not found")
      ⟨⟨"default", "web", 0, []⟩, ⟨none, [], []⟩⟩ ⟨"nginx", false, false⟩ =
      Except.error err) :=
  ⟨((GetIngressClassByMCI_no_class (fun _ => Except.error "not found")
      ⟨⟨"default", "web", 0, [("kubernetes.io/ingress.class", "nginx")]⟩, ⟨none, [], []⟩⟩
      ⟨"nginx", false, false⟩ rfl).1 "nginx" (by decide)).1 rfl,
    ((GetIngressClassByMCI_no_class (fun _ => Except.error "not found")
      ⟨⟨"default", "web", 0, [("kubernetes.io/ingress.class", "traefik")]⟩, ⟨none, [], []⟩⟩
      ⟨"nginx", true, false⟩ rfl).1 "traefik" (by decide)).2 (by decide),
    ((GetIngressClassByMCI_no_class (fun _ => Except.error "not found")
      ⟨⟨"default", "web", 0, []⟩, ⟨none, [], []⟩⟩ ⟨"nginx", true, false⟩ rfl).2
      (by decide)).1 rfl,
    ((GetIngressClassByMCI_no_class (fun _ => Except.error "not found")
      ⟨⟨"default", "web", 0, []⟩, ⟨none, [], []⟩⟩ ⟨"nginx", false, false⟩ rfl).2
      (by decide)).2 rfl⟩


/-! ### Positive ports -/

/-- An iteration of the port loop that does not end in `continue` has a positive target
port. -/
theorem selectTargetPort_pos (svcPort : ServicePort) (proto : Protocol) (numPorts index : Nat)
    (epPort : EndpointPort) (found found2 : Bool) (targetPort : Int)
    (h : selectTargetPort svcPort proto numPorts index epPort found =
      some (found2, some targetPort)) : 0 < targetPort := by
  unfold selectTargetPort at h
  cases hpr : epPort.Protocol with
  | none => simp [hpr] at h
  | some pr =>
    simp only [hpr] at h
    by_cases hp : pr ≠ proto
    · simp [hp] at h
    · simp only [hp, if_false] at h
      split at h
      · cases h
      · rename_i f t _
        by_cases hle : (if (index : Int) = (numPorts : Int) - 1 ∧ f = false ∧
            svcPort.TargetPort.Type_ = IntstrType.Int then svcPort.TargetPort.IntVal else t) ≤ 0
        · simp [hle] at h
        · simp only [hle, if_false, Option.some.injEq, Prod.mk.injEq] at h
          rw [← h.2]
          exact not_le.mp hle

theorem fragmentTargetPorts_pos (svcPort : ServicePort) (proto : Protocol) (numPorts : Nat)
    (ports : List EndpointPort) (index : Nat) (found : Bool) (tps : List Int)
    (h : fragmentTargetPorts svcPort proto numPorts index ports found = some tps) :
    ∀ tp ∈ tps, 0 < tp := by
  induction ports generalizing index found tps with
  | nil =>
    simp only [fragmentTargetPorts, Option.some.injEq] at h
    subst h
    simp
  | cons p rest ih =>
    unfold fragmentTargetPorts at h
    cases hsel : selectTargetPort svcPort proto numPorts index p found with
    | none => simp [hsel] at h
    | some r =>
      obtain ⟨found2, tp⟩ := r
      cases tp with
      | none =>
        simp only [hsel] at h
        exact ih _ _ _ h
      | some tp =>
        simp only [hsel] at h
        cases hrest : fragmentTargetPorts svcPort proto numPorts (index + 1) rest found2 with
        | none => simp [hrest] at h
        | some tps2 =>
          simp only [hrest, Option.map_some', Option.some.injEq] at h
          subst h
          intro x hx
          rcases List.mem_cons.mp hx with rfl | hx
          · exact selectTargetPort_pos svcPort proto numPorts index p found found2 x hsel
          · exact ih _ _ _ hrest x hx

/-- Every endpoint that the fragments offer stands under the decimal text of a positive
target port. -/
theorem candidates_port_pos (svcPort : ServicePort) (proto : Protocol)
    (slices : List EndpointSlice) (c : List IngressEndpoint)
    (h : candidates svcPort proto slices = some c) (e : IngressEndpoint) (he : e ∈ c) :
    ∃ n : Int, 0 < n ∧ e.Port = itoa n := by
  induction slices generalizing c with
  | nil =>
    simp only [candidates, Option.some.injEq] at h
    subst h
    simp at he
  | cons s rest ih =>
    obtain ⟨c₁, c₂, h1, h2, rfl⟩ := candidates_cons_some svcPort proto s rest c h
    rcases List.mem_append.mp he with he | he
    · unfold sliceCandidates at h1
      cases hf : fragmentTargetPorts svcPort proto s.Ports.length 0 s.Ports false with
      | none => simp [hf] at h1
      | some tps =>
        simp only [hf, Option.map_some', Option.some.injEq] at h1
        subst h1
        obtain ⟨tp, htp, hmem⟩ := List.mem_flatMap.mp he
        exact ⟨tp, fragmentTargetPorts_pos svcPort proto _ _ _ _ tps hf tp htp,
          mem_portCandidates tp _ e hmem⟩
    · exact ih c₂ h2 he

theorem digitChar_ne_minus (d : Nat) (h : d < 10) : digitChar d ≠ '-' := by
  interval_cases d <;> decide

theorem formatBits_minus (fuel u : Nat) : '-' ∉ formatBits fuel u [] := by
  induction fuel generalizing u with
  | zero => simp [formatBits]
  | succ fuel ih =>
    unfold formatBits
    by_cases h : 10 ≤ u
    · rw [if_pos h, formatBits_acc, List.mem_append, not_or]
      refine ⟨ih _, ?_⟩
      rw [List.mem_singleton]
      exact fun e => digitChar_ne_minus (u % 10) (Nat.mod_lt _ (by decide)) e.symm
    · rw [if_neg h, List.mem_singleton]
      exact fun e => digitChar_ne_minus u (by omega) e.symm

/-- The decimal text of a positive integer is not the decimal text of zero or of a negative
integer. -/
theorem itoa_pos_ne_nonpos (m n : Int) (hm : 0 < m) (hn : n ≤ 0) : itoa m ≠ itoa n := by
  intro h
  by_cases h0 : n < 0
  · have hd := congrArg String.data h
    unfold itoa at hd
    rw [if_neg (by omega), if_pos h0] at hd
    simp only at hd
    have hmem : '-' ∈ formatBits (m.natAbs + 1) m.natAbs [] := by
      rw [hd]
      exact List.mem_cons_self _ _
    exact formatBits_minus _ _ hmem
  · have := itoa_inj m n (le_of_lt hm) (by omega) h
    omega

/-- C21: for a slice-backed service every endpoint that `getEndpointsByEps` returns has as
port the decimal text of an integer greater than 0, and of no integer that is 0 or negative;
an iteration of the port loop whose target port, from the slice or from the fallback, is 0
or negative ends in `continue`.  A list is returned when no port entry holds a nil
pointer. -/
theorem getEndpointsByEps_port_pos (lib : GoLib) (svc : Service) (svcPort : ServicePort)
    (proto : Protocol) (lookup : String → Except String (List EndpointSlice))
    (hType : svc.Spec.Type_ ≠ ServiceTypeExternalName) :
    (∀ r, getEndpointsByEps lib (some svc) (some svcPort) proto lookup = some r →
      ∀ e ∈ r, (∃ n : Int, 0 < n ∧ e.Port = itoa n) ∧ ∀ n : Int, n ≤ 0 → e.Port ≠ itoa n) ∧
    (∀ (numPorts index : Nat) (epPort : EndpointPort) (found found2 : Bool) (targetPort : Int),
      selectTargetPort svcPort proto numPorts index epPort found =
        some (found2, some targetPort) → 0 < targetPort) ∧
    ((∀ key slices, lookup key = Except.ok slices → portsSet slices) →
      ∃ r, getEndpointsByEps lib (some svc) (some svcPort) proto lookup = some r) := by
  refine ⟨?_, fun numPorts index epPort found found2 targetPort h =>
    selectTargetPort_pos svcPort proto numPorts index epPort found found2 targetPort h, ?_⟩
  · intro r hr e he
    have hex : ∃ n : Int, 0 < n ∧ e.Port = itoa n := by
      cases hLookup : lookup (MetaNamespaceKey svc.Namespace svc.Name) with
      | error err =>
        rw [getEndpointsByEps_lookup_error lib svc svcPort proto lookup err hType hLookup] at hr
        cases hr
        simp at he
      | ok slices =>
        rw [getEndpointsByEps_pairs lib svc svcPort proto lookup slices hType hLookup] at hr
        cases hc : candidates svcPort proto slices with
        | none => simp [hc] at hr
        | some c =>
          simp only [hc, Option.map_some', Option.some.injEq] at hr
          subst hr
          exact candidates_port_pos svcPort proto slices c hc e
            (mem_firstOccurrences _ c [] e he).1
    refine ⟨hex, fun n hn hne => ?_⟩
    obtain ⟨m, hm, hme⟩ := hex
    exact itoa_pos_ne_nonpos m n hm hn (hme.symm.trans hne)
  · intro hset
    cases hLookup : lookup (MetaNamespaceKey svc.Namespace svc.Name) with
    | error err =>
      exact ⟨[], getEndpointsByEps_lookup_error lib svc svcPort proto lookup err hType hLookup⟩
    | ok slices =>
      obtain ⟨c, hc⟩ := candidates_isSome svcPort proto slices (hset _ _ hLookup)
      exact ⟨_, by
        rw [getEndpointsByEps_pairs lib svc svcPort proto lookup slices hType hLookup, hc]
        rfl⟩

/-- A fragment with the port entries 0, -1 and 8080 under the requested protocol, and a
ServicePort without name: only port 8080 yields endpoints. -/
theorem getEndpointsByEps_port_pos_witness :
    getEndpointsByEps goLib (some ⟨"default", "web", ⟨"ClusterIP", ""⟩⟩)
      (some ⟨"", ⟨IntstrType.Int, 0, ""⟩⟩) "TCP"
      (fun _ => Except.ok [⟨"default", "web-1", [],
        [⟨some "a", some "TCP", some 0⟩, ⟨some "b", some "TCP", some (-1)⟩,
          ⟨some "c", some "TCP", some 8080⟩], [⟨["10.0.0.1"], none⟩]⟩]) =
      some [⟨"10.0.0.1", "8080", none⟩] ∧
    ((∃ n : Int, 0 < n ∧ (⟨"10.0.0.1", "8080", none⟩ : IngressEndpoint).Port = itoa n) ∧
      ∀ n : Int, n ≤ 0 → (⟨"10.0.0.1", "8080", none⟩ : IngressEndpoint).Port ≠ itoa n) :=
  ⟨by decide,
    (getEndpointsByEps_port_pos goLib ⟨"default", "web", ⟨"ClusterIP", ""⟩⟩
      ⟨"", ⟨IntstrType.Int, 0, ""⟩⟩ "TCP"
      (fun _ => Except.ok [⟨"default", "web-1", [],
        [⟨some "a", some "TCP", some 0⟩, ⟨some "b", some "TCP", some (-1)⟩,
          ⟨some "c", some "TCP", some 8080⟩], [⟨["10.0.0.1"], none⟩]⟩])
      (by decide)).1 [⟨"10.0.0.1", "8080", none⟩] (by decide) _ (List.mem_cons_self _ _)⟩

/-! ## The reference list of a resource -/

theorem foldl_step_filterMap {α β : Type} (g : α → Option β) (step : List β → α → List β)
    (hstep : ∀ acc x, step acc x = acc ++ (g x).toList) (l : List α) (acc : List β) :
    l.foldl step acc = acc ++ l.filterMap g := by
  induction l generalizing acc with
  | nil => simp
  | cons x rest ih =>
    rw [List.foldl_cons, ih, hstep]
    cases hg : g x with
    | none => simp [List.filterMap_cons, hg]
    | some y => simp [List.filterMap_cons, hg]

theorem stringsSplit_of_not_mem (s : String) (sep : Char) (h : sep ∉ s.data) :
    stringsSplit s sep = [s] := by
  unfold stringsSplit
  rw [splitChars_of_not_mem _ _ h]
  rfl

/-- The keys from the TLS entries: one for every entry with a secret name, in order. -/
theorem refSecrets_tls (ns : String) (tls : List IngressTLS) (acc : List String) :
    tls.foldl (fun refs t =>
      if t.SecretName ≠ "" then refs ++ [ns ++ "/" ++ t.SecretName] else refs) acc =
      acc ++ (tls.filter (fun t => decide (t.SecretName ≠ ""))).map
        (fun t => ns ++ "/" ++ t.SecretName) := by
  induction tls generalizing acc with
  | nil => simp
  | cons t rest ih =>
    rw [List.foldl_cons, ih]
    by_cases ht : t.SecretName = ""
    · simp [ht]
    · simp [ht]

/-- The key that a secret annotation adds to the reference list, if any: the key that
`objectRefAnnotationNsKeyFromMCI` returns without error, unless it is empty. -/
theorem refSecrets_annotations (parser : AnnotationGetters)
    (mci : karmadanetwork.MultiClusterIngress) (anns : List String) (acc : List String) :
    anns.foldl (fun refs ann =>
      let r := objectRefAnnotationNsKeyFromMCI parser ann mci
      let secrKey := orDefault r ""
      let failed : Bool :=
        match r with
        | Except.error err => !IsMissingAnnotations err
        | Except.ok _ => false
      if failed = true then refs
      else if secrKey ≠ "" then refs ++ [secrKey]
      else refs) acc =
      acc ++ anns.filterMap (fun ann =>
        match objectRefAnnotationNsKeyFromMCI parser ann mci with
        | Except.ok key => if key = "" then none else some key
        | Except.error _ => none) := by
  apply foldl_step_filterMap
  intro refs ann
  cases hr : objectRefAnnotationNsKeyFromMCI parser ann mci with
  | error err =>
    cases hm : IsMissingAnnotations err <;> simp [orDefault, hm]
  | ok key =>
    by_cases hk : key = ""
    · simp [orDefault, hk]
    · simp [orDefault, hk]

theorem SplitMetaNamespaceKey_two (ns name : String) (hns : '/' ∉ ns.data)
    (hname : '/' ∉ name.data) :
    SplitMetaNamespaceKey (ns ++ "/" ++ name) = Except.ok (ns, name) := by
  unfold SplitMetaNamespaceKey
  rw [stringsSplit_key ns name hns hname]

theorem SplitMetaNamespaceKey_one (name : String) (hname : '/' ∉ name.data) :
    SplitMetaNamespaceKey name = Except.ok ("", name) := by
  unfold SplitMetaNamespaceKey
  rw [stringsSplit_of_not_mem name '/' hname]

theorem SplitMetaNamespaceKey_many (key : String) (h : 2 < (stringsSplit key '/').length) :
    SplitMetaNamespaceKey key = Except.error ("unexpected key format: " ++ key) := by
  unfold SplitMetaNamespaceKey
  match hs : stringsSplit key '/', h with
  | _ :: _ :: _ :: _, _ => rfl

/-- C22: the reference list that `updateSecretMCIMap` builds for a resource in namespace N
and inserts under its key is one key "N/secretName" for every TLS entry with a secret name,
in order, followed by the keys of the annotations auth-secret, auth-tls-secret,
proxy-ssl-secret and secure-verify-ca-secret, in this order.  For an annotation value
"ns/name" with a namespace, `objectRefAnnotationNsKeyFromMCI` returns the value as it is, for
a value without namespace part it returns "N/name"; a missing annotation, a value with an
empty name and a value of more than two segments add no key. -/
theorem refSecrets_list {P : Type} (parser : AnnotationGetters) (s : k8sStore P)
    (mci : karmadanetwork.MultiClusterIngress) :
    ((updateSecretMCIMap parser s mci).secretMCIMap =
      (s.secretMCIMap.Delete
        (MetaNamespaceKey mci.ObjectMeta.Namespace mci.ObjectMeta.Name)).Insert
        (MetaNamespaceKey mci.ObjectMeta.Namespace mci.ObjectMeta.Name)
        (refSecrets parser mci)) ∧
    (refSecrets parser mci =
      (mci.Spec.TLS.filter (fun tls => decide (tls.SecretName ≠ ""))).map
        (fun tls => mci.ObjectMeta.Namespace ++ "/" ++ tls.SecretName) ++
      ["auth-secret", "auth-tls-secret", "proxy-ssl-secret",
        "secure-verify-ca-secret"].filterMap (fun ann =>
          match objectRefAnnotationNsKeyFromMCI parser ann mci with
          | Except.ok key => if key = "" then none else some key
          | Except.error _ => none)) ∧
    (∀ ann secrNs name, '/' ∉ secrNs.data → '/' ∉ name.data → secrNs ≠ "" → name ≠ "" →
      parser.GetStringAnnotationFromMCI ann mci = Except.ok (secrNs ++ "/" ++ name) →
      objectRefAnnotationNsKeyFromMCI parser ann mci = Except.ok (secrNs ++ "/" ++ name)) ∧
    (∀ ann name, '/' ∉ name.data → name ≠ "" →
      (parser.GetStringAnnotationFromMCI ann mci = Except.ok name ∨
        parser.GetStringAnnotationFromMCI ann mci = Except.ok ("" ++ "/" ++ name)) →
      objectRefAnnotationNsKeyFromMCI parser ann mci =
        Except.ok (mci.ObjectMeta.Namespace ++ "/" ++ name)) ∧
    (∀ ann err, parser.GetStringAnnotationFromMCI ann mci = Except.error err →
      objectRefAnnotationNsKeyFromMCI parser ann mci = Except.error err) ∧
    (∀ ann secrNs, '/' ∉ secrNs.data →
      (parser.GetStringAnnotationFromMCI ann mci = Except.ok (secrNs ++ "/" ++ "") ∨
        parser.GetStringAnnotationFromMCI ann mci = Except.ok "") →
      objectRefAnnotationNsKeyFromMCI parser ann mci = Except.ok "") ∧
    (∀ ann value, 2 < (stringsSplit value '/').length →
      parser.GetStringAnnotationFromMCI ann mci = Except.ok value →
      ∃ err, objectRefAnnotationNsKeyFromMCI parser ann mci = Except.error err) := by
  have hempty : '/' ∉ ("" : String).data := by simp
  refine ⟨rfl, ?_, ?_, ?_, ?_, ?_, ?_⟩
  · refine (refSecrets_annotations parser mci secretAnnotations _).trans ?_
    rw [refSecrets_tls, List.nil_append]
    rfl
  · intro ann secrNs name h1 h2 h3 h4 hget
    unfold objectRefAnnotationNsKeyFromMCI
    rw [hget]
    simp only [SplitMetaNamespaceKey_two secrNs name h1 h2, h3, h4, if_false]
  · intro ann name h1 h2 hget
    unfold objectRefAnnotationNsKeyFromMCI
    rcases hget with hget | hget
    · rw [hget]
      simp only [SplitMetaNamespaceKey_one name h1, h2, if_false, if_true]
    · rw [hget]
      simp only [SplitMetaNamespaceKey_two "" name hempty h1, h2, if_false, if_true]
  · intro ann err hget
    unfold objectRefAnnotationNsKeyFromMCI
    rw [hget]
  · intro ann secrNs h1 hget
    unfold objectRefAnnotationNsKeyFromMCI
    rcases hget with hget | hget
    · rw [hget]
      simp only [SplitMetaNamespaceKey_two secrNs "" h1 hempty, if_true]
    · rw [hget]
      simp only [SplitMetaNamespaceKey_one "" hempty, if_true]
  · intro ann value hlen hget
    unfold objectRefAnnotationNsKeyFromMCI
    rw [hget]
    simp only [SplitMetaNamespaceKey_many value hlen]
    exact ⟨_, rfl⟩

/-- A resource in namespace "default" with three TLS entries, one of them without secret
name, the annotation auth-secret with a namespace, auth-tls-secret without one,
proxy-ssl-secret with three segments and no secure-verify-ca-secret. -/
theorem refSecrets_list_witness :
    refSecrets mapGetters ⟨⟨"default", "web", 0,
        [("nginx.ingress.kubernetes.io/auth-secret", "other/basic"),
          ("nginx.ingress.kubernetes.io/auth-tls-secret", "ca"),
          ("nginx.ingress.kubernetes.io/proxy-ssl-secret", "a/b/c")]⟩,
        ⟨none, [⟨[], "tls-1"⟩, ⟨[], ""⟩, ⟨[], "tls-2"⟩], []⟩⟩ =
      ["default/tls-1", "default/tls-2", "other/basic", "default/ca"] ∧
    objectRefAnnotationNsKeyFromMCI mapGetters "auth-secret" ⟨⟨"default", "web", 0,
        [("nginx.ingress.kubernetes.io/auth-secret", "other/basic"),
          ("nginx.ingress.kubernetes.io/auth-tls-secret", "ca"),
          ("nginx.ingress.kubernetes.io/proxy-ssl-secret", "a/b/c")]⟩,
        ⟨none, [⟨[], "tls-1"⟩, ⟨[], ""⟩, ⟨[], "tls-2"⟩], []⟩⟩ = Except.ok "other/basic" ∧
    objectRefAnnotationNsKeyFromMCI mapGetters "auth-tls-secret" ⟨⟨"default", "web", 0,
        [("nginx.ingress.kubernetes.io/auth-secret", "other/basic"),
          ("nginx.ingress.kubernetes.io/auth-tls-secret", "ca"),
          ("nginx.ingress.kubernetes.io/proxy-ssl-secret", "a/b/c")]⟩,
        ⟨none, [⟨[], "tls-1"⟩, ⟨[], ""⟩, ⟨[], "tls-2"⟩], []⟩⟩ = Except.ok "default/ca" ∧
    (∃ err, objectRefAnnotationNsKeyFromMCI mapGetters "proxy-ssl-secret" ⟨⟨"default", "web", 0,
        [("nginx.ingress.kubernetes.io/auth-secret", "other/basic"),
          ("nginx.ingress.kubernetes.io/auth-tls-secret", "ca"),
          ("nginx.ingress.kubernetes.io/proxy-ssl-secret", "a/b/c")]⟩,
        ⟨none, [⟨[], "tls-1"⟩, ⟨[], ""⟩, ⟨[], "tls-2"⟩], []⟩⟩ = Except.error err) ∧
    objectRefAnnotationNsKeyFromMCI mapGetters "secure-verify-ca-secret" ⟨⟨"default", "web", 0,
        [("nginx.ingress.kubernetes.io/auth-secret", "other/basic"),
          ("nginx.ingress.kubernetes.io/auth-tls-secret", "ca"),
          ("nginx.ingress.kubernetes.io/proxy-ssl-secret", "a/b/c")]⟩,
        ⟨none, [⟨[], "tls-1"⟩, ⟨[], ""⟩, ⟨[], "tls-2"⟩], []⟩⟩ =
      Except.error AnnotationError.MissingAnnotations :=
  ⟨((refSecrets_list mapGetters (⟨"", [], ⟨fun _ => []⟩⟩ : k8sStore Unit) _).2.1).trans
      (by decide),
    (refSecrets_list mapGetters (⟨"", [], ⟨fun _ => []⟩⟩ : k8sStore Unit) _).2.2.1
      "auth-secret" "other" "basic" (by decide) (by decide) (by decide) (by decide)
      (by decide),
    (refSecrets_list mapGetters (⟨"", [], ⟨fun _ => []⟩⟩ : k8sStore Unit) _).2.2.2.1
      "auth-tls-secret" "ca" (by decide) (by decide) (Or.inl (by decide)),
    (refSecrets_list mapGetters (⟨"", [], ⟨fun _ => []⟩⟩ : k8sStore Unit) _).2.2.2.2.2.2
      "proxy-ssl-secret" "a/b/c" (by decide) (by decide),
    (refSecrets_list mapGetters (⟨"", [], ⟨fun _ => []⟩⟩ : k8sStore Unit) _).2.2.2.2.1
      "secure-verify-ca-secret" AnnotationError.MissingAnnotations (by decide)⟩

/-! ## Getter failures in the canary parser -/

theorem orDefault_eq_getD {ε α : Type} (r : Except ε α) (d : α) :
    orDefault r d = r.toOption.getD d := by
  cases r <;> rfl

theorem canary_validate_ok (c config : canary.Config)
    (h : canary.validate c = Except.ok config) : config = c := by
  unfold canary.validate at h
  split_ifs at h
  exact (Except.ok.inj h).symm

/-- C23 as stated fails: for the annotations canary "true", canary-weight "abc" and
canary-weight-total "xyz" the integer getter fails on both weights with an error that is not
"annotation not present", and both canary parsers succeed with the defaults 0 and 100 in
place of the two weights; for canary "maybe" the flag is replaced by its default false. -/
theorem canary_default_on_unparseable :
    (mapGetters.GetIntAnnotationFromMCI "canary-weight" ⟨⟨"default", "web", 0,
        [("nginx.ingress.kubernetes.io/canary", "true"),
          ("nginx.ingress.kubernetes.io/canary-weight", "abc"),
          ("nginx.ingress.kubernetes.io/canary-weight-total", "xyz")]⟩, ⟨none, [], []⟩⟩ =
      Except.error (AnnotationError.Other "invalid annotation content: abc") ∧
      IsMissingAnnotations (AnnotationError.Other "invalid annotation content: abc") = false) ∧
    (mapGetters.GetIntAnnotationFromMCI "canary-weight-total" ⟨⟨"default", "web", 0,
        [("nginx.ingress.kubernetes.io/canary", "true"),
          ("nginx.ingress.kubernetes.io/canary-weight", "abc"),
          ("nginx.ingress.kubernetes.io/canary-weight-total", "xyz")]⟩, ⟨none, [], []⟩⟩ =
      Except.error (AnnotationError.Other "invalid annotation content: xyz") ∧
      IsMissingAnnotations (AnnotationError.Other "invalid annotation content: xyz") = false) ∧
    canary.ParseByMCI mapGetters ⟨⟨"default", "web", 0,
        [("nginx.ingress.kubernetes.io/canary", "true"),
          ("nginx.ingress.kubernetes.io/canary-weight", "abc"),
          ("nginx.ingress.kubernetes.io/canary-weight-total", "xyz")]⟩, ⟨none, [], []⟩⟩ =
      Except.ok ⟨true, 0, 100, "", "", "", ""⟩ ∧
    canary.Parse mapGetters ⟨⟨"default", "web", 0,
        [("nginx.ingress.kubernetes.io/canary", "true"),
          ("nginx.ingress.kubernetes.io/canary-weight", "abc"),
          ("nginx.ingress.kubernetes.io/canary-weight-total", "xyz")]⟩, ⟨none, [], []⟩⟩ =
      Except.ok ⟨true, 0, 100, "", "", "", ""⟩ ∧
    (mapGetters.GetBoolAnnotationFromMCI "canary" ⟨⟨"default", "web", 0,
        [("nginx.ingress.kubernetes.io/canary", "maybe")]⟩, ⟨none, [], []⟩⟩ =
      Except.error (AnnotationError.Other "invalid annotation content: maybe") ∧
      IsMissingAnnotations (AnnotationError.Other "invalid annotation content: maybe") =
        false) ∧
    canary.ParseByMCI mapGetters ⟨⟨"default", "web", 0,
        [("nginx.ingress.kubernetes.io/canary", "maybe")]⟩, ⟨none, [], []⟩⟩ =
      Except.ok ⟨false, 0, 100, "", "", "", ""⟩ := by
  refine ⟨⟨by decide, by decide⟩, ⟨by decide, by decide⟩, by decide, by decide,
    ⟨by decide, by decide⟩, by decide⟩

/-- C23, amended: the canary parsers do not tell "annotation not present" from another
failure of a getter.  Whenever a getter returns an error, of any kind, the field of a
returned configuration is its default (false for Enabled, 0 for Weight, 100 for WeightTotal,
the empty text for the others), and the result of the parser, error or configuration, depends
only on the values that the getters deliver: two sets of getters that deliver the same values
for the seven annotations give the same result, whatever errors they return. -/
theorem canary_default_on_any_error (parser parser2 : AnnotationGetters)
    (ing : networking.Ingress) (mci : karmadanetwork.MultiClusterIngress) :
    (∀ config, canary.Parse parser ing = Except.ok config →
      (∀ err, parser.GetBoolAnnotation "canary" ing = Except.error err →
        config.Enabled = false) ∧
      (∀ err, parser.GetIntAnnotation "canary-weight" ing = Except.error err →
        config.Weight = 0) ∧
      (∀ err, parser.GetIntAnnotation "canary-weight-total" ing = Except.error err →
        config.WeightTotal = 100) ∧
      (∀ err, parser.GetStringAnnotation "canary-by-header" ing = Except.error err →
        config.Header = "") ∧
      (∀ err, parser.GetStringAnnotation "canary-by-header-value" ing = Except.error err →
        config.HeaderValue = "") ∧
      (∀ err, parser.GetStringAnnotation "canary-by-header-pattern" ing = Except.error err →
        config.HeaderPattern = "") ∧
      (∀ err, parser.GetStringAnnotation "canary-by-cookie" ing = Except.error err →
        config.Cookie = "")) ∧
    (∀ config, canary.ParseByMCI parser mci = Except.ok config →
      (∀ err, parser.GetBoolAnnotationFromMCI "canary" mci = Except.error err →
        config.Enabled = false) ∧
      (∀ err, parser.GetIntAnnotationFromMCI "canary-weight" mci = Except.error err →
        config.Weight = 0) ∧
      (∀ err, parser.GetIntAnnotationFromMCI "canary-weight-total" mci = Except.error err →
        config.WeightTotal = 100) ∧
      (∀ err, parser.GetStringAnnotationFromMCI "canary-by-header" mci = Except.error err →
        config.Header = "") ∧
      (∀ err, parser.GetStringAnnotationFromMCI "canary-by-header-value" mci =
        Except.error err → config.HeaderValue = "") ∧
      (∀ err, parser.GetStringAnnotationFromMCI "canary-by-header-pattern" mci =
        Except.error err → config.HeaderPattern = "") ∧
      (∀ err, parser.GetStringAnnotationFromMCI "canary-by-cookie" mci = Except.error err →
        config.Cookie = "")) ∧
    ((parser.GetBoolAnnotation "canary" ing).toOption =
        (parser2.GetBoolAnnotation "canary" ing).toOption ∧
      (parser.GetIntAnnotation "canary-weight" ing).toOption =
        (parser2.GetIntAnnotation "canary-weight" ing).toOption ∧
      (parser.GetIntAnnotation "canary-weight-total" ing).toOption =
        (parser2.GetIntAnnotation "canary-weight-total" ing).toOption ∧
      (parser.GetStringAnnotation "canary-by-header" ing).toOption =
        (parser2.GetStringAnnotation "canary-by-header" ing).toOption ∧
      (parser.GetStringAnnotation "canary-by-header-value" ing).toOption =
        (parser2.GetStringAnnotation "canary-by-header-value" ing).toOption ∧
      (parser.GetStringAnnotation "canary-by-header-pattern" ing).toOption =
        (parser2.GetStringAnnotation "canary-by-header-pattern" ing).toOption ∧
      (parser.GetStringAnnotation "canary-by-cookie" ing).toOption =
        (parser2.GetStringAnnotation "canary-by-cookie" ing).toOption →
      canary.Parse parser ing = canary.Parse parser2 ing) ∧
    ((parser.GetBoolAnnotationFromMCI "canary" mci).toOption =
        (parser2.GetBoolAnnotationFromMCI "canary" mci).toOption ∧
      (parser.GetIntAnnotationFromMCI "canary-weight" mci).toOption =
        (parser2.GetIntAnnotationFromMCI "canary-weight" mci).toOption ∧
      (parser.GetIntAnnotationFromMCI "canary-weight-total" mci).toOption =
        (parser2.GetIntAnnotationFromMCI "canary-weight-total" mci).toOption ∧
      (parser.GetStringAnnotationFromMCI "canary-by-header" mci).toOption =
        (parser2.GetStringAnnotationFromMCI "canary-by-header" mci).toOption ∧
      (parser.GetStringAnnotationFromMCI "canary-by-header-value" mci).toOption =
        (parser2.GetStringAnnotationFromMCI "canary-by-header-value" mci).toOption ∧
      (parser.GetStringAnnotationFromMCI "canary-by-header-pattern" mci).toOption =
        (parser2.GetStringAnnotationFromMCI "canary-by-header-pattern" mci).toOption ∧
      (parser.GetStringAnnotationFromMCI "canary-by-cookie" mci).toOption =
        (parser2.GetStringAnnotationFromMCI "canary-by-cookie" mci).toOption →
      canary.ParseByMCI parser mci = canary.ParseByMCI parser2 mci) := by
  refine ⟨fun config h => ?_, fun config h => ?_, ?_, ?_⟩
  · unfold canary.Parse at h
    rw [canary_validate_ok _ _ h]
    refine ⟨?_, ?_, ?_, ?_, ?_, ?_, ?_⟩ <;>
    · intro err herr
      simp only [herr, orDefault]
  · unfold canary.ParseByMCI at h
    rw [canary_validate_ok _ _ h]
    refine ⟨?_, ?_, ?_, ?_, ?_, ?_, ?_⟩ <;>
    · intro err herr
      simp only [herr, orDefault]
  · rintro ⟨h1, h2, h3, h4, h5, h6, h7⟩
    unfold canary.Parse
    simp only [orDefault_eq_getD, h1, h2, h3, h4, h5, h6, h7]
  · rintro ⟨h1, h2, h3, h4, h5, h6, h7⟩
    unfold canary.ParseByMCI
    simp only [orDefault_eq_getD, h1, h2, h3, h4, h5, h6, h7]

/-- The unparseable weight "abc" of an enabled canary: the returned weight is the default 0,
and the result is the one of getters that report every annotation but canary as absent. -/
theorem canary_default_on_any_error_witness :
    (⟨true, 0, 100, "", "", "", ""⟩ : canary.Config).Weight = 0 ∧
    canary.ParseByMCI mapGetters ⟨⟨"default", "web", 0,
        [("nginx.ingress.kubernetes.io/canary", "true"),
          ("nginx.ingress.kubernetes.io/canary-weight", "abc")]⟩, ⟨none, [], []⟩⟩ =
      canary.ParseByMCI
        ⟨fun _ _ => Except.error AnnotationError.MissingAnnotations,
          fun _ _ => Except.error AnnotationError.MissingAnnotations,
          fun _ _ => Except.error AnnotationError.MissingAnnotations,
          fun name _ => if name = "canary" then Except.ok true
            else Except.error AnnotationError.MissingAnnotations,
          fun _ _ => Except.error AnnotationError.MissingAnnotations,
          fun _ _ => Except.error AnnotationError.MissingAnnotations⟩
        ⟨⟨"default", "web", 0,
          [("nginx.ingress.kubernetes.io/canary", "true"),
            ("nginx.ingress.kubernetes.io/canary-weight", "abc")]⟩, ⟨none, [], []⟩⟩ :=
  ⟨((canary_default_on_any_error mapGetters mapGetters ⟨⟨"", "", 0, []⟩, ⟨none, [], []⟩⟩
      ⟨⟨"default", "web", 0, [("nginx.ingress.kubernetes.io/canary", "true"),
        ("nginx.ingress.kubernetes.io/canary-weight", "abc")]⟩, ⟨none, [], []⟩⟩).2.1
      ⟨true, 0, 100, "", "", "", ""⟩ (by decide)).2.1
      (AnnotationError.Other "invalid annotation content: abc") (by decide),
    (canary_default_on_any_error mapGetters
      ⟨fun _ _ => Except.error AnnotationError.MissingAnnotations,
        fun _ _ => Except.error AnnotationError.MissingAnnotations,
        fun _ _ => Except.error AnnotationError.MissingAnnotations,
        fun name _ => if name = "canary" then Except.ok true
          else Except.error AnnotationError.MissingAnnotations,
        fun _ _ => Except.error AnnotationError.MissingAnnotations,
        fun _ _ => Except.error AnnotationError.MissingAnnotations⟩
      ⟨⟨"", "", 0, []⟩, ⟨none, [], []⟩⟩
      ⟨⟨"default", "web", 0, [("nginx.ingress.kubernetes.io/canary", "true"),
        ("nginx.ingress.kubernetes.io/canary-weight", "abc")]⟩, ⟨none, [], []⟩⟩).2.2.2
      (by decide)⟩

end Karmada
